import Mathlib

/-!
# The MyString library of `Ex3_Custom_Cstring/MyString.c`

A shallow embedding of the dynamic string type and of its operations.  The Nim game of
`Ex1_NIM/NimGame.c` and the substring count of `Ex2_Perceptron/MyString.c` follow it, each in
a namespace of its own.

* A `char` is the integer value it holds; a buffer is the list of the chars of the
  allocated block, so `stringArray.length` is the size of the block.
* A handle (`MyString *`, `const char *`) that the code tests against `NULL` is an
  `Option`; an operation that writes through a handle returns the new state of the object.
* The C library allocator is outside the program.  Every call of `malloc` gets the
  indeterminate contents of the fresh block as a function `junk` from offsets to chars, every
  call of `realloc` gets its outcome: `none` when it fails, `some junk` when it succeeds.
  `malloc` calls whose result the code dereferences unchecked are taken to succeed.
* `unsigned long` and `long` are 64 bits wide, `int` is 32 bits wide (LP64).  The conversions
  between them, and the conversion of a `double` to `int`, are written out (`toLong`,
  `toULong`, `toInt32`, `doubleToInt`).
* The operations that compare handles or hand out the handle of a new object
  (`myStringCatTo`, `myStringCat`, `myStringSort`) work on a store, a function from addresses
  to the objects found there; a handle is then the address, `none` for `NULL`.
* An output stream is the sequence of the bytes written to it; every call of `fputs` gets its
  outcome as the calls of the allocator do.
* The header `MyString.h` is not among the sources.  The value of `MYSTR_ERROR_CODE` is a
  parameter of every operation that returns it.
-/

namespace MyStr

/-! ## Constants of the source file -/

abbrev NULL_BYTE : Int := 0
abbrev EMPTY : Nat := 0
abbrev START_SIZE : Nat := 16
abbrev FIRST_INDEX : Nat := 0
abbrev POSITIVE : Int := 1
abbrev NEGATIVE : Int := -1
abbrev MINUS : Int := 45
abbrev NINE : Int := 57
abbrev ZERO : Int := 48
abbrev BASE : Nat := 10
abbrev CHAR_TO_INT : Int := 48
abbrev SMALLER_THAN_ZERO : Int := 0
abbrev SAME : Int := 0
abbrev BIGGER : Int := 1
abbrev SMALLER : Int := -1
abbrev EQUAL : Int := 1
abbrev UNEQUAL : Int := 0

/-- The sizes `sizeof (unsigned long)` and `sizeof (char *)` of the LP64 target. -/
abbrev SIZEOF_UNSIGNED_LONG : Nat := 8
abbrev SIZEOF_POINTER : Nat := 8

/-! ## Machine integers -/

/-- Conversion to `unsigned long`: reduction modulo `2^64`. -/
def toULong (x : Int) : Nat := (x % 2 ^ 64).toNat

/-- Conversion of an `unsigned long` to `long`: the two's complement reading of the 64 bits. -/
def toLong (n : Nat) : Int :=
  if n % 2 ^ 64 < 2 ^ 63 then ((n % 2 ^ 64 : Nat) : Int) else ((n % 2 ^ 64 : Nat) : Int) - 2 ^ 64

/-- Conversion to `int`: value preserving on `[-2^31, 2^31)`; outside of it, where C leaves the
result open, the two's complement wrap-around. -/
def toInt32 (x : Int) : Int :=
  if x % 2 ^ 32 < 2 ^ 31 then x % 2 ^ 32 else x % 2 ^ 32 - 2 ^ 32

/-- Conversion of a `double` that holds an integer to `int`: the value itself on
`[-2^31, 2^31)`; outside of it, where C leaves the result open, the `int` the conversion
instruction of the target (x86-64) gives, `-2^31`. -/
def doubleToInt (x : Int) : Int :=
  if -2 ^ 31 ≤ x ∧ x < 2 ^ 31 then x else -2 ^ 31

/-! ## Data model -/

/-- Modelled from the spec: the enumeration `MyStringRetVal` is declared in the missing header
`MyString.h`; the code uses its two values, success and error. -/
inductive MyStringRetVal where
  | MYSTRING_SUCCESS
  | MYSTRING_ERROR
deriving DecidableEq

open MyStringRetVal

/-- The `struct _MyString`: the allocated block, the length of the string, the size of the
block. -/
structure MyString where
  stringArray : List Int
  stringSize : Nat
  realSize : Nat
deriving DecidableEq

/-- A well formed instance: `realSize` is the size of the allocated block, the string fits in
it, and the block is an object the allocator can return (smaller than `2^63` bytes). -/
def MyString.Valid (s : MyString) : Prop :=
  s.stringArray.length = s.realSize ∧ s.stringSize ≤ s.realSize ∧ s.realSize < 2 ^ 63

instance (s : MyString) : Decidable s.Valid := by
  unfold MyString.Valid; infer_instance

/-- The logical content: the first `stringSize` chars of the block. -/
def MyString.content (s : MyString) : List Int := s.stringArray.take s.stringSize

/-! ## C library -/

/-- The block after `memcpy(dst, src, n)`; both blocks hold at least `n` chars. -/
def memcpy (dst src : List Int) (n : Nat) : List Int := src.take n ++ dst.drop n

/-- The block after `memcpy(dst + offset, src, n)`; the block `dst` holds at least
`offset + n` chars and `src` at least `n`. -/
def memcpyAt (dst : List Int) (offset : Nat) (src : List Int) (n : Nat) : List Int :=
  dst.take offset ++ src.take n ++ dst.drop (offset + n)

/-- The block after `memset(block, c, n)`. -/
def memset (block : List Int) (c : Int) (n : Nat) : List Int :=
  List.replicate n c ++ block.drop n

/-- A fresh block of `size` chars with indeterminate contents. -/
def malloc (junk : Nat → Int) (size : Nat) : List Int := (List.range size).map junk

/-- The block `realloc(block, newSize)` returns: the old chars up to the smaller of the two
sizes, then indeterminate ones; `none` when the reallocation fails.  A request for zero bytes
frees the block and returns the null pointer whatever the memory left, as the C library of
the target (glibc) does. -/
def realloc (outcome : Option (Nat → Int)) (block : List Int) (newSize : Nat) :
    Option (List Int) :=
  if newSize = 0 then none
  else
    outcome.map fun junk =>
      block.take newSize ++ (List.range (newSize - block.length)).map junk

/-! ## Static helpers -/

def buildMyString (junk : Nat → Int) (memory : Nat) : MyString :=
  { stringArray := malloc junk memory, stringSize := memory, realSize := memory }

def myStringRealSize (str1 : MyString) : Nat := str1.realSize

def reSizeStringArray (outcome : Option (Nat → Int)) (str : MyString) (newSize : Nat) :
    MyStringRetVal × MyString :=
  if myStringRealSize str < newSize || myStringRealSize str - newSize > 16 then
    match realloc outcome str.stringArray newSize with
    | none => (MYSTRING_ERROR, str)
    | some temp => (MYSTRING_SUCCESS, { str with stringArray := temp, realSize := newSize })
  else
    (MYSTRING_SUCCESS, str)

/-- The scan of `getCStringLength` over the chars found from the pointer on: the number of
chars before the first null byte. -/
def getCStringLength : List Int → Nat
  | [] => 0
  | c :: rest => if c ≠ NULL_BYTE then getCStringLength rest + 1 else 0

/-- The value `fputs(s, stream)` returns (`false` for `EOF`) and the stream it leaves, the
stream being the sequence of the bytes written to it: the chars of `s` before its first null
byte are appended.  `failure` is `none` when the call succeeds and `some w` when it fails
after the bytes `w` have reached the stream. -/
def fputs (failure : Option (List Int)) (s : List Int) (stream : List Int) :
    Bool × List Int :=
  match failure with
  | none => (true, stream ++ s.take (getCStringLength s))
  | some w => (false, stream ++ w)

/-- The char `*(block + i)`. -/
def readChar (block : List Int) (i : Nat) : Int := block.getD i 0

/-! ### Double arithmetic

`getLengthOfInt` and `myStringSetFromInt` divide an `int` by `pow(BASE, k)` in `double`.
`pow(BASE, k)` is finite for `k ≤ 308` and is `+infinity` from `k = 309` on, where the
quotient of a finite number by it is a zero.  For a 32-bit `n` and `k ≤ 308` the floor and the
truncation of the double quotient are those of the exact quotient: up to `k = 22` the power is
exact and the correctly rounded quotient of two integers below `2^53` lies on the same side of
every integer as the exact one; beyond, both quotients lie strictly between `-1` and `1` and
have the sign of `n`. -/

/-- The double `floor(n / pow(BASE, k))`. -/
def floorQuotient (n : Int) (k : Nat) : Int :=
  if k ≤ 308 then n / (BASE : Int) ^ k else 0

/-- The `long` that `n / pow(BASE, k)` converts to (truncation toward zero). -/
def truncQuotient (n : Int) (k : Nat) : Int :=
  if k ≤ 308 then Int.tdiv n ((BASE : Int) ^ k) else 0

/-- The `while (value != EMPTY)` loop of `getLengthOfInt`.  `fuel` bounds the number of
iterations; `value` is zero at `digitLength = 309` at the latest. -/
def getLengthOfIntLoop (n : Int) : (fuel : Nat) → (digitLength : Nat) → (value : Int) → Nat
  | 0, digitLength, _ => digitLength
  | fuel + 1, digitLength, value =>
    if value ≠ 0 then
      getLengthOfIntLoop n fuel (digitLength + 1) (floorQuotient n (digitLength + 1))
    else
      digitLength

def getLengthOfInt (n : Int) : Int :=
  let n := if n < SMALLER_THAN_ZERO then toInt32 (n * NEGATIVE) else n
  ((getLengthOfIntLoop n 310 0 (floorQuotient n 0) : Nat) : Int)

/-- The comparators get pointers to chars; `none` is the null pointer. -/
def defCompare (MYSTR_ERROR_CODE : Int) (char1 char2 : Option Int) : Int :=
  match char1, char2 with
  | some c1, some c2 =>
    if c1 = c2 then SAME
    else if c1 > c2 then BIGGER
    else SMALLER
  | _, _ => MYSTR_ERROR_CODE

/-- The `for` loop of `checkEquality` from index `i` on, with `left = size - i` iterations to
go. -/
def checkEqualityFrom (str1 str2 : MyString) (foo : Int → Int → Int) :
    (left : Nat) → (i : Nat) → Int
  | 0, _ => SAME
  | left + 1, i =>
    let tempResult := foo (readChar str1.stringArray i) (readChar str2.stringArray i)
    if tempResult ≠ SAME then tempResult
    else checkEqualityFrom str1 str2 foo left (i + 1)

def checkEquality (size : Nat) (str1 str2 : MyString) (foo : Int → Int → Int) : Int :=
  checkEqualityFrom str1 str2 foo size 0

def logicalEqual (char1 char2 : Int) : Int :=
  if char1 = char2 then 0 else 1

def MIN (a b : Int) : Int := if a < b then a else b

/-! ## Public operations -/

section
variable (MYSTR_ERROR_CODE : Int)

def myStringLen (str1 : Option MyString) : Nat :=
  match str1 with
  | none => toULong MYSTR_ERROR_CODE
  | some s => s.stringSize

def myStringAlloc (junk : Nat → Int) : MyString :=
  let newString := buildMyString junk START_SIZE
  let newString :=
    { newString with stringArray := memset newString.stringArray 0 START_SIZE }
  let newString :=
    { newString with stringArray := newString.stringArray.set FIRST_INDEX NULL_BYTE }
  { newString with stringSize := EMPTY }

def myStringSetFromMyString (outcome : Option (Nat → Int)) (str other : Option MyString) :
    MyStringRetVal × Option MyString :=
  match str, other with
  | some s, some o =>
    let StringLength := myStringLen MYSTR_ERROR_CODE (some o)
    let s := { s with stringSize := StringLength }
    let StringLength := if StringLength = 0 then 16 else StringLength
    match reSizeStringArray outcome s StringLength with
    | (MYSTRING_ERROR, s) => (MYSTRING_ERROR, some s)
    | (MYSTRING_SUCCESS, s) =>
      let StringLength := if myStringLen MYSTR_ERROR_CODE (some o) = 0 then 1 else StringLength
      (MYSTRING_SUCCESS,
        some { s with stringArray := memcpy s.stringArray o.stringArray StringLength })
  | _, _ => (MYSTRING_ERROR, str)

def myStringSetFromCString (junk : Nat → Int) (outcome : Option (Nat → Int))
    (str : Option MyString) (cString : Option (List Int)) : MyStringRetVal × Option MyString :=
  match str, cString with
  | some s, some cs =>
    let cStringLength := getCStringLength cs
    if cStringLength = EMPTY then
      let tempStruct := myStringAlloc junk
      let str := (myStringSetFromMyString MYSTR_ERROR_CODE outcome (some s) (some tempStruct)).2
      (MYSTRING_SUCCESS, str.map fun s => { s with stringSize := cStringLength })
    else
      match reSizeStringArray outcome s cStringLength with
      | (MYSTRING_ERROR, s) => (MYSTRING_ERROR, some s)
      | (MYSTRING_SUCCESS, s) =>
        let s := { s with stringArray := memcpy s.stringArray cs cStringLength }
        (MYSTRING_SUCCESS, some { s with stringSize := cStringLength })
  | _, _ => (MYSTRING_ERROR, str)

/-- The C string `myStringToCString` returns (`none` is `NULL`); `fresh` is the outcome of its
`malloc`. -/
def myStringToCString (fresh : Option (Nat → Int)) (str : Option MyString) :
    Option (List Int) :=
  match str with
  | none => none
  | some s =>
    let size := myStringLen MYSTR_ERROR_CODE (some s)
    match fresh.map fun junk => malloc junk (size + 1) with
    | none => none
    | some newCString =>
      let newCString := memcpy newCString s.stringArray size
      some (newCString.set size NULL_BYTE)

/-- The `for` loop of `myStringToInt` from index `i` on, with `left` iterations to go.  `BASE`
is the double `10.0`, so `BASE * result + digit` is computed in `double`, where it is exact
(it stays below `2^53`), and converted to `int` by the assignment; `result * sign` is a
product of two `int`. -/
def myStringToIntFrom (toCheck : List Int) :
    (left : Nat) → (i : Nat) → (result sign : Int) → Int
  | 0, _, result, sign => toInt32 (result * sign)
  | left + 1, i, result, sign =>
    if readChar toCheck i ≤ NINE ∧ readChar toCheck i ≥ ZERO then
      myStringToIntFrom toCheck left (i + 1)
        (doubleToInt ((BASE : Int) * result + (readChar toCheck i - CHAR_TO_INT))) sign
    else if i = FIRST_INDEX ∧ readChar toCheck 0 = MINUS then
      myStringToIntFrom toCheck left (i + 1) result NEGATIVE
    else
      MYSTR_ERROR_CODE

def myStringToInt (str : Option MyString) : Int :=
  match str with
  | none => MYSTR_ERROR_CODE
  | some s =>
    if myStringLen MYSTR_ERROR_CODE (some s) = EMPTY then MYSTR_ERROR_CODE
    else
      myStringToIntFrom MYSTR_ERROR_CODE s.stringArray
        (myStringLen MYSTR_ERROR_CODE (some s)) 0 (EMPTY : Nat) POSITIVE

/-- The `for` loop of `myStringSetFromInt` from index `i` on, with `left = stringLength - i`
iterations to go.  `digitCounter` equals `left` throughout, so it is never decremented
below zero. -/
def myStringSetFromIntFrom :
    (left : Nat) → (toCheck : List Int) → (i : Nat) → (n : Int) → (digitCounter : Nat) →
      List Int
  | 0, toCheck, _, _, _ => toCheck
  | left + 1, toCheck, i, n, digitCounter =>
    let divider := truncQuotient n (digitCounter - 1)
    let toCheck := toCheck.set i (divider + CHAR_TO_INT)
    let n := toInt32 (n - (BASE : Int) ^ (digitCounter - 1) * divider)
    myStringSetFromIntFrom left toCheck (i + 1) n (digitCounter - 1)

def myStringSetFromInt (outcome : Option (Nat → Int)) (str : Option MyString) (n : Int) :
    MyStringRetVal × Option MyString :=
  match str with
  | none => (MYSTRING_ERROR, none)
  | some s =>
    let stringLength := toULong (getLengthOfInt n)
    let stringLength := if n ≤ SMALLER_THAN_ZERO then stringLength + 1 else stringLength
    let s := (reSizeStringArray outcome s stringLength).2
    let s := { s with stringSize := stringLength }
    let toCheck := s.stringArray
    let toCheck :=
      if n < 0 then
        myStringSetFromIntFrom (stringLength - (FIRST_INDEX + 1)) (toCheck.set 0 MINUS)
          (FIRST_INDEX + 1) (toInt32 (n * NEGATIVE)) (stringLength - 1)
      else
        myStringSetFromIntFrom (stringLength - FIRST_INDEX) toCheck FIRST_INDEX n stringLength
    (MYSTRING_SUCCESS, some { s with stringArray := toCheck })

/-- The `for` loop of `myStringFilter` from index `i` on, with `left` iterations to go; it
returns `amountFound` and the temporary array. -/
def myStringFilterFrom (filt : Int → Bool) (stringArray : List Int) :
    (left : Nat) → (i : Nat) → (amountFound : Nat) → (tempArray : List Int) → Nat × List Int
  | 0, _, amountFound, tempArray => (amountFound, tempArray)
  | left + 1, i, amountFound, tempArray =>
    if filt (readChar stringArray i) = true then
      myStringFilterFrom filt stringArray left (i + 1) (amountFound + 1) tempArray
    else
      myStringFilterFrom filt stringArray left (i + 1) amountFound
        (tempArray.set (i - amountFound) (readChar stringArray i))

/-- The filter gets a pointer to a char and is read as a function of that char. -/
def myStringFilter (junk : Nat → Int) (str : Option MyString) (filt : Int → Bool) :
    MyStringRetVal × Option MyString :=
  match str with
  | none => (MYSTRING_ERROR, none)
  | some s =>
    let tempArray := malloc junk (myStringLen MYSTR_ERROR_CODE (some s))
    let (amountFound, tempArray) :=
      myStringFilterFrom filt s.stringArray (myStringLen MYSTR_ERROR_CODE (some s)) 0 EMPTY
        tempArray
    let s := { s with stringSize := s.stringSize - amountFound }
    let s :=
      { s with
        stringArray := memcpy s.stringArray tempArray (myStringLen MYSTR_ERROR_CODE (some s)) }
    (MYSTRING_SUCCESS, some s)

def myStringCustomCompare (str1 str2 : Option MyString) (foo : Int → Int → Int) : Int :=
  match str1, str2 with
  | some s1, some s2 =>
    let size1 := toLong (myStringLen MYSTR_ERROR_CODE (some s1))
    let size2 := toLong (myStringLen MYSTR_ERROR_CODE (some s2))
    let minSize := MIN size1 size2
    let result := checkEquality (toULong minSize) s1 s2 foo
    if result ≠ SAME then result
    else if size1 = size2 then SAME
    else if size1 > size2 then BIGGER
    else SMALLER
  | _, _ => MYSTR_ERROR_CODE

def myStringCompare (str1 str2 : Option MyString) : Int :=
  myStringCustomCompare MYSTR_ERROR_CODE str1 str2
    fun c1 c2 => defCompare MYSTR_ERROR_CODE (some c1) (some c2)

def myStringCustomEqual (str1 str2 : Option MyString) (foo : Int → Int → Int) : Int :=
  match str1, str2 with
  | some s1, some s2 =>
    let size1 := toLong (myStringLen MYSTR_ERROR_CODE (some s1))
    let size2 := toLong (myStringLen MYSTR_ERROR_CODE (some s2))
    if size1 ≠ size2 then UNEQUAL
    else
      let result := checkEquality (toULong size1) s1 s2 foo
      if result = SAME then EQUAL else UNEQUAL
  | _, _ => MYSTR_ERROR_CODE

def myStringEqual (str1 str2 : Option MyString) : Int :=
  myStringCustomEqual MYSTR_ERROR_CODE str1 str2 logicalEqual

/-- The new object `myStringClone` returns (`none` is `NULL`); `junk` is what the one block
allocated on the way holds at first, `outcome` the outcome of a reallocation. -/
def myStringClone (junk : Nat → Int) (outcome : Option (Nat → Int)) (str : Option MyString) :
    Option MyString :=
  let size := myStringLen MYSTR_ERROR_CODE str
  if size = EMPTY then
    some (myStringAlloc junk)
  else
    let newString := buildMyString junk (myStringLen MYSTR_ERROR_CODE str)
    (myStringSetFromMyString MYSTR_ERROR_CODE outcome (some newString) str).2

/-- The store after the object behind the handle `p` has taken the state `v`. -/
def writeBack (mem : Nat → MyString) (p : Option Nat) (v : Option MyString) : Nat → MyString :=
  match p, v with
  | some a, some s => Function.update mem a s
  | _, _ => mem

def myStringCatTo (outcome : Option (Nat → Int)) (mem : Nat → MyString)
    (str1 str2 result : Option Nat) : MyStringRetVal × (Nat → MyString) :=
  match str1, str2, result with
  | some p1, some p2, some r =>
    if result = str1 ∨ result = str2 then (MYSTRING_ERROR, mem)
    else
      let totalSize :=
        (myStringLen MYSTR_ERROR_CODE (some (mem p1)) +
          myStringLen MYSTR_ERROR_CODE (some (mem p2))) % 2 ^ 64
      match reSizeStringArray outcome (mem r) totalSize with
      | (MYSTRING_ERROR, res) => (MYSTRING_ERROR, Function.update mem r res)
      | (MYSTRING_SUCCESS, res) =>
        let mem := Function.update mem r { res with stringSize := totalSize }
        let mem := Function.update mem r
          { mem r with
            stringArray := memcpy (mem r).stringArray (mem p1).stringArray
              (myStringLen MYSTR_ERROR_CODE (some (mem p1))) }
        let mem := Function.update mem r
          { mem r with
            stringArray := memcpyAt (mem r).stringArray
              (myStringLen MYSTR_ERROR_CODE (some (mem p1))) (mem p2).stringArray
              (myStringLen MYSTR_ERROR_CODE (some (mem p2))) }
        (MYSTRING_SUCCESS, mem)
  | _, _, _ => (MYSTRING_ERROR, mem)

/-- The store after `myStringCat`.  `tempStruct` is the address `myStringAlloc` returns for the
temporary, `outcomeCat` and `outcomeSet` are the outcomes of the reallocations in
`myStringCatTo` and in `myStringSetFromMyString`.  The temporary, freed at the end, is left
in the store. -/
def myStringCat (junk : Nat → Int) (outcomeCat outcomeSet : Option (Nat → Int))
    (mem : Nat → MyString) (tempStruct : Nat) (dest src : Option Nat) :
    MyStringRetVal × (Nat → MyString) :=
  let mem := Function.update mem tempStruct (myStringAlloc junk)
  match myStringCatTo MYSTR_ERROR_CODE outcomeCat mem dest src (some tempStruct) with
  | (MYSTRING_ERROR, mem) => (MYSTRING_ERROR, mem)
  | (MYSTRING_SUCCESS, mem) =>
    let mem := writeBack mem dest
      (myStringSetFromMyString MYSTR_ERROR_CODE outcomeSet (dest.map mem)
        (some (mem tempStruct))).2
    (MYSTRING_SUCCESS, mem)

/-- The comparison `qsort` calls gets pointers to two slots of the array and compares the
instances whose handles the slots hold. -/
def compareCaster (mem : Nat → MyString) (str1 str2 : Option Nat) : Int :=
  myStringCompare MYSTR_ERROR_CODE (str1.map mem) (str2.map mem)

/-- The array after `myStringCustomSort`.  `qsort` is the function of the C library, taken as
a function from the comparison and the `len` slots it is given to their new contents. -/
def myStringCustomSort
    (qsort : (Option Nat → Option Nat → Int) → List (Option Nat) → List (Option Nat))
    (arr : List (Option Nat)) (len : Int) (foo : Option Nat → Option Nat → Int) :
    List (Option Nat) :=
  qsort foo (arr.take (toULong len)) ++ arr.drop (toULong len)

def myStringSort
    (qsort : (Option Nat → Option Nat → Int) → List (Option Nat) → List (Option Nat))
    (mem : Nat → MyString) (arr : List (Option Nat)) (len : Int) : List (Option Nat) :=
  myStringCustomSort qsort arr len (compareCaster MYSTR_ERROR_CODE mem)

def myStringMemUsage (str1 : Option MyString) : Nat :=
  match str1 with
  | none => toULong MYSTR_ERROR_CODE
  | some s =>
    (SIZEOF_UNSIGNED_LONG + SIZEOF_UNSIGNED_LONG + SIZEOF_POINTER + myStringRealSize s) % 2 ^ 64

/-- The value `myStringWrite` returns and the stream it leaves; `fresh` is the outcome of the
`malloc` in `myStringToCString`, `failure` the outcome of `fputs`.  The stream is given open
for writing. -/
def myStringWrite (fresh : Option (Nat → Int)) (failure : Option (List Int))
    (str : Option MyString) (stream : List Int) : MyStringRetVal × List Int :=
  match myStringToCString MYSTR_ERROR_CODE fresh str with
  | none => (MYSTRING_ERROR, stream)
  | some newCString =>
    match fputs failure newCString stream with
    | (false, stream) => (MYSTRING_ERROR, stream)
    | (true, stream) => (MYSTRING_SUCCESS, stream)

end

/-! ## The operations with their reads

Every operation that reads chars of an instance, once more, now giving with its result the
offsets in the block of the instance at which it reads, in the order of the reads.  The result
is the one of the operation above (the theorems `..._fst`).  The allocator moving a block is
not a read of the operation; `myStringSetFromInt` writes chars and reads none; the sorting
functions read through `myStringCompare` or the comparison they are given. -/

section
variable (MYSTR_ERROR_CODE : Int)

/-- The call `memcpy(dst, src, n)`: the block it leaves and the offsets it reads in `src`. -/
def memcpyTraced (dst src : List Int) (n : Nat) : List Int × List Nat :=
  (memcpy dst src n, List.range n)

/-- The call `memcpy(dst + offset, src, n)`: the block it leaves and the offsets it reads in
`src`. -/
def memcpyAtTraced (dst : List Int) (offset : Nat) (src : List Int) (n : Nat) :
    List Int × List Nat :=
  (memcpyAt dst offset src n, List.range n)

/-- The loop of `checkEquality` with the offsets of the chars it hands to the comparator, the
same in both blocks. -/
def checkEqualityTracedFrom (str1 str2 : MyString) (foo : Int → Int → Int) :
    (left : Nat) → (i : Nat) → Int × List Nat
  | 0, _ => (SAME, [])
  | left + 1, i =>
    let tempResult := foo (readChar str1.stringArray i) (readChar str2.stringArray i)
    if tempResult ≠ SAME then (tempResult, [i])
    else
      let rest := checkEqualityTracedFrom str1 str2 foo left (i + 1)
      (rest.1, i :: rest.2)

def checkEqualityTraced (size : Nat) (str1 str2 : MyString) (foo : Int → Int → Int) :
    Int × List Nat :=
  checkEqualityTracedFrom str1 str2 foo size 0

/-- The operation `myStringCustomCompare` with the offsets it reads, in the block of `str1` and
in that of `str2` alike. -/
def myStringCustomCompareTraced (str1 str2 : Option MyString) (foo : Int → Int → Int) :
    Int × List Nat :=
  match str1, str2 with
  | some s1, some s2 =>
    let size1 := toLong (myStringLen MYSTR_ERROR_CODE (some s1))
    let size2 := toLong (myStringLen MYSTR_ERROR_CODE (some s2))
    let minSize := MIN size1 size2
    let result := checkEqualityTraced (toULong minSize) s1 s2 foo
    if result.1 ≠ SAME then result
    else if size1 = size2 then (SAME, result.2)
    else if size1 > size2 then (BIGGER, result.2)
    else (SMALLER, result.2)
  | _, _ => (MYSTR_ERROR_CODE, [])

/-- The operation `myStringCustomEqual` with the offsets it reads, in the block of `str1` and
in that of `str2` alike. -/
def myStringCustomEqualTraced (str1 str2 : Option MyString) (foo : Int → Int → Int) :
    Int × List Nat :=
  match str1, str2 with
  | some s1, some s2 =>
    let size1 := toLong (myStringLen MYSTR_ERROR_CODE (some s1))
    let size2 := toLong (myStringLen MYSTR_ERROR_CODE (some s2))
    if size1 ≠ size2 then (UNEQUAL, [])
    else
      let result := checkEqualityTraced (toULong size1) s1 s2 foo
      if result.1 = SAME then (EQUAL, result.2) else (UNEQUAL, result.2)
  | _, _ => (MYSTR_ERROR_CODE, [])

/-- The loop of `myStringToInt` with the offsets it reads: `*(toCheck + i)` in every turn, and
`*toCheck` when the char is not a digit and `i` is the first index. -/
def myStringToIntTracedFrom (toCheck : List Int) :
    (left : Nat) → (i : Nat) → (result sign : Int) → Int × List Nat
  | 0, _, result, sign => (toInt32 (result * sign), [])
  | left + 1, i, result, sign =>
    if readChar toCheck i ≤ NINE ∧ readChar toCheck i ≥ ZERO then
      let rest := myStringToIntTracedFrom toCheck left (i + 1)
        (doubleToInt ((BASE : Int) * result + (readChar toCheck i - CHAR_TO_INT))) sign
      (rest.1, i :: rest.2)
    else if i = FIRST_INDEX ∧ readChar toCheck 0 = MINUS then
      let rest := myStringToIntTracedFrom toCheck left (i + 1) result NEGATIVE
      (rest.1, i :: 0 :: rest.2)
    else
      (MYSTR_ERROR_CODE, if i = FIRST_INDEX then [i, 0] else [i])

def myStringToIntTraced (str : Option MyString) : Int × List Nat :=
  match str with
  | none => (MYSTR_ERROR_CODE, [])
  | some s =>
    if myStringLen MYSTR_ERROR_CODE (some s) = EMPTY then (MYSTR_ERROR_CODE, [])
    else
      myStringToIntTracedFrom MYSTR_ERROR_CODE s.stringArray
        (myStringLen MYSTR_ERROR_CODE (some s)) 0 (EMPTY : Nat) POSITIVE

/-- The loop of `myStringFilter` with the offsets it reads: the char at `i` is handed to the
filter and, when it is kept, read again for the copy. -/
def myStringFilterTracedFrom (filt : Int → Bool) (stringArray : List Int) :
    (left : Nat) → (i : Nat) → (amountFound : Nat) → (tempArray : List Int) →
      (Nat × List Int) × List Nat
  | 0, _, amountFound, tempArray => ((amountFound, tempArray), [])
  | left + 1, i, amountFound, tempArray =>
    if filt (readChar stringArray i) = true then
      let rest := myStringFilterTracedFrom filt stringArray left (i + 1) (amountFound + 1)
        tempArray
      (rest.1, i :: rest.2)
    else
      let rest := myStringFilterTracedFrom filt stringArray left (i + 1) amountFound
        (tempArray.set (i - amountFound) (readChar stringArray i))
      (rest.1, i :: i :: rest.2)

/-- The operation `myStringFilter` with the offsets it reads in the block of `str`; the last
`memcpy` reads the temporary array. -/
def myStringFilterTraced (junk : Nat → Int) (str : Option MyString) (filt : Int → Bool) :
    (MyStringRetVal × Option MyString) × List Nat :=
  match str with
  | none => ((MYSTRING_ERROR, none), [])
  | some s =>
    let tempArray := malloc junk (myStringLen MYSTR_ERROR_CODE (some s))
    let loop :=
      myStringFilterTracedFrom filt s.stringArray (myStringLen MYSTR_ERROR_CODE (some s)) 0
        EMPTY tempArray
    let s1 := { s with stringSize := s.stringSize - loop.1.1 }
    let s2 :=
      { s1 with
        stringArray := memcpy s1.stringArray loop.1.2 (myStringLen MYSTR_ERROR_CODE (some s1)) }
    ((MYSTRING_SUCCESS, some s2), loop.2)

/-- The operation `myStringToCString` with the offsets it reads in the block of `str`. -/
def myStringToCStringTraced (fresh : Option (Nat → Int)) (str : Option MyString) :
    Option (List Int) × List Nat :=
  match str with
  | none => (none, [])
  | some s =>
    let size := myStringLen MYSTR_ERROR_CODE (some s)
    match fresh.map fun junk => malloc junk (size + 1) with
    | none => (none, [])
    | some newCString =>
      let copied := memcpyTraced newCString s.stringArray size
      (some (copied.1.set size NULL_BYTE), copied.2)

/-- The operation `myStringWrite` with the offsets it reads in the block of `str`, which are
those of `myStringToCString`. -/
def myStringWriteTraced (fresh : Option (Nat → Int)) (failure : Option (List Int))
    (str : Option MyString) (stream : List Int) : (MyStringRetVal × List Int) × List Nat :=
  let newCString := myStringToCStringTraced MYSTR_ERROR_CODE fresh str
  match newCString.1 with
  | none => ((MYSTRING_ERROR, stream), newCString.2)
  | some cString =>
    match fputs failure cString stream with
    | (false, stream) => ((MYSTRING_ERROR, stream), newCString.2)
    | (true, stream) => ((MYSTRING_SUCCESS, stream), newCString.2)

/-- The operation `myStringSetFromMyString` with the offsets it reads in the block of
`other`. -/
def myStringSetFromMyStringTraced (outcome : Option (Nat → Int)) (str other : Option MyString) :
    (MyStringRetVal × Option MyString) × List Nat :=
  match str, other with
  | some s, some o =>
    let StringLength := myStringLen MYSTR_ERROR_CODE (some o)
    let s := { s with stringSize := StringLength }
    let StringLength := if StringLength = 0 then 16 else StringLength
    match reSizeStringArray outcome s StringLength with
    | (MYSTRING_ERROR, s) => ((MYSTRING_ERROR, some s), [])
    | (MYSTRING_SUCCESS, s) =>
      let StringLength := if myStringLen MYSTR_ERROR_CODE (some o) = 0 then 1 else StringLength
      let copied := memcpyTraced s.stringArray o.stringArray StringLength
      ((MYSTRING_SUCCESS, some { s with stringArray := copied.1 }), copied.2)
  | _, _ => ((MYSTRING_ERROR, str), [])

/-- The operation `myStringSetFromCString` with the offsets it reads in the block of an
instance: those `myStringSetFromMyString` reads in the temporary instance, for an empty C
string. -/
def myStringSetFromCStringTraced (junk : Nat → Int) (outcome : Option (Nat → Int))
    (str : Option MyString) (cString : Option (List Int)) :
    (MyStringRetVal × Option MyString) × List Nat :=
  match str, cString with
  | some s, some cs =>
    let cStringLength := getCStringLength cs
    if cStringLength = EMPTY then
      let tempStruct := myStringAlloc junk
      let set := myStringSetFromMyStringTraced MYSTR_ERROR_CODE outcome (some s) (some tempStruct)
      ((MYSTRING_SUCCESS, set.1.2.map fun s => { s with stringSize := cStringLength }), set.2)
    else
      match reSizeStringArray outcome s cStringLength with
      | (MYSTRING_ERROR, s) => ((MYSTRING_ERROR, some s), [])
      | (MYSTRING_SUCCESS, s) =>
        let s := { s with stringArray := memcpy s.stringArray cs cStringLength }
        ((MYSTRING_SUCCESS, some { s with stringSize := cStringLength }), [])
  | _, _ => ((MYSTRING_ERROR, str), [])

/-- The operation `myStringClone` with the offsets it reads in the block of `str`. -/
def myStringCloneTraced (junk : Nat → Int) (outcome : Option (Nat → Int))
    (str : Option MyString) : Option MyString × List Nat :=
  let size := myStringLen MYSTR_ERROR_CODE str
  if size = EMPTY then
    (some (myStringAlloc junk), [])
  else
    let newString := buildMyString junk (myStringLen MYSTR_ERROR_CODE str)
    let set := myStringSetFromMyStringTraced MYSTR_ERROR_CODE outcome (some newString) str
    (set.1.2, set.2)

/-- The operation `myStringCatTo` with the offsets it reads in the block of `str1` and in the
block of `str2`. -/
def myStringCatToTraced (outcome : Option (Nat → Int)) (mem : Nat → MyString)
    (str1 str2 result : Option Nat) :
    (MyStringRetVal × (Nat → MyString)) × (List Nat × List Nat) :=
  match str1, str2, result with
  | some p1, some p2, some r =>
    if result = str1 ∨ result = str2 then ((MYSTRING_ERROR, mem), ([], []))
    else
      let totalSize :=
        (myStringLen MYSTR_ERROR_CODE (some (mem p1)) +
          myStringLen MYSTR_ERROR_CODE (some (mem p2))) % 2 ^ 64
      match reSizeStringArray outcome (mem r) totalSize with
      | (MYSTRING_ERROR, res) => ((MYSTRING_ERROR, Function.update mem r res), ([], []))
      | (MYSTRING_SUCCESS, res) =>
        let mem := Function.update mem r { res with stringSize := totalSize }
        let copied1 := memcpyTraced (mem r).stringArray (mem p1).stringArray
          (myStringLen MYSTR_ERROR_CODE (some (mem p1)))
        let mem := Function.update mem r { mem r with stringArray := copied1.1 }
        let copied2 := memcpyAtTraced (mem r).stringArray
          (myStringLen MYSTR_ERROR_CODE (some (mem p1))) (mem p2).stringArray
          (myStringLen MYSTR_ERROR_CODE (some (mem p2)))
        let mem := Function.update mem r { mem r with stringArray := copied2.1 }
        ((MYSTRING_SUCCESS, mem), (copied1.2, copied2.2))
  | _, _, _ => ((MYSTRING_ERROR, mem), ([], []))

/-- The operation `myStringCat` with the offsets it reads in the block of `dest`, in the block
of `src` and in the block of the temporary instance. -/
def myStringCatTraced (junk : Nat → Int) (outcomeCat outcomeSet : Option (Nat → Int))
    (mem : Nat → MyString) (tempStruct : Nat) (dest src : Option Nat) :
    (MyStringRetVal × (Nat → MyString)) × (List Nat × List Nat × List Nat) :=
  let mem := Function.update mem tempStruct (myStringAlloc junk)
  let cat := myStringCatToTraced MYSTR_ERROR_CODE outcomeCat mem dest src (some tempStruct)
  match cat.1 with
  | (MYSTRING_ERROR, mem) => ((MYSTRING_ERROR, mem), (cat.2.1, cat.2.2, []))
  | (MYSTRING_SUCCESS, mem) =>
    let set := myStringSetFromMyStringTraced MYSTR_ERROR_CODE outcomeSet (dest.map mem)
      (some (mem tempStruct))
    ((MYSTRING_SUCCESS, writeBack mem dest set.1.2), (cat.2.1, cat.2.2, set.2))

end

/-! ## Specification side definitions -/

/-- The capacity the resize policy leaves for a block of capacity `c` and a request `n`. -/
def policy (c n : Nat) : Nat := if c < n ∨ c - n > 16 then n else c

/-- The three way comparison of two lengths. -/
def sizeCompare (m n : Nat) : Int := if m = n then SAME else if m > n then BIGGER else SMALLER

/-- Lexicographic comparison of two char sequences under the order of the char values; a
proper prefix comes first. -/
def lexCompare : List Int → List Int → Int
  | [], [] => 0
  | [], _ :: _ => -1
  | _ :: _, [] => 1
  | x :: xs, y :: ys => if x = y then lexCompare xs ys else if x > y then 1 else -1

/-- What the C standard asks of the comparison function given to `qsort`, on the elements of
the array: the two orders of a pair have opposite signs, and "not greater" is transitive. -/
def ConsistentOn {α : Type} (cmp : α → α → Int) (arr : List α) : Prop :=
  (∀ a ∈ arr, ∀ b ∈ arr, Int.sign (cmp a b) = - Int.sign (cmp b a)) ∧
  (∀ a ∈ arr, ∀ b ∈ arr, ∀ c ∈ arr, cmp a b ≤ 0 → cmp b c ≤ 0 → cmp a c ≤ 0)

/-- What the C standard promises of `qsort` for such a comparison function: the elements are
rearranged, and no element is greater than the one after it. -/
def QsortContract {α : Type} (qsort : (α → α → Int) → List α → List α) : Prop :=
  ∀ cmp arr, ConsistentOn cmp arr →
    List.Perm (qsort cmp arr) arr ∧ List.Chain' (fun a b => cmp a b ≤ 0) (qsort cmp arr)

/-- A sorting function that meets the contract of `qsort`: sorting by insertion. -/
def insertionQsort {α : Type} (cmp : α → α → Int) (arr : List α) : List α :=
  arr.insertionSort (fun a b => cmp a b ≤ 0)

/-- A store with two freshly allocated, empty instances at the addresses 0 and 1 and, at the
address 2, an instance holding 17 chars `x` in a block of 17. -/
def emptyOperandsStore (junk : Nat → Int) : Nat → MyString :=
  fun p => if p = 2 then ⟨List.replicate 17 120, 17, 17⟩ else myStringAlloc junk

/-- A store with five instances holding `Monkey`, `Bear`, `Giraffe`, `Mongoose` and `Sloth` at
the addresses 0 to 4, each in a block of the size of its string, and empty instances
elsewhere. -/
def animalStore : Nat → MyString
  | 0 => ⟨[77, 111, 110, 107, 101, 121], 6, 6⟩
  | 1 => ⟨[66, 101, 97, 114], 4, 4⟩
  | 2 => ⟨[71, 105, 114, 97, 102, 102, 101], 7, 7⟩
  | 3 => ⟨[77, 111, 110, 103, 111, 111, 115, 101], 8, 8⟩
  | 4 => ⟨[83, 108, 111, 116, 104], 5, 5⟩
  | _ => ⟨[], 0, 0⟩

/-- The chars behind a handle of the store, none behind the null handle. -/
def contentAt (mem : Nat → MyString) (h : Option Nat) : List Int :=
  match h with
  | some p => (mem p).content
  | none => []

/-- The ASCII chars of a sequence of decimal digits. -/
def digitChars (ds : List Nat) : List Int := ds.map fun (d : Nat) => (d : Int) + 48

/-- The value `sum di * 10^(k-i)` of the decimal digits `d1..dk`, most significant first. -/
def decimalValue (ds : List Nat) : Nat := Nat.ofDigits 10 ds.reverse

/-- The `d` decimal digits of `m`, most significant first, for `m < 10 ^ d`. -/
def leadingDigits : Nat → Nat → List Nat
  | 0, _ => []
  | d + 1, m => m / 10 ^ d :: leadingDigits d (m % 10 ^ d)

/-- The canonical decimal digits of a natural number, most significant first: those of
`Nat.digits`, and the single digit `0` for zero. -/
def canonicalDigits (m : Nat) : List Nat :=
  if m = 0 then [0] else (Nat.digits 10 m).reverse

/-- The canonical decimal ASCII representation of an integer: a `'-'` when it is negative, then
its canonical digits. -/
def decimalChars (n : Int) : List Int :=
  (if n < 0 then [MINUS] else []) ++ digitChars (canonicalDigits n.natAbs)

/-- The chars the loop of `myStringSetFromInt` writes, in the order of the indices. -/
def writtenChars : (left : Nat) → (n : Int) → (digitCounter : Nat) → List Int
  | 0, _, _ => []
  | left + 1, n, digitCounter =>
    (truncQuotient n (digitCounter - 1) + CHAR_TO_INT) ::
      writtenChars left
        (toInt32 (n - (BASE : Int) ^ (digitCounter - 1) * truncQuotient n (digitCounter - 1)))
        (digitCounter - 1)

/-- Capacity hysteresis over one call, for the capacity before the call and the instance after
it: a capacity that went down exceeded the new length by more than 16, and a new length above
the old capacity is within the new capacity. -/
def Hysteresis (capacityBefore : Nat) (after : MyString) : Prop :=
  (after.realSize < capacityBefore → capacityBefore - after.stringSize > 16) ∧
  (after.stringSize > capacityBefore → after.realSize ≥ after.stringSize)

/-- The length `myStringSetFromInt` computes for `n`: the number of digits `getLengthOfInt`
gives, and one more for zero and for the sign. -/
def lengthForInt (n : Int) : Nat :=
  if n ≤ 0 then toULong (getLengthOfInt n) + 1 else toULong (getLengthOfInt n)

/-- Every offset of the list is below the length of the instance. -/
def ReadsBelowLength (reads : List Nat) (s : MyString) : Prop :=
  ∀ i ∈ reads, i < s.stringSize

/-- Every offset of the list is below the length of the instance, or the instance is empty and
the offset is 0, within the block. -/
def ReadsBelowLengthOrFirst (reads : List Nat) (s : MyString) : Prop :=
  ∀ i ∈ reads, i < s.stringSize ∨ (s.stringSize = 0 ∧ i = 0 ∧ i < s.realSize)

instance (reads : List Nat) (s : MyString) : Decidable (ReadsBelowLength reads s) := by
  unfold ReadsBelowLength
  infer_instance

instance (reads : List Nat) (s : MyString) : Decidable (ReadsBelowLengthOrFirst reads s) := by
  unfold ReadsBelowLengthOrFirst
  infer_instance

/-- A store with an instance holding `cd` in a block of 2 at the address 1 and instances
holding `ab` in a block of 2 elsewhere. -/
def shortStore : Nat → MyString :=
  fun p => if p = 1 then ⟨[99, 100], 2, 2⟩ else ⟨[97, 98], 2, 2⟩

/-- The instances the public operations build from what `myStringAlloc` returns, by calls that
return success on instances built before.  The C strings are terminated by a null byte, the
integers are those of `int` above the least one.  `myStringSetFromInt` and `myStringCat`
return success whatever their reallocation gave; `Answers` holds of the outcomes of these
reallocations that are taken into account.  Where a call can take a block of a size that
depends on its arguments, the block it leaves is an object the allocator can return, of less
than `2^63` bytes. -/
inductive ReachableUnder (E : Int) (Answers : Option (Nat → Int) → Prop) : MyString → Prop
  | alloc (junk : Nat → Int) : ReachableUnder E Answers (myStringAlloc junk)
  | setFromCString (junk : Nat → Int) (outcome : Option (Nat → Int)) (d d2 : MyString)
      (t rest : List Int) :
      ReachableUnder E Answers d → (∀ c ∈ t, c ≠ 0) →
      myStringSetFromCString E junk outcome (some d) (some (t ++ 0 :: rest)) =
        (MYSTRING_SUCCESS, some d2) →
      myStringRealSize d2 < 2 ^ 63 → ReachableUnder E Answers d2
  | setFromInt (outcome : Option (Nat → Int)) (s s2 : MyString) (n : Int) :
      ReachableUnder E Answers s → Answers outcome → -2 ^ 31 < n → n < 2 ^ 31 →
      myStringSetFromInt outcome (some s) n = (MYSTRING_SUCCESS, some s2) →
      ReachableUnder E Answers s2
  | setFromMyString (outcome : Option (Nat → Int)) (d s d2 : MyString) :
      ReachableUnder E Answers d → ReachableUnder E Answers s →
      myStringSetFromMyString E outcome (some d) (some s) = (MYSTRING_SUCCESS, some d2) →
      ReachableUnder E Answers d2
  | filter (junk : Nat → Int) (s s2 : MyString) (filt : Int → Bool) :
      ReachableUnder E Answers s →
      myStringFilter E junk (some s) filt = (MYSTRING_SUCCESS, some s2) →
      ReachableUnder E Answers s2
  | clone (junk : Nat → Int) (outcome : Option (Nat → Int)) (s c : MyString) :
      ReachableUnder E Answers s → myStringClone E junk outcome (some s) = some c →
      ReachableUnder E Answers c
  | catTo (outcome : Option (Nat → Int)) (mem mem2 : Nat → MyString) (p1 p2 r : Nat) :
      ReachableUnder E Answers (mem p1) → ReachableUnder E Answers (mem p2) →
      ReachableUnder E Answers (mem r) →
      myStringCatTo E outcome mem (some p1) (some p2) (some r) = (MYSTRING_SUCCESS, mem2) →
      myStringRealSize (mem2 r) < 2 ^ 63 → ReachableUnder E Answers (mem2 r)
  | cat (junk : Nat → Int) (outcomeCat outcomeSet : Option (Nat → Int))
      (mem mem2 : Nat → MyString) (t d s : Nat) :
      ReachableUnder E Answers (mem d) → ReachableUnder E Answers (mem s) →
      Answers outcomeCat → Answers outcomeSet → t ≠ d → t ≠ s →
      myStringCat E junk outcomeCat outcomeSet mem t (some d) (some s) =
        (MYSTRING_SUCCESS, mem2) →
      myStringRealSize (mem2 d) < 2 ^ 63 → ReachableUnder E Answers (mem2 d)

/-- The instances built by any sequence of calls that return success, whatever the
reallocations of `myStringSetFromInt` and `myStringCat` gave. -/
def Reachable (E : Int) (s : MyString) : Prop :=
  ReachableUnder E (fun _ => True) s

/-- The instances built by the sequences of calls that return success in which the
reallocations of `myStringSetFromInt` and `myStringCat` succeed. -/
def ReachableWithMemory (E : Int) (s : MyString) : Prop :=
  ReachableUnder E (fun outcome => outcome.isSome = true) s

instance (capacityBefore : Nat) (after : MyString) :
    Decidable (Hysteresis capacityBefore after) := by
  unfold Hysteresis
  infer_instance

end MyStr

/-!
# The Nim game of `Ex1_NIM/NimGame.c`

The two globals and the current player form the state.  The numbers `scanf` reads are a
list, one element for every call; the list holds what the calls convert, so every call
before its end assigns.  At the end of the list `scanf` assigns nothing.
-/

namespace NimGame

abbrev MAX_BALLS : Int := 3
abbrev EMPTY : Int := 0
abbrev GAME_TERMINATED : Int := -1
abbrev FIRST : Int := 1
abbrev SECOND : Int := 2

/-- The globals `gBallsOne` and `gBallsTwo` and the local `player` of `runGame`. -/
structure Game where
  gBallsOne : Int
  gBallsTwo : Int
  player : Int
deriving DecidableEq

def checkNegativity (numBalls : Int) : Int :=
  if numBalls ≤ EMPTY then GAME_TERMINATED else 0

/-- The call `scanf("%d", &x)`: the new value of `x` and the input left. -/
def scanf (inputs : List Int) (x : Int) : Int × List Int :=
  match inputs with
  | [] => (x, [])
  | v :: rest => (v, rest)

/-- The value `initGame` returns, the two globals, both 0 before, and the input left. -/
def initGame (inputs : List Int) : Int × Int × Int × List Int :=
  let (gBallsOne, inputs) := scanf inputs 0
  if checkNegativity gBallsOne ≠ GAME_TERMINATED then
    let (gBallsTwo, inputs) := scanf inputs 0
    (checkNegativity gBallsTwo, gBallsOne, gBallsTwo, inputs)
  else
    (GAME_TERMINATED, gBallsOne, 0, inputs)

/-- The `do` loop that asks for a box: the box chosen and the input left.  At the end of the
input `choice` keeps a value that is neither box, and the loop does not end: `none`. -/
def chooseBox : List Int → Option (Int × List Int)
  | [] => none
  | choice :: inputs =>
    if choice ≠ FIRST ∧ choice ≠ SECOND then chooseBox inputs else some (choice, inputs)

/-- The `while (ballNum == EMPTY)` loop: the state after the move it accepts and the input
left.  At the end of the input `ballNum` stays `EMPTY` and the loop does not end: `none`. -/
def takeBalls (g : Game) (choice : Int) : List Int → Option (Game × List Int)
  | [] => none
  | ballNum :: inputs =>
    if ballNum ≤ EMPTY then takeBalls g choice inputs
    else if ballNum > MAX_BALLS then takeBalls g choice inputs
    else if (ballNum > g.gBallsOne ∧ choice = FIRST) ∨
        (ballNum > g.gBallsTwo ∧ choice = SECOND) then
      takeBalls g choice inputs
    else
      let g :=
        if choice = 1 then { g with gBallsOne := g.gBallsOne - ballNum }
        else if choice = 2 then { g with gBallsTwo := g.gBallsTwo - ballNum }
        else g
      let g := if g.player = FIRST then { g with player := SECOND } else { g with player := FIRST }
      some (g, inputs)

/-- The outer loop of `runGame`, for at most `fuel` turns (`none` beyond).  It gives the turns
played, each as the player who moved and the state after the move, and the player the last
`printf` announces as the winner, `none` when an inner loop does not end. -/
def runGameLoop : (fuel : Nat) → Game → List Int → Option (List (Int × Game) × Option Int)
  | 0, _, _ => none
  | fuel + 1, g, inputs =>
    if g.gBallsOne ≠ EMPTY ∧ g.gBallsTwo ≠ EMPTY then
      match chooseBox inputs with
      | none => some ([], none)
      | some (choice, inputs) =>
        match takeBalls g choice inputs with
        | none => some ([], none)
        | some (g2, inputs) =>
          (runGameLoop fuel g2 inputs).map fun r => ((g.player, g2) :: r.1, r.2)
    else some ([], some g.player)

/-- The run of `runGame` from the two globals.  Every turn takes two numbers of the input at
least, so one turn more than the input has numbers is never used up. -/
def runGame (gBallsOne gBallsTwo : Int) (inputs : List Int) :
    Option (List (Int × Game) × Option Int) :=
  runGameLoop (inputs.length + 1) ⟨gBallsOne, gBallsTwo, FIRST⟩ inputs

/-- The state the game is in after the turns of `trace`, from the state `g`. -/
def lastState (g : Game) (trace : List (Int × Game)) : Game :=
  match trace.getLast? with
  | none => g
  | some e => e.2

end NimGame

/-!
# The substring count of `Ex2_Perceptron/MyString.c`

A C string is the list of its chars; the block holds a null byte after them, and a null
byte in the list ends the string earlier.  The `int` counters are natural numbers: they are
never negative, and they stay below `2^31` for strings shorter than that.
-/

namespace CountSubStr

abbrev FIRST_INDEX : Nat := 0
abbrev NULL_BYTE : Int := 0
abbrev NOT_CYCLIC : Int := 0
abbrev EMPTY : Nat := 0

/-- The char `*(str + i)`. -/
def charAt (str : List Int) (i : Nat) : Int := str.getD i 0

/-- The locals of `countSubStr`. -/
structure Counters where
  total_count : Nat
  j : Nat
  i : Nat
  first_found : Nat
deriving DecidableEq

/-- One turn of the body of the `do` loop. -/
def countSubStrBody (str1 str2 : List Int) (isCyclic : Int) (c : Counters) : Counters :=
  let c :=
    if charAt str2 c.j ≠ NULL_BYTE then
      if charAt str2 c.j = charAt str1 c.i then
        let c := if c.j = FIRST_INDEX then { c with first_found := c.i } else c
        { c with j := c.j + 1, i := c.i + 1 }
      else
        if c.j = FIRST_INDEX then { c with i := c.i + 1 }
        else { c with i := c.first_found + 1, j := FIRST_INDEX }
    else c
  let c :=
    if charAt str2 c.j = NULL_BYTE then
      let c := { c with total_count := c.total_count + 1 }
      let c := { c with first_found := c.first_found + 1 }
      let c := { c with i := c.first_found }
      if charAt str1 c.i ≠ NULL_BYTE then { c with j := FIRST_INDEX } else c
    else c
  if isCyclic ≠ NOT_CYCLIC ∧ charAt str1 c.i = NULL_BYTE ∧ charAt str2 c.j ≠ NULL_BYTE ∧
      c.j ≠ 0 then
    { c with i := FIRST_INDEX }
  else c

/-- The `do` loop, for at most `fuel` turns (`none` beyond): the final `total_count`. -/
def countSubStrLoop (str1 str2 : List Int) (isCyclic : Int) :
    (fuel : Nat) → Counters → Option Nat
  | 0, _ => none
  | fuel + 1, c =>
    let c := countSubStrBody str1 str2 isCyclic c
    if charAt str1 c.i ≠ NULL_BYTE then countSubStrLoop str1 str2 isCyclic fuel c
    else some c.total_count

/-- The `unsigned int` that `countSubStr` returns, `none` when the loop takes more than `fuel`
turns; a null pointer is `none`. -/
def countSubStr (fuel : Nat) (str1 str2 : Option (List Int)) (isCyclic : Int) : Option Nat :=
  match str1, str2 with
  | some s1, some s2 =>
    if charAt s1 FIRST_INDEX = NULL_BYTE ∨ charAt s2 FIRST_INDEX = NULL_BYTE then some EMPTY
    else
      (countSubStrLoop s1 s2 isCyclic fuel ⟨EMPTY, FIRST_INDEX, FIRST_INDEX, FIRST_INDEX⟩).map
        fun total_count => total_count % 2 ^ 32
  | _, _ => some EMPTY

/-! ## Specification side definitions -/

/-- The length of a C string: the number of chars before the first null byte. -/
def strlen : List Int → Nat
  | [] => 0
  | c :: rest => if c ≠ 0 then strlen rest + 1 else 0

/-- The string `str2` occurs in `str1` from the index `p` on: within `str1` for a search that
is not cyclic, and continuing at the start of `str1` when its end is reached for a cyclic
one. -/
def OccursAt (str1 str2 : List Int) (isCyclic : Int) (p : Nat) : Prop :=
  if isCyclic ≠ 0 then
    ∀ k, k < strlen str2 → charAt str1 ((p + k) % strlen str1) = charAt str2 k
  else
    p + strlen str2 ≤ strlen str1 ∧ ∀ k, k < strlen str2 → charAt str1 (p + k) = charAt str2 k

instance (str1 str2 : List Int) (isCyclic : Int) : DecidablePred (OccursAt str1 str2 isCyclic) :=
  fun p => by unfold OccursAt; infer_instance

/-- The number of start indices below the length of `str1` at which `str2` occurs. -/
def occurrences (str1 str2 : List Int) (isCyclic : Int) : Nat :=
  Nat.count (OccursAt str1 str2 isCyclic) (strlen str1)

/-- The index at which the attempt under way started: `i` itself while no char of `str2` is
matched, `first_found` otherwise. -/
def startPosition (c : Counters) : Nat := if c.j = 0 then c.i else c.first_found

/-- What is left to do: the start positions still to try, each worth the chars of `str2`,
less the chars matched in the attempt under way. -/
def workLeft (str1 str2 : List Int) (c : Counters) : Nat :=
  (strlen str1 - startPosition c) * strlen str2 - c.j

/-- What holds of the counters whenever the body of the loop is entered: an attempt is under
way from a start position inside `str1`, the `j` chars of `str2` matched so far are those
found from there on, `i` is where the next char is to be found, and `total_count` counts the
occurrences at the start positions before. -/
def LoopInvariant (str1 str2 : List Int) (isCyclic : Int) (c : Counters) : Prop :=
  startPosition c < strlen str1 ∧ c.j < strlen str2 ∧
    c.i = (startPosition c + c.j) % strlen str1 ∧
    (isCyclic = 0 → startPosition c + c.j < strlen str1) ∧
    (∀ k, k < c.j → charAt str1 ((startPosition c + k) % strlen str1) = charAt str2 k) ∧
    c.total_count = Nat.count (OccursAt str1 str2 isCyclic) (startPosition c)

end CountSubStr

namespace MyStr

open MyStringRetVal

/-! ## Allocation, resizing and conversion to and from C strings -/

theorem le_policy (c n : Nat) : n ≤ policy c n := by
  unfold policy; split <;> omega

theorem myStringAlloc_eq (junk : Nat → Int) :
    myStringAlloc junk = { stringArray := List.replicate 16 0, stringSize := 0, realSize := 16 } := by
  simp [myStringAlloc, buildMyString, malloc, memset]
  rfl

theorem getCStringLength_terminated (s rest : List Int) (hs : ∀ c ∈ s, c ≠ 0) :
    getCStringLength (s ++ 0 :: rest) = s.length := by
  induction s with
  | nil => simp [getCStringLength]
  | cons c s ih =>
    have hc : c ≠ 0 := hs c (by simp)
    have := ih (fun d hd => hs d (by simp [hd]))
    simp [getCStringLength, hc, this]

theorem length_realloc (junk : Nat → Int) (block : List Int) (n : Nat) (hn : n ≠ 0) :
    ∃ b, realloc (some junk) block n = some b ∧ b.length = n ∧
      b.take (min block.length n) = block.take (min block.length n) := by
  refine ⟨_, by rw [realloc, if_neg hn]; rfl, ?_, ?_⟩
  · simp; omega
  · rw [List.take_append_of_le_length (by simp)]
    simp [List.take_take]

theorem reSizeStringArray_success (junk : Nat → Int) (str : MyString) (n : Nat)
    (h : str.stringArray.length = str.realSize) (hn : n ≠ 0 ∨ str.realSize ≤ 16) :
    ∃ b, reSizeStringArray (some junk) str n =
        (MYSTRING_SUCCESS, ⟨b, str.stringSize, policy str.realSize n⟩) ∧
      b.length = policy str.realSize n ∧
      b.take (min str.realSize n) = str.stringArray.take (min str.realSize n) := by
  unfold reSizeStringArray myStringRealSize policy
  by_cases hc : str.realSize < n ∨ str.realSize - n > 16
  · obtain ⟨b, hb, hlen, htake⟩ := length_realloc junk str.stringArray n (by omega)
    refine ⟨b, ?_, ?_, ?_⟩
    · simp [hc, hb]
    · simp [hc, hlen]
    · rw [← h]; exact htake
  · refine ⟨str.stringArray, ?_, ?_, rfl⟩
    · simp [hc]
    · simp [hc, h]

theorem myStringToCString_content (E : Int) (fresh : Nat → Int) (s : MyString)
    (h : s.stringSize ≤ s.stringArray.length) :
    myStringToCString E (some fresh) (some s) = some (s.content ++ [0]) := by
  simp only [myStringToCString, myStringLen, Option.map_some', memcpy, malloc, MyString.content]
  congr 1
  have h1 : (List.take s.stringSize s.stringArray).length = s.stringSize := by simp [h]
  rw [List.set_append_right _ _ (by omega)]
  congr 1
  simp [h1, List.range_succ]

theorem setFromCString_spec (E : Int) (junk grown : Nat → Int) (str : MyString)
    (t rest : List Int) (ht : ∀ c ∈ t, c ≠ 0) (h : str.stringArray.length = str.realSize) :
    ∃ b, myStringSetFromCString E junk (some grown) (some str) (some (t ++ 0 :: rest)) =
        (MYSTRING_SUCCESS, some ⟨b, t.length,
          policy str.realSize (if t.length = 0 then 16 else t.length)⟩) ∧
      b.length = policy str.realSize (if t.length = 0 then 16 else t.length) ∧
      t.length ≤ b.length ∧ b.take t.length = t := by
  have hlen := getCStringLength_terminated t rest ht
  by_cases h0 : t.length = 0
  · obtain ⟨b, hb, hblen, _⟩ :=
      reSizeStringArray_success grown { str with stringSize := 0 } 16 h (Or.inl (by decide))
    simp only at hb hblen
    have hpos : 16 ≤ b.length := hblen ▸ le_policy _ _
    refine ⟨0 :: b.drop 1, ?_, ?_, ?_, ?_⟩
    · simp only [myStringSetFromCString, hlen, h0, myStringSetFromMyString, myStringLen,
        myStringAlloc_eq, if_true, hb]
      simp [memcpy, List.replicate_succ]
    · simp [h0]; omega
    · simp [h0]
    · simp [h0, List.length_eq_zero.mp h0]
  · obtain ⟨b, hb, hblen, _⟩ := reSizeStringArray_success grown str t.length h (Or.inl h0)
    have hle : t.length ≤ b.length := hblen ▸ le_policy _ _
    refine ⟨t ++ b.drop t.length, ?_, ?_, ?_, ?_⟩
    · simp only [myStringSetFromCString, hlen, h0, if_false, hb]
      simp [memcpy]
    · simp [h0]; omega
    · simp
    · simp

/-- C1: for every char sequence `s` without a null byte, setting a freshly allocated instance
from the C string `s` (successful reallocation) and converting it back gives the chars of `s`
followed by one null byte, and `myStringLen` gives the length of `s`. -/
theorem raw_round_trip (E : Int) (junk junkT grown fresh : Nat → Int) (s rest : List Int)
    (hs : ∀ c ∈ s, c ≠ 0) :
    ∃ str, myStringSetFromCString E junkT (some grown) (some (myStringAlloc junk))
        (some (s ++ 0 :: rest)) = (MYSTRING_SUCCESS, some str) ∧
      myStringToCString E (some fresh) (some str) = some (s ++ [0]) ∧
      myStringLen E (some str) = s.length := by
  obtain ⟨b, hb, _, hle, htake⟩ :=
    setFromCString_spec E junkT grown (myStringAlloc junk) s rest hs
      (by rw [myStringAlloc_eq]; rfl)
  refine ⟨_, hb, ?_, rfl⟩
  rw [myStringToCString_content E fresh _ hle]
  simp [MyString.content, htake]

theorem raw_round_trip_witness :
    (∀ c ∈ [104, 105], c ≠ (0 : Int)) ∧
    ∃ str, myStringSetFromCString (-999) (fun _ => 1) (some fun _ => 2)
        (some (myStringAlloc fun _ => 3)) (some ([104, 105] ++ 0 :: [7])) =
          (MYSTRING_SUCCESS, some str) ∧
      myStringToCString (-999) (some fun _ => 4) (some str) = some ([104, 105] ++ [0]) ∧
      myStringLen (-999) (some str) = [104, 105].length :=
  ⟨by decide, raw_round_trip (-999) (fun _ => 3) (fun _ => 1) (fun _ => 2) (fun _ => 4)
    [104, 105] [7] (by decide)⟩


/-! ## Equality and comparison -/

theorem toLong_of_lt (n : Nat) (h : n < 2 ^ 63) : toLong n = n := by
  unfold toLong
  have h1 : n % 2 ^ 64 = n := Nat.mod_eq_of_lt (by omega)
  rw [h1, if_pos h]

theorem toULong_natCast (n : Nat) (h : n < 2 ^ 64) : toULong (n : Int) = n := by
  unfold toULong
  have : ((n : Int) % 2 ^ 64) = n := Int.emod_eq_of_lt (by omega) (by omega)
  rw [this]; simp

theorem MIN_natCast (m n : Nat) : MIN (m : Int) (n : Int) = ((min m n : Nat) : Int) := by
  unfold MIN
  split <;> rename_i h
  · rw [Nat.min_eq_left (by omega)]
  · rw [Nat.min_eq_right (by omega)]

/-- Every comparison the loop makes gives `SAME`: the loop gives `SAME`. -/
theorem checkEqualityFrom_same (a b : MyString) (foo : Int → Int → Int) (left i : Nat)
    (h : ∀ j, i ≤ j → j < i + left →
      foo (readChar a.stringArray j) (readChar b.stringArray j) = SAME) :
    checkEqualityFrom a b foo left i = SAME := by
  induction left generalizing i with
  | zero => rfl
  | succ left ih =>
    unfold checkEqualityFrom
    simp only [h i (Nat.le_refl i) (by omega), ne_eq, not_true_eq_false, if_false]
    exact ih (i + 1) fun j h1 h2 => h j (by omega) (by omega)

/-- The loop returns the result of the first comparison that is not `SAME`. -/
theorem checkEqualityFrom_first (a b : MyString) (foo : Int → Int → Int) (left i k : Nat)
    (hik : i ≤ k) (hk : k < i + left)
    (hne : foo (readChar a.stringArray k) (readChar b.stringArray k) ≠ SAME)
    (h : ∀ j, i ≤ j → j < k →
      foo (readChar a.stringArray j) (readChar b.stringArray j) = SAME) :
    checkEqualityFrom a b foo left i =
      foo (readChar a.stringArray k) (readChar b.stringArray k) := by
  induction left generalizing i with
  | zero => omega
  | succ left ih =>
    unfold checkEqualityFrom
    by_cases hi : i = k
    · subst hi
      simp only [hne, ne_eq, not_false_eq_true, if_true]
    · simp only [h i (Nat.le_refl i) (by omega), ne_eq, not_true_eq_false, if_false]
      exact ih (i + 1) (by omega) (by omega) fun j h1 h2 => h j (by omega) h2

theorem checkEqualityFrom_eq_same_iff (a b : MyString) (foo : Int → Int → Int) (left i : Nat) :
    checkEqualityFrom a b foo left i = SAME ↔
      ∀ j, i ≤ j → j < i + left →
        foo (readChar a.stringArray j) (readChar b.stringArray j) = SAME := by
  induction left generalizing i with
  | zero => simp [checkEqualityFrom]; intro j h1 h2; omega
  | succ left ih =>
    unfold checkEqualityFrom
    by_cases hi : foo (readChar a.stringArray i) (readChar b.stringArray i) = SAME
    · simp only [hi, ne_eq, not_true_eq_false, if_false, ih]
      constructor
      · intro h j h1 h2
        by_cases hj : j = i
        · subst hj; exact hi
        · exact h j (by omega) (by omega)
      · intro h j h1 h2
        exact h j (by omega) (by omega)
    · simp only [hi, ne_eq, not_false_eq_true, if_true, false_iff]
      intro h
      exact hi (h i (Nat.le_refl i) (by omega))

theorem myStringCustomEqual_some (E : Int) (a b : MyString) (foo : Int → Int → Int)
    (ha : a.Valid) (hb : b.Valid) :
    myStringCustomEqual E (some a) (some b) foo =
      if a.stringSize = b.stringSize ∧ checkEqualityFrom a b foo a.stringSize 0 = SAME
      then EQUAL else UNEQUAL := by
  obtain ⟨_, ha2, ha3⟩ := ha
  obtain ⟨_, hb2, hb3⟩ := hb
  have h1 : toLong a.stringSize = a.stringSize := toLong_of_lt _ (by omega)
  have h2 : toLong b.stringSize = b.stringSize := toLong_of_lt _ (by omega)
  have h3 : toULong (a.stringSize : Int) = a.stringSize := toULong_natCast _ (by omega)
  simp only [myStringCustomEqual, myStringLen, checkEquality, h1, h2, h3]
  by_cases h : a.stringSize = b.stringSize
  · simp [h]
  · have : (a.stringSize : Int) ≠ b.stringSize := by omega
    simp [h, this]

/-- C2: on valid instances `myStringEqual` returns `EQUAL` exactly when the lengths agree and
the chars agree at every index below the length, and `UNEQUAL` exactly when they do not. -/
theorem myStringEqual_iff (E : Int) (a b : MyString) (ha : a.Valid) (hb : b.Valid) :
    (myStringEqual E (some a) (some b) = EQUAL ↔
      (myStringLen E (some a) = myStringLen E (some b) ∧
        ∀ i, i < myStringLen E (some a) →
          readChar a.stringArray i = readChar b.stringArray i)) ∧
    (myStringEqual E (some a) (some b) = UNEQUAL ↔
      ¬ (myStringLen E (some a) = myStringLen E (some b) ∧
        ∀ i, i < myStringLen E (some a) →
          readChar a.stringArray i = readChar b.stringArray i)) := by
  have key : (checkEqualityFrom a b logicalEqual a.stringSize 0 = SAME) ↔
      ∀ i, i < a.stringSize → readChar a.stringArray i = readChar b.stringArray i := by
    rw [checkEqualityFrom_eq_same_iff]
    constructor
    · intro h i hi
      have := h i (Nat.zero_le i) (by omega)
      unfold logicalEqual at this
      by_contra hne
      simp [hne] at this
    · intro h j _ hj
      simp [logicalEqual, h j (by omega)]
  rw [myStringEqual, myStringCustomEqual_some E a b _ ha hb]
  simp only [myStringLen, key]
  by_cases h : a.stringSize = b.stringSize ∧
      ∀ i, i < a.stringSize → readChar a.stringArray i = readChar b.stringArray i
  · simp [h]
  · simp [h]

theorem myStringEqual_iff_witness :
    (myStringEqual 7 (some ⟨[97, 98, 0], 2, 3⟩) (some ⟨[97, 98, 5, 6], 2, 4⟩) = EQUAL ↔
      (myStringLen 7 (some ⟨[97, 98, 0], 2, 3⟩) = myStringLen 7 (some ⟨[97, 98, 5, 6], 2, 4⟩) ∧
        ∀ i, i < myStringLen 7 (some ⟨[97, 98, 0], 2, 3⟩) →
          readChar [97, 98, 0] i = readChar [97, 98, 5, 6] i)) ∧
    (myStringEqual 7 (some ⟨[97, 98, 0], 2, 3⟩) (some ⟨[97, 98, 5, 6], 2, 4⟩) = UNEQUAL ↔
      ¬ (myStringLen 7 (some ⟨[97, 98, 0], 2, 3⟩) = myStringLen 7 (some ⟨[97, 98, 5, 6], 2, 4⟩) ∧
        ∀ i, i < myStringLen 7 (some ⟨[97, 98, 0], 2, 3⟩) →
          readChar [97, 98, 0] i = readChar [97, 98, 5, 6] i)) :=
  myStringEqual_iff 7 ⟨[97, 98, 0], 2, 3⟩ ⟨[97, 98, 5, 6], 2, 4⟩ (by decide) (by decide)

theorem myStringCustomCompare_some (E : Int) (a b : MyString) (foo : Int → Int → Int)
    (ha : a.Valid) (hb : b.Valid) :
    myStringCustomCompare E (some a) (some b) foo =
      if checkEqualityFrom a b foo (min a.stringSize b.stringSize) 0 ≠ SAME
      then checkEqualityFrom a b foo (min a.stringSize b.stringSize) 0
      else sizeCompare a.stringSize b.stringSize := by
  obtain ⟨_, ha2, ha3⟩ := ha
  obtain ⟨_, hb2, hb3⟩ := hb
  have h1 : toLong a.stringSize = a.stringSize := toLong_of_lt _ (by omega)
  have h2 : toLong b.stringSize = b.stringSize := toLong_of_lt _ (by omega)
  have h3 : toULong ((min a.stringSize b.stringSize : Nat) : Int) =
      min a.stringSize b.stringSize := toULong_natCast _ (by omega)
  simp only [myStringCustomCompare, myStringLen, checkEquality, h1, h2, MIN_natCast, h3,
    sizeCompare]
  simp only [Nat.cast_inj, gt_iff_lt, Nat.cast_lt]

theorem defCompare_eq_same_iff (E c d : Int) : defCompare E (some c) (some d) = SAME ↔ c = d := by
  unfold defCompare
  by_cases h : c = d
  · simp [h]
  · by_cases h2 : c > d <;> simp [h, h2]

theorem defCompare_of_ne (E c d : Int) (h : c ≠ d) :
    defCompare E (some c) (some d) = if c > d then 1 else -1 := by
  simp [defCompare, h]

/-- C3: on valid instances `myStringCompare` is the lexicographic comparison of the chars: at
the first index below both lengths where the chars differ the result is `1` or `-1` as the
char of the first string is greater or smaller; without such an index the result compares
the lengths; and `"bcd"` compared with `"cd"` gives `-1`. -/
theorem myStringCompare_lexicographic (E : Int) (a b : MyString) (ha : a.Valid)
    (hb : b.Valid) :
    (∀ i, i < min (myStringLen E (some a)) (myStringLen E (some b)) →
      readChar a.stringArray i ≠ readChar b.stringArray i →
      (∀ j, j < i → readChar a.stringArray j = readChar b.stringArray j) →
      myStringCompare E (some a) (some b) =
        if readChar a.stringArray i > readChar b.stringArray i then 1 else -1) ∧
    ((∀ i, i < min (myStringLen E (some a)) (myStringLen E (some b)) →
        readChar a.stringArray i = readChar b.stringArray i) →
      myStringCompare E (some a) (some b) =
        if myStringLen E (some a) < myStringLen E (some b) then -1
        else if myStringLen E (some a) = myStringLen E (some b) then 0 else 1) ∧
    myStringCompare E (some ⟨[98, 99, 100], 3, 3⟩) (some ⟨[99, 100], 2, 2⟩) = -1 := by
  simp only [myStringLen]
  refine ⟨?_, ?_, ?_⟩
  · intro i hi hne hlt
    rw [myStringCompare, myStringCustomCompare_some E a b _ ha hb]
    have hfirst := checkEqualityFrom_first a b
      (fun c1 c2 => defCompare E (some c1) (some c2))
      (min a.stringSize b.stringSize) 0 i (Nat.zero_le i) (by omega)
      (by simpa [defCompare_eq_same_iff] using hne)
      (fun j _ hj => by simpa [defCompare_eq_same_iff] using hlt j hj)
    rw [hfirst]
    simp only [defCompare_of_ne E _ _ hne]
    split <;> simp
  · intro h
    rw [myStringCompare, myStringCustomCompare_some E a b _ ha hb]
    have hsame := checkEqualityFrom_same a b
      (fun c1 c2 => defCompare E (some c1) (some c2))
      (min a.stringSize b.stringSize) 0
      (fun j _ hj => by simpa [defCompare_eq_same_iff] using h j (by omega))
    rw [hsame]
    simp only [sizeCompare]
    by_cases h1 : a.stringSize < b.stringSize
    · have : a.stringSize ≠ b.stringSize := by omega
      have : ¬ a.stringSize > b.stringSize := by omega
      simp [*]
    · by_cases h2 : a.stringSize = b.stringSize
      · simp [*]
      · have : a.stringSize > b.stringSize := by omega
        simp [*]
  · rw [myStringCompare, myStringCustomCompare_some E _ _ _ (by decide) (by decide)]
    simp [checkEqualityFrom, readChar, defCompare]

theorem myStringCompare_lexicographic_witness :
    myStringCompare 0 (some ⟨[98, 99, 102, 100], 4, 4⟩) (some ⟨[98, 99, 100, 101], 4, 4⟩) =
      if readChar [98, 99, 102, 100] 2 > readChar [98, 99, 100, 101] 2 then 1 else -1 :=
  (myStringCompare_lexicographic 0 ⟨[98, 99, 102, 100], 4, 4⟩ ⟨[98, 99, 100, 101], 4, 4⟩
    (by decide) (by decide)).1 2 (by decide) (by decide) (by decide)


theorem lexCompare_nil_left (l : List Int) : lexCompare [] l = if l = [] then 0 else -1 := by
  cases l <;> simp [lexCompare]

theorem lexCompare_nil_right (l : List Int) : lexCompare l [] = if l = [] then 0 else 1 := by
  cases l <;> simp [lexCompare]

theorem readChar_take (A : List Int) (n i : Nat) (h : i < n) (hn : n ≤ A.length) :
    ∃ hi : i < (A.take n).length, readChar A i = (A.take n)[i] := by
  have hi : i < (A.take n).length := by simp; omega
  refine ⟨hi, ?_⟩
  simp [readChar, List.getD_eq_getElem?_getD, List.getElem?_eq_getElem (show i < A.length by omega)]

/-- From index `i` on, the loop of `checkEquality` under `defCompare` followed by the
comparison of the lengths is the lexicographic comparison of the rest of the contents. -/
theorem compare_from_eq_lexCompare (E : Int) (a b : MyString)
    (ha : a.stringSize ≤ a.stringArray.length) (hb : b.stringSize ≤ b.stringArray.length)
    (left i : Nat) (h : i + left = min a.stringSize b.stringSize) :
    (if checkEqualityFrom a b (fun c1 c2 => defCompare E (some c1) (some c2)) left i ≠ SAME
      then checkEqualityFrom a b (fun c1 c2 => defCompare E (some c1) (some c2)) left i
      else sizeCompare a.stringSize b.stringSize) =
    lexCompare (a.content.drop i) (b.content.drop i) := by
  induction left generalizing i with
  | zero =>
    simp only [checkEqualityFrom, ne_eq, not_true_eq_false, if_false, sizeCompare]
    have hla : (a.content.drop i).length = a.stringSize - i := by
      simp [MyString.content]; omega
    have hlb : (b.content.drop i).length = b.stringSize - i := by
      simp [MyString.content]; omega
    by_cases h1 : a.stringSize = b.stringSize
    · have e1 : a.content.drop i = [] := List.length_eq_zero.mp (by omega)
      have e2 : b.content.drop i = [] := List.length_eq_zero.mp (by omega)
      simp [h1, e1, e2, lexCompare]
    · by_cases h2 : a.stringSize > b.stringSize
      · have e2 : b.content.drop i = [] := List.length_eq_zero.mp (by omega)
        have e1 : a.content.drop i ≠ [] := by
          intro hc; rw [hc] at hla; simp at hla; omega
        simp [h1, h2, e2, lexCompare_nil_right, e1]
      · have e1 : a.content.drop i = [] := List.length_eq_zero.mp (by omega)
        have e2 : b.content.drop i ≠ [] := by
          intro hc; rw [hc] at hlb; simp at hlb; omega
        simp [h1, h2, e1, lexCompare_nil_left, e2]
  | succ left ih =>
    obtain ⟨hia, hra⟩ := readChar_take a.stringArray a.stringSize i (by omega) ha
    obtain ⟨hib, hrb⟩ := readChar_take b.stringArray b.stringSize i (by omega) hb
    have da : a.content.drop i = readChar a.stringArray i :: a.content.drop (i + 1) := by
      rw [hra]; exact List.drop_eq_getElem_cons hia
    have db : b.content.drop i = readChar b.stringArray i :: b.content.drop (i + 1) := by
      rw [hrb]; exact List.drop_eq_getElem_cons hib
    rw [da, db]
    unfold checkEqualityFrom
    by_cases hc : readChar a.stringArray i = readChar b.stringArray i
    · have h0 := (defCompare_eq_same_iff E _ _).mpr hc
      simp only [h0, ne_eq, not_true_eq_false, if_false]
      rw [ih (i + 1) (by omega)]
      simp [lexCompare, hc]
    · have h0 := defCompare_of_ne E _ _ hc
      simp only [h0, lexCompare, hc, if_false]
      split <;> simp

theorem myStringCompare_eq_lexCompare (E : Int) (a b : MyString) (ha : a.Valid)
    (hb : b.Valid) :
    myStringCompare E (some a) (some b) = lexCompare a.content b.content := by
  rw [myStringCompare, myStringCustomCompare_some E a b _ ha hb]
  have := compare_from_eq_lexCompare E a b (by rw [ha.1]; exact ha.2.1)
    (by rw [hb.1]; exact hb.2.1) (min a.stringSize b.stringSize) 0 (by omega)
  simpa using this

theorem lexCompare_antisymm (x y : List Int) : lexCompare x y = - lexCompare y x := by
  induction x generalizing y with
  | nil => cases y <;> simp [lexCompare]
  | cons c x ih =>
    cases y with
    | nil => simp [lexCompare]
    | cons d y =>
      simp only [lexCompare]
      by_cases h : c = d
      · subst h; simp [ih y]
      · have h2 : d ≠ c := fun e => h e.symm
        by_cases h3 : c > d
        · have : ¬ d > c := by omega
          simp [h, h2, h3, this]
        · have : d > c := by omega
          simp [h, h2, h3, this]

theorem lexCompare_range (x y : List Int) :
    lexCompare x y = -1 ∨ lexCompare x y = 0 ∨ lexCompare x y = 1 := by
  induction x generalizing y with
  | nil => cases y <;> simp [lexCompare]
  | cons c x ih =>
    cases y with
    | nil => simp [lexCompare]
    | cons d y =>
      simp only [lexCompare]
      by_cases h : c = d
      · simp [h, ih y]
      · by_cases h3 : c > d <;> simp [h, h3]

theorem lexCompare_trans (x y z : List Int) (h1 : lexCompare x y ≤ 0)
    (h2 : lexCompare y z ≤ 0) :
    lexCompare x z ≤ 0 ∧ (lexCompare x y < 0 ∨ lexCompare y z < 0 → lexCompare x z < 0) := by
  induction x generalizing y z with
  | nil =>
    cases z with
    | nil =>
      cases y with
      | nil => simp [lexCompare]
      | cons d y => simp [lexCompare] at h2
    | cons e z => simp [lexCompare]
  | cons c x ih =>
    cases y with
    | nil => simp [lexCompare] at h1
    | cons d y =>
      cases z with
      | nil => simp [lexCompare] at h2
      | cons e z =>
        simp only [lexCompare] at h1 h2 ⊢
        by_cases hcd : c = d
        · subst hcd
          by_cases hce : c = e
          · subst hce
            simp only [if_true] at h1 h2 ⊢
            exact ih y z h1 h2
          · simp only [if_true, hce, if_false] at h1 h2 ⊢
            by_cases hgt : c > e
            · simp [hgt] at h2
            · simp [hgt]
        · simp only [hcd, if_false] at h1
          have hlt : c < d := by
            by_cases hgt : c > d
            · simp [hgt] at h1
            · omega
          by_cases hde : d = e
          · subst hde
            have : ¬ c > d := by omega
            simp [hcd, this]
          · simp only [hde, if_false] at h2
            have hlt2 : d < e := by
              by_cases hgt : d > e
              · simp [hgt] at h2
              · omega
            have h3 : c ≠ e := by omega
            have h4 : ¬ c > e := by omega
            simp [h3, h4]

/-- C4: on valid instances `myStringCompare` is a strict weak ordering: swapping the arguments
negates the result, and `compare a b ≤ 0` with `compare b c ≤ 0` gives `compare a c ≤ 0`,
strictly when one of the premises is strict. -/
theorem myStringCompare_strict_weak_order (E : Int) (a b c : MyString) (ha : a.Valid)
    (hb : b.Valid) (hc : c.Valid) :
    myStringCompare E (some a) (some b) = - myStringCompare E (some b) (some a) ∧
    (myStringCompare E (some a) (some b) ≤ 0 → myStringCompare E (some b) (some c) ≤ 0 →
      myStringCompare E (some a) (some c) ≤ 0 ∧
      (myStringCompare E (some a) (some b) < 0 ∨ myStringCompare E (some b) (some c) < 0 →
        myStringCompare E (some a) (some c) < 0)) := by
  rw [myStringCompare_eq_lexCompare E a b ha hb, myStringCompare_eq_lexCompare E b a hb ha,
    myStringCompare_eq_lexCompare E b c hb hc, myStringCompare_eq_lexCompare E a c ha hc]
  exact ⟨lexCompare_antisymm _ _, lexCompare_trans _ _ _⟩

theorem myStringCompare_strict_weak_order_witness :
    myStringCompare 3 (some ⟨[98, 99], 2, 2⟩) (some ⟨[98, 99, 100], 3, 3⟩) =
      - myStringCompare 3 (some ⟨[98, 99, 100], 3, 3⟩) (some ⟨[98, 99], 2, 2⟩) ∧
    (myStringCompare 3 (some ⟨[98, 99], 2, 2⟩) (some ⟨[98, 99, 100], 3, 3⟩) ≤ 0 →
      myStringCompare 3 (some ⟨[98, 99, 100], 3, 3⟩) (some ⟨[99], 1, 1⟩) ≤ 0 →
      myStringCompare 3 (some ⟨[98, 99], 2, 2⟩) (some ⟨[99], 1, 1⟩) ≤ 0 ∧
      (myStringCompare 3 (some ⟨[98, 99], 2, 2⟩) (some ⟨[98, 99, 100], 3, 3⟩) < 0 ∨
          myStringCompare 3 (some ⟨[98, 99, 100], 3, 3⟩) (some ⟨[99], 1, 1⟩) < 0 →
        myStringCompare 3 (some ⟨[98, 99], 2, 2⟩) (some ⟨[99], 1, 1⟩) < 0)) :=
  myStringCompare_strict_weak_order 3 ⟨[98, 99], 2, 2⟩ ⟨[98, 99, 100], 3, 3⟩ ⟨[99], 1, 1⟩
    (by decide) (by decide) (by decide)


theorem logicalEqual_eq_same_iff (c d : Int) : logicalEqual c d = SAME ↔ c = d := by
  unfold logicalEqual
  by_cases h : c = d <;> simp [h]

theorem customCompare_zero_iff_customEqual (E : Int) (a b : MyString)
    (f g : Int → Int → Int) (hfg : ∀ c d, f c d = SAME ↔ g c d = SAME) :
    myStringCustomCompare E (some a) (some b) f = 0 ↔
      myStringCustomEqual E (some a) (some b) g = EQUAL := by
  simp only [myStringCustomCompare, myStringCustomEqual, myStringLen, checkEquality]
  by_cases hs : toLong a.stringSize = toLong b.stringSize
  · have hmin : MIN (toLong a.stringSize) (toLong b.stringSize) = toLong b.stringSize := by
      simp [MIN, hs]
    have hiff : checkEqualityFrom a b f (toULong (toLong b.stringSize)) 0 = SAME ↔
        checkEqualityFrom a b g (toULong (toLong b.stringSize)) 0 = SAME := by
      rw [checkEqualityFrom_eq_same_iff, checkEqualityFrom_eq_same_iff]
      exact forall_congr' fun j => by rw [hfg]
    rw [hmin]
    by_cases hr : checkEqualityFrom a b f (toULong (toLong b.stringSize)) 0 = SAME
    · have hr2 := hiff.mp hr
      simp [hs, hr, hr2]
    · have hr2 : ¬ checkEqualityFrom a b g (toULong (toLong b.stringSize)) 0 = SAME :=
        fun h => hr (hiff.mpr h)
      simp only [hs, ne_eq, hr, not_false_eq_true, if_true, not_true_eq_false, if_false, hr2]
      simp only [SAME] at hr
      simp [hr]
  · simp only [ne_eq, hs, not_false_eq_true, if_true, if_false]
    constructor
    · intro h
      split at h
      · rename_i h2; exact absurd h h2
      · split at h <;> simp at h
    · intro h; simp at h

/-- C5: `myStringCustomCompare` returns `0` exactly when `myStringCustomEqual` returns `EQUAL`
under the same char comparator, whatever the comparator; and `myStringCompare` returns `0`
exactly when `myStringEqual` returns `EQUAL`. -/
theorem compare_consistent_with_equal (E : Int) (a b : MyString) :
    (∀ f : Int → Int → Int,
      myStringCustomCompare E (some a) (some b) f = 0 ↔
        myStringCustomEqual E (some a) (some b) f = EQUAL) ∧
    (myStringCompare E (some a) (some b) = 0 ↔ myStringEqual E (some a) (some b) = EQUAL) :=
  ⟨fun f => customCompare_zero_iff_customEqual E a b f f fun _ _ => Iff.rfl,
    customCompare_zero_iff_customEqual E a b _ _ fun c d => by
      rw [defCompare_eq_same_iff, logicalEqual_eq_same_iff]⟩


/-! ## Conversion to and from integers -/

theorem toInt32_of_range (x : Int) (h1 : -2 ^ 31 ≤ x) (h2 : x < 2 ^ 31) : toInt32 x = x := by
  unfold toInt32
  split <;> omega

theorem doubleToInt_of_range (x : Int) (h1 : -2 ^ 31 ≤ x) (h2 : x < 2 ^ 31) :
    doubleToInt x = x := by
  unfold doubleToInt
  rw [if_pos ⟨h1, h2⟩]

/-- A char that is neither a digit nor a minus sign at index `0`, met in the rest of the loop,
makes `myStringToInt` return the error code. -/
theorem myStringToIntFrom_error (E : Int) (toCheck : List Int) (left i k : Nat)
    (result sign : Int) (hik : i ≤ k) (hk : k < i + left)
    (hdigit : ¬ (readChar toCheck k ≤ NINE ∧ readChar toCheck k ≥ ZERO))
    (hminus : ¬ (k = FIRST_INDEX ∧ readChar toCheck 0 = MINUS)) :
    myStringToIntFrom E toCheck left i result sign = E := by
  induction left generalizing i result sign with
  | zero => omega
  | succ left ih =>
    unfold myStringToIntFrom
    by_cases hi : i = k
    · subst hi
      simp only [hdigit, hminus, if_false]
    · split
      · exact ih (i + 1) _ _ (by omega) (by omega)
      · split
        · exact ih (i + 1) _ _ (by omega) (by omega)
        · rfl

theorem myStringToInt_error (E : Int) (s : MyString)
    (h : s.stringSize = 0 ∨
      ∃ i, i < s.stringSize ∧
        ¬ (48 ≤ readChar s.stringArray i ∧ readChar s.stringArray i ≤ 57) ∧
        ¬ (i = 0 ∧ readChar s.stringArray i = 45)) :
    myStringToInt E (some s) = E := by
  unfold myStringToInt
  simp only [myStringLen]
  rcases h with h | ⟨i, hi, hd, hm⟩
  · simp [h]
  · have hne : s.stringSize ≠ 0 := by omega
    simp only [hne, if_false]
    refine myStringToIntFrom_error E _ _ 0 i _ _ (Nat.zero_le i) (by omega) ?_ ?_
    · intro hc; exact hd ⟨hc.2, hc.1⟩
    · rintro ⟨h0, hc⟩
      have h0' : i = 0 := h0
      subst h0'
      exact hm ⟨rfl, hc⟩

/-- C8: `myStringToInt` returns `MYSTR_ERROR_CODE` when the instance is empty and when some
char of its content is neither an ASCII digit nor a `'-'` at index `0`; it does so on `""`,
`"12a4"` and `"12-34"`. -/
theorem myStringToInt_rejects (E : Int) (s : MyString)
    (h : myStringLen E (some s) = 0 ∨
      ∃ i, i < myStringLen E (some s) ∧
        ¬ (48 ≤ readChar s.stringArray i ∧ readChar s.stringArray i ≤ 57) ∧
        ¬ (i = 0 ∧ readChar s.stringArray i = 45)) :
    myStringToInt E (some s) = E ∧
    myStringToInt E (some ⟨List.replicate 16 0, 0, 16⟩) = E ∧
    myStringToInt E (some ⟨[49, 50, 97, 52], 4, 4⟩) = E ∧
    myStringToInt E (some ⟨[49, 50, 45, 51, 52], 5, 5⟩) = E :=
  ⟨myStringToInt_error E s h,
    myStringToInt_error E _ (Or.inl rfl),
    myStringToInt_error E _ (Or.inr ⟨2, by decide, by decide, by decide⟩),
    myStringToInt_error E _ (Or.inr ⟨2, by decide, by decide, by decide⟩)⟩

theorem myStringToInt_rejects_witness :
    myStringToInt (-999) (some ⟨[45, 49, 45, 0], 3, 4⟩) = -999 :=
  (myStringToInt_rejects (-999) ⟨[45, 49, 45, 0], 3, 4⟩
    (Or.inr ⟨2, by decide, by decide, by decide⟩)).1


theorem readChar_of_content (s : MyString) (L : List Int) (h : s.content = L) (j : Nat)
    (hj : j < L.length) : readChar s.stringArray j = L.getD j 0 := by
  subst h
  simp only [MyString.content, List.length_take] at hj
  simp only [readChar, MyString.content, List.getD_eq_getElem?_getD]
  rw [List.getElem?_take_of_lt (by omega)]

theorem myStringToIntFrom_digits (E : Int) (toCheck : List Int) (ds : List Nat) (i result : Nat)
    (sign : Int)
    (hbuf : ∀ j, j < ds.length → readChar toCheck (i + j) = ((ds.getD j 0 : Nat) : Int) + 48)
    (hd : ∀ d ∈ ds, d < 10)
    (hfit : result * 10 ^ ds.length + Nat.ofDigits 10 ds.reverse < 2 ^ 31) :
    myStringToIntFrom E toCheck ds.length i result sign =
      toInt32 (((result * 10 ^ ds.length + Nat.ofDigits 10 ds.reverse : Nat) : Int) * sign) := by
  induction ds generalizing i result with
  | nil => simp [myStringToIntFrom]
  | cons d ds ih =>
    have hd0 : d < 10 := hd d (by simp)
    have h0 : readChar toCheck i = (d : Int) + 48 := by simpa using hbuf 0 (by simp)
    have hval : Nat.ofDigits 10 (d :: ds).reverse = Nat.ofDigits 10 ds.reverse + 10 ^ ds.length * d := by
      rw [List.reverse_cons, Nat.ofDigits_append]; simp
    have heq : result * 10 ^ (d :: ds).length + Nat.ofDigits 10 (d :: ds).reverse =
        (10 * result + d) * 10 ^ ds.length + Nat.ofDigits 10 ds.reverse := by
      rw [hval, List.length_cons, pow_succ]; ring
    have hpos : 1 ≤ 10 ^ ds.length := Nat.one_le_pow _ _ (by norm_num)
    have hsmall : 10 * result + d < 2 ^ 31 := by
      rw [heq] at hfit
      calc 10 * result + d = (10 * result + d) * 1 := by ring
        _ ≤ (10 * result + d) * 10 ^ ds.length := Nat.mul_le_mul_left _ hpos
        _ ≤ (10 * result + d) * 10 ^ ds.length + Nat.ofDigits 10 ds.reverse := Nat.le_add_right _ _
        _ < 2 ^ 31 := hfit
    rw [heq]
    simp only [List.length_cons]
    unfold myStringToIntFrom
    have hdig : readChar toCheck i ≤ NINE ∧ readChar toCheck i ≥ ZERO := by
      rw [h0]; constructor <;> simp only [NINE, ZERO] <;> omega
    simp only [hdig, and_self, if_true]
    have hres : doubleToInt ((BASE : Int) * (result : Int) + (readChar toCheck i - CHAR_TO_INT)) =
        ((10 * result + d : Nat) : Int) := by
      rw [h0, doubleToInt_of_range] <;> simp only [BASE, CHAR_TO_INT] <;> push_cast <;> omega
    rw [hres]
    refine ih (i + 1) (10 * result + d) ?_ (fun x hx => hd x (by simp [hx])) (by rw [← heq]; exact hfit)
    intro j hj
    have := hbuf (j + 1) (by simp; omega)
    simpa [Nat.add_assoc, Nat.add_comm 1 j] using this


theorem content_length (s : MyString) (h : s.Valid) : s.content.length = s.stringSize := by
  simp only [MyString.content, List.length_take]
  have := h.1; have := h.2.1; omega

theorem myStringToInt_decimal (E : Int) (s : MyString) (neg : Bool) (ds : List Nat)
    (hs : s.Valid) (hne : ds ≠ []) (hd : ∀ d ∈ ds, d < 10)
    (hfit : decimalValue ds < 2 ^ 31)
    (hc : s.content = (if neg then [MINUS] else []) ++ digitChars ds) :
    myStringToInt E (some s) =
      (if neg then -1 else 1) * (decimalValue ds : Int) := by
  have hlen := content_length s hs
  unfold decimalValue at hfit ⊢
  unfold digitChars at hc
  have hpos : 0 < ds.length := List.length_pos.mpr hne
  unfold myStringToInt
  simp only [myStringLen]
  cases neg with
  | false =>
    simp only [Bool.false_eq_true, if_false, List.nil_append] at hc ⊢
    have hsize : s.stringSize = ds.length := by rw [← hlen, hc]; simp
    have hne0 : s.stringSize ≠ EMPTY := by simp only [EMPTY]; omega
    simp only [hne0, if_false]
    rw [hsize]
    have := myStringToIntFrom_digits E s.stringArray ds 0 0 POSITIVE
      (fun j hj => by
        rw [Nat.zero_add, readChar_of_content s _ hc j (by simpa using hj)]
        simp [List.getD_eq_getElem?_getD, List.getElem?_map, List.getElem?_eq_getElem hj])
      hd (by simpa using hfit)
    simp only [EMPTY, Nat.cast_zero] at this ⊢
    rw [this, toInt32_of_range] <;> simp <;> omega
  | true =>
    simp only [if_true, List.singleton_append] at hc ⊢
    have hsize : s.stringSize = ds.length + 1 := by rw [← hlen, hc]; simp
    have hne0 : s.stringSize ≠ EMPTY := by simp only [EMPTY]; omega
    have h0 : readChar s.stringArray 0 = MINUS := by
      rw [readChar_of_content s _ hc 0 (by simp)]; simp
    simp only [hne0, if_false]
    rw [hsize]
    have step : myStringToIntFrom E s.stringArray (ds.length + 1) 0 ((EMPTY : Nat) : Int)
        POSITIVE = myStringToIntFrom E s.stringArray ds.length (0 + 1) ((0 : Nat) : Int)
          NEGATIVE := by
      rw [myStringToIntFrom]
      have hnd : ¬ (MINUS ≤ NINE ∧ MINUS ≥ ZERO) := by decide
      simp only [h0, hnd, if_false, and_self, if_true, EMPTY]
    rw [step]
    have := myStringToIntFrom_digits E s.stringArray ds (0 + 1) 0 NEGATIVE
      (fun j hj => by
        rw [Nat.add_comm, readChar_of_content s _ hc (j + (0 + 1)) (by simpa using hj)]
        simp [List.getD_eq_getElem?_getD, List.getElem?_map, List.getElem?_eq_getElem hj])
      hd (by simpa using hfit)
    rw [this, toInt32_of_range] <;> simp <;> omega

/-- C9: when the content of a valid instance is an optional `'-'` followed by one or more
ASCII digits `d1..dk` whose decimal value `sum di * 10^(k-i)` is below `2^31`,
`myStringToInt` returns that value, negated when the `'-'` is there; `"1234"` gives `1234`
and `"-1234567"` gives `-1234567`. -/
theorem myStringToInt_value (E : Int) (s : MyString) (neg : Bool) (ds : List Nat)
    (hs : s.Valid) (hne : ds ≠ []) (hd : ∀ d ∈ ds, d < 10)
    (hfit : decimalValue ds < 2 ^ 31)
    (hc : s.content = (if neg then [MINUS] else []) ++ digitChars ds) :
    myStringToInt E (some s) = (if neg then -1 else 1) * (decimalValue ds : Int) ∧
    myStringToInt E (some ⟨[49, 50, 51, 52], 4, 4⟩) = 1234 ∧
    myStringToInt E (some ⟨[45, 49, 50, 51, 52, 53, 54, 55], 8, 8⟩) = -1234567 :=
  ⟨myStringToInt_decimal E s neg ds hs hne hd hfit hc,
    myStringToInt_decimal E _ false [1, 2, 3, 4] (by decide) (by decide) (by decide)
      (by decide) (by decide),
    myStringToInt_decimal E _ true [1, 2, 3, 4, 5, 6, 7] (by decide) (by decide) (by decide)
      (by decide) (by decide)⟩

theorem myStringToInt_value_witness :
    myStringToInt 0 (some ⟨[45, 48, 55, 50, 0, 0], 4, 6⟩) =
      (if true then -1 else 1) * (decimalValue [0, 7, 2] : Int) :=
  (myStringToInt_value 0 ⟨[45, 48, 55, 50, 0, 0], 4, 6⟩ true [0, 7, 2] (by decide)
    (by decide) (by decide) (by decide) (by decide)).1


/-! ## Filtering -/

theorem take_succ_set (l : List Int) (k : Nat) (x : Int) (h : k < l.length) :
    (l.set k x).take (k + 1) = l.take k ++ [x] := by
  induction l generalizing k with
  | nil => simp at h
  | cons a l ih =>
    cases k with
    | zero => simp
    | succ k =>
      simp only [List.set_cons_succ, List.take_succ_cons, List.cons_append, List.cons.injEq,
        true_and]
      exact ih k (by simpa using h)

theorem readChar_eq_getElem (A : List Int) (i : Nat) (h : i < A.length) :
    readChar A i = A[i] := by
  simp [readChar, List.getD_eq_getElem?_getD, List.getElem?_eq_getElem h]

/-- Invariant of the loop of `myStringFilter`: the count of the chars found grows by the number
of filtered chars among those visited, and the temporary array holds the other ones in
order, right after those it held before. -/
theorem myStringFilterFrom_spec (filt : Int → Bool) (A : List Int) (left i af : Nat)
    (temp : List Int) (hA : i + left ≤ A.length) (haf : af ≤ i)
    (htemp : i + left - af ≤ temp.length) :
    (myStringFilterFrom filt A left i af temp).1 =
        af + ((A.drop i).take left).countP (fun c => filt c) ∧
      (myStringFilterFrom filt A left i af temp).2.length = temp.length ∧
      (myStringFilterFrom filt A left i af temp).2.take
          (i + left - (myStringFilterFrom filt A left i af temp).1) =
        temp.take (i - af) ++ ((A.drop i).take left).filter (fun c => !filt c) := by
  induction left generalizing i af temp with
  | zero => simp [myStringFilterFrom]
  | succ left ih =>
    have hi : i < A.length := by omega
    have hdrop : (A.drop i).take (left + 1) = A[i] :: (A.drop (i + 1)).take left := by
      rw [List.drop_eq_getElem_cons hi, List.take_succ_cons]
    rw [hdrop]
    unfold myStringFilterFrom
    rw [readChar_eq_getElem A i hi]
    by_cases hp : filt A[i] = true
    · simp only [hp, if_true]
      obtain ⟨h1, h2, h3⟩ := ih (i + 1) (af + 1) temp (by omega) (by omega) (by omega)
      refine ⟨?_, h2, ?_⟩
      · rw [h1]; simp [hp]; omega
      · have e : i + (left + 1) = i + 1 + left := by omega
        rw [e, h3]
        simp [hp]
    · simp only [hp, Bool.false_eq_true, if_false]
      obtain ⟨h1, h2, h3⟩ := ih (i + 1) af (temp.set (i - af) A[i]) (by omega) (by omega)
        (by simp; omega)
      refine ⟨?_, ?_, ?_⟩
      · rw [h1]; simp [hp]
      · rw [h2]; simp
      · have e : i + (left + 1) = i + 1 + left := by omega
        have e2 : i + 1 - af = i - af + 1 := by omega
        rw [e, h3, e2, take_succ_set _ _ _ (by omega)]
        simp [hp]

theorem myStringFilter_content (E : Int) (junk : Nat → Int) (s : MyString) (hs : s.Valid)
    (filt : Int → Bool) :
    ∃ s2, myStringFilter E junk (some s) filt = (MYSTRING_SUCCESS, some s2) ∧
      s2.content = s.content.filter (fun c => !filt c) ∧
      s2.stringSize = s.stringSize - s.content.countP (fun c => filt c) ∧
      s2.realSize = s.realSize ∧ s2.Valid := by
  obtain ⟨hs1, hs2, hs3⟩ := hs
  obtain ⟨h1, h2, h3⟩ := myStringFilterFrom_spec filt s.stringArray s.stringSize 0 0
    (malloc junk s.stringSize) (by omega) (Nat.le_refl 0) (by simp [malloc])
  simp only [List.drop_zero, Nat.zero_add, Nat.sub_zero, List.take_zero, List.nil_append]
    at h1 h2 h3
  have hcount : (s.stringArray.take s.stringSize).countP (fun c => filt c) ≤ s.stringSize := by
    calc _ ≤ (s.stringArray.take s.stringSize).length := List.countP_le_length _
      _ ≤ s.stringSize := by simp
  have hlen2 : (myStringFilterFrom filt s.stringArray s.stringSize 0 0
      (malloc junk s.stringSize)).2.length = s.stringSize := by
    rw [h2]; simp [malloc]
  refine ⟨_, rfl, ?_, ?_, rfl, ?_⟩
  · simp only [myStringLen, memcpy, MyString.content, EMPTY]
    rw [List.take_append_of_le_length (by simp [hlen2])]
    simp only [List.take_take, Nat.min_self]
    exact h3
  · simp only [myStringLen, EMPTY, h1, MyString.content, Nat.zero_add]
  · refine ⟨?_, ?_, hs3⟩
    · simp only [myStringLen, memcpy, EMPTY, List.length_append, List.length_take,
        List.length_drop, hlen2]
      omega
    · simp only [EMPTY]; omega

/-- C10: on a valid instance `myStringFilter` returns success and leaves exactly the chars for
which the filter is false, in their order; the length drops by the number of chars for which
it is true and the capacity is unchanged; `"abacadae"` filtered by "is `'a'`" becomes
`"bcde"`, with 4 chars removed. -/
theorem myStringFilter_removes (E : Int) (junk : Nat → Int) (s : MyString) (hs : s.Valid)
    (filt : Int → Bool) :
    (∃ s2, myStringFilter E junk (some s) filt = (MYSTRING_SUCCESS, some s2) ∧
      s2.content = s.content.filter (fun c => !filt c) ∧
      myStringLen E (some s2) =
        myStringLen E (some s) - s.content.countP (fun c => filt c) ∧
      myStringRealSize s2 = myStringRealSize s) ∧
    (∃ s2, myStringFilter E junk (some ⟨[97, 98, 97, 99, 97, 100, 97, 101], 8, 8⟩)
        (fun c => decide (c = 97)) = (MYSTRING_SUCCESS, some s2) ∧
      s2.content = [98, 99, 100, 101] ∧ myStringLen E (some s2) = 8 - 4) := by
  constructor
  · obtain ⟨s2, h1, h2, h3, h4, _⟩ := myStringFilter_content E junk s hs filt
    exact ⟨s2, h1, h2, h3, h4⟩
  · obtain ⟨s2, h1, h2, h3, _, _⟩ := myStringFilter_content E junk
      ⟨[97, 98, 97, 99, 97, 100, 97, 101], 8, 8⟩ (by decide) (fun c => decide (c = 97))
    refine ⟨s2, h1, ?_, ?_⟩
    · rw [h2]; decide
    · simp only [myStringLen]; rw [h3]; decide

theorem myStringFilter_removes_witness :
    ∃ s2, myStringFilter 1 (fun _ => 0) (some ⟨[120, 32, 121, 7], 3, 4⟩)
        (fun c => decide (c = 32)) = (MYSTRING_SUCCESS, some s2) ∧
      s2.content = (MyString.content ⟨[120, 32, 121, 7], 3, 4⟩).filter
        (fun c => !decide (c = 32)) ∧
      myStringLen 1 (some s2) = myStringLen 1 (some ⟨[120, 32, 121, 7], 3, 4⟩) -
        (MyString.content ⟨[120, 32, 121, 7], 3, 4⟩).countP (fun c => decide (c = 32)) ∧
      myStringRealSize s2 = myStringRealSize ⟨[120, 32, 121, 7], 3, 4⟩ :=
  (myStringFilter_removes 1 (fun _ => 0) ⟨[120, 32, 121, 7], 3, 4⟩ (by decide)
    (fun c => decide (c = 32))).1


/-! ## Setting from an integer -/

theorem floorQuotient_natCast (m k : Nat) (hk : k ≤ 308) :
    floorQuotient (m : Int) k = ((m / 10 ^ k : Nat) : Int) := by
  simp only [floorQuotient, hk, if_true, BASE]
  push_cast
  rfl

theorem truncQuotient_natCast (m k : Nat) (hk : k ≤ 308) :
    truncQuotient (m : Int) k = ((m / 10 ^ k : Nat) : Int) := by
  simp only [truncQuotient, hk, if_true, BASE]
  rw [Int.tdiv_eq_ediv (by omega) (by positivity)]
  push_cast
  rfl

/-- The loop of `getLengthOfInt` on a natural number `m` stops at the first `L` with
`m < 10 ^ L`, provided the fuel reaches that far. -/
theorem getLengthOfIntLoop_natCast (m L fuel k : Nat) (hk : k ≤ L) (hfuel : L - k ≤ fuel)
    (hL : L ≤ 308) (hlt : m < 10 ^ L) (hge : ∀ j, j < L → 10 ^ j ≤ m) :
    getLengthOfIntLoop (m : Int) fuel k (floorQuotient (m : Int) k) = L := by
  induction fuel generalizing k with
  | zero =>
    simp only [getLengthOfIntLoop]; omega
  | succ fuel ih =>
    unfold getLengthOfIntLoop
    rw [floorQuotient_natCast m k (by omega)]
    by_cases hkL : k = L
    · subst hkL
      have : m / 10 ^ k = 0 := Nat.div_eq_of_lt hlt
      simp [this]
    · have hpos : 0 < 10 ^ k := by positivity
      have : m / 10 ^ k ≠ 0 := by
        intro h0
        have := (Nat.div_eq_zero_iff hpos).mp h0
        have := hge k (by omega)
        omega
      have hne : ((m / 10 ^ k : Nat) : Int) ≠ 0 := by exact_mod_cast this
      simp only [ne_eq, hne, not_false_eq_true, if_true]
      exact ih (k + 1) (by omega) (by omega)

/-- The fuel of `getLengthOfInt` is never used up: from 310 on, more fuel gives the same
result, because the value is zero at `digitLength = 309` at the latest. -/
theorem getLengthOfIntLoop_fuel (n : Int) (fuel k : Nat) (v : Int) (h : 309 ≤ k + fuel)
    (hv : 309 ≤ k → v = 0) :
    getLengthOfIntLoop n (fuel + 1) k v = getLengthOfIntLoop n fuel k v := by
  induction fuel generalizing k v with
  | zero =>
    have := hv (by omega)
    subst this
    simp [getLengthOfIntLoop]
  | succ fuel ih =>
    have hnext : 309 ≤ k + 1 → floorQuotient n (k + 1) = 0 := fun hk => by
      unfold floorQuotient
      rw [if_neg (by omega)]
    have := ih (k + 1) (floorQuotient n (k + 1)) (by omega) hnext
    by_cases hv0 : v = 0
    · subst hv0
      simp [getLengthOfIntLoop]
    · have step : ∀ f, getLengthOfIntLoop n (f + 1) k v =
          getLengthOfIntLoop n f (k + 1) (floorQuotient n (k + 1)) := fun f => by
        rw [getLengthOfIntLoop, if_pos hv0]
      rw [step (fuel + 1), step fuel, this]

theorem getLengthOfIntLoop_fuel_enough (n : Int) (extra : Nat) :
    getLengthOfIntLoop n (310 + extra) 0 (floorQuotient n 0) =
      getLengthOfIntLoop n 310 0 (floorQuotient n 0) := by
  induction extra with
  | zero => rfl
  | succ extra ih =>
    rw [← ih, ← Nat.add_assoc]
    exact getLengthOfIntLoop_fuel n (310 + extra) 0 _ (by omega) (by omega)

theorem pow_le_of_lt_digits_length (m j : Nat) (hj : j < (Nat.digits 10 m).length) :
    10 ^ j ≤ m := by
  have hm : m ≠ 0 := by
    intro h0; subst h0; simp at hj
  have h1 := Nat.base_pow_length_digits_le 10 m (by norm_num) hm
  have h2 : 10 ^ (j + 1) ≤ 10 ^ (Nat.digits 10 m).length :=
    Nat.pow_le_pow_right (by norm_num) (by omega)
  rw [pow_succ] at h2
  omega

theorem digits_length_le_ten (m : Nat) (h : m < 2 ^ 31) : (Nat.digits 10 m).length ≤ 10 := by
  by_contra hc
  have := pow_le_of_lt_digits_length m 10 (by omega)
  omega

theorem getLengthOfInt_natCast (m : Nat) (h : m < 2 ^ 31) :
    getLengthOfInt (m : Int) = ((Nat.digits 10 m).length : Int) := by
  have hL := digits_length_le_ten m h
  unfold getLengthOfInt
  have hneg : ¬ ((m : Int) < SMALLER_THAN_ZERO) := by simp only [SMALLER_THAN_ZERO]; omega
  simp only [hneg, if_false]
  rw [getLengthOfIntLoop_natCast m _ 310 0 (Nat.zero_le _) (by omega) (by omega)
    (Nat.lt_base_pow_length_digits (by norm_num)) (pow_le_of_lt_digits_length m)]

theorem getLengthOfInt_neg (m : Nat) (h : m < 2 ^ 31) (hpos : 0 < m) :
    getLengthOfInt (-(m : Int)) = ((Nat.digits 10 m).length : Int) := by
  have hL := digits_length_le_ten m h
  unfold getLengthOfInt
  have hneg : (-(m : Int) < SMALLER_THAN_ZERO) := by simp only [SMALLER_THAN_ZERO]; omega
  have hwrap : toInt32 (-(m : Int) * NEGATIVE) = (m : Int) := by
    rw [toInt32_of_range] <;> simp only [NEGATIVE] <;> omega
  simp only [hneg, if_true, hwrap]
  rw [getLengthOfIntLoop_natCast m _ 310 0 (Nat.zero_le _) (by omega) (by omega)
    (Nat.lt_base_pow_length_digits (by norm_num)) (pow_le_of_lt_digits_length m)]


theorem leadingDigits_length (d m : Nat) : (leadingDigits d m).length = d := by
  induction d generalizing m with
  | zero => rfl
  | succ d ih => simp [leadingDigits, ih]

theorem leadingDigits_lt (d m : Nat) (hm : m < 10 ^ d) : ∀ x ∈ leadingDigits d m, x < 10 := by
  induction d generalizing m with
  | zero => simp [leadingDigits]
  | succ d ih =>
    intro x hx
    simp only [leadingDigits, List.mem_cons] at hx
    rcases hx with hx | hx
    · subst hx
      rw [pow_succ] at hm
      exact Nat.div_lt_of_lt_mul (by omega)
    · exact ih (m % 10 ^ d) (Nat.mod_lt _ (by positivity)) x hx

theorem leadingDigits_value (d m : Nat) (hm : m < 10 ^ d) :
    decimalValue (leadingDigits d m) = m := by
  induction d generalizing m with
  | zero => simp [leadingDigits, decimalValue]; omega
  | succ d ih =>
    have := ih (m % 10 ^ d) (Nat.mod_lt _ (by positivity))
    unfold decimalValue at this ⊢
    simp only [leadingDigits, List.reverse_cons, Nat.ofDigits_append, this, List.length_reverse,
      leadingDigits_length, Nat.ofDigits_singleton]
    exact Nat.mod_add_div m (10 ^ d)

theorem drop_set_lt (l : List Int) (k n : Nat) (x : Int) (h : k < n) :
    (l.set k x).drop n = l.drop n := by
  induction l generalizing k n with
  | nil => simp
  | cons a l ih =>
    cases n with
    | zero => omega
    | succ n =>
      cases k with
      | zero => simp
      | succ k => simpa using ih k n (by omega)

/-- The loop of `myStringSetFromInt` with `d` digits to go on a natural number below `10 ^ d`
writes its `d` decimal digits, most significant first, from index `i` on. -/
theorem myStringSetFromIntFrom_spec (d : Nat) (buf : List Int) (i m : Nat) (hm : m < 10 ^ d)
    (hm31 : m < 2 ^ 31) (hd : d ≤ 309) (hbuf : i + d ≤ buf.length) :
    myStringSetFromIntFrom d buf i (m : Int) d =
      buf.take i ++ digitChars (leadingDigits d m) ++ buf.drop (i + d) := by
  induction d generalizing buf i m with
  | zero => simp [myStringSetFromIntFrom, leadingDigits, digitChars]
  | succ d ih =>
    unfold myStringSetFromIntFrom
    simp only [Nat.add_sub_cancel]
    rw [truncQuotient_natCast m d (by omega)]
    have hrem : toInt32 ((m : Int) - (BASE : Int) ^ d * ((m / 10 ^ d : Nat) : Int)) =
        ((m % 10 ^ d : Nat) : Int) := by
      have h1 : (m : Int) - (BASE : Int) ^ d * ((m / 10 ^ d : Nat) : Int) =
          ((m % 10 ^ d : Nat) : Int) := by
        have := Nat.mod_add_div m (10 ^ d)
        have h2 : ((m % 10 ^ d : Nat) : Int) + ((10 ^ d * (m / 10 ^ d) : Nat) : Int) = m := by
          exact_mod_cast this
        simp only [BASE]
        push_cast at h2 ⊢
        omega
      rw [h1]
      have := Nat.mod_le m (10 ^ d)
      exact toInt32_of_range _ (by omega) (by omega)
    rw [hrem, ih (buf.set i (((m / 10 ^ d : Nat) : Int) + CHAR_TO_INT)) (i + 1) (m % 10 ^ d)
      (Nat.mod_lt _ (by positivity)) (by have := Nat.mod_le m (10 ^ d); omega) (by omega)
      (by simp; omega)]
    rw [take_succ_set _ _ _ (by omega), drop_set_lt _ _ _ _ (by omega)]
    have e : i + 1 + d = i + (d + 1) := by omega
    simp [leadingDigits, digitChars, e]


theorem leadingDigits_eq_digits (m : Nat) (hm : m ≠ 0) :
    leadingDigits (Nat.digits 10 m).length m = (Nat.digits 10 m).reverse := by
  have hlt : m < 10 ^ (Nat.digits 10 m).length := Nat.lt_base_pow_length_digits (by norm_num)
  have hval := leadingDigits_value _ m hlt
  unfold decimalValue at hval
  have hdig := Nat.digits_ofDigits 10 (by norm_num)
    (leadingDigits (Nat.digits 10 m).length m).reverse
    (fun x hx => leadingDigits_lt _ m hlt x (by simpa using hx))
    (by
      intro hne
      obtain ⟨L, hL⟩ : ∃ L, (Nat.digits 10 m).length = L + 1 := by
        have : (Nat.digits 10 m).length ≠ 0 := by
          intro h0
          exact hm (Nat.digits_eq_nil_iff_eq_zero.mp (List.length_eq_zero.mp h0))
        exact ⟨(Nat.digits 10 m).length - 1, by omega⟩
      have hge : 10 ^ L ≤ m := pow_le_of_lt_digits_length m L (by omega)
      simp only [hL, leadingDigits, List.reverse_cons, List.getLast_append_singleton]
      have : 0 < m / 10 ^ L := Nat.div_pos hge (by positivity)
      omega)
  rw [hval] at hdig
  have := congrArg List.reverse hdig
  rw [List.reverse_reverse] at this
  exact this.symm

theorem canonicalDigits_eq_leadingDigits (m : Nat) :
    canonicalDigits m =
      leadingDigits (if m = 0 then 1 else (Nat.digits 10 m).length) m := by
  unfold canonicalDigits
  by_cases h : m = 0
  · subst h; simp [leadingDigits]
  · simp only [h, if_false, leadingDigits_eq_digits m h]

/-- The canonical digits are digits, there is at least one, the first is zero only for the
number zero, and their decimal value is the number. -/
theorem canonicalDigits_spec (m : Nat) :
    canonicalDigits m ≠ [] ∧ (∀ d ∈ canonicalDigits m, d < 10) ∧
      ((canonicalDigits m).head? = some 0 → m = 0) ∧
      decimalValue (canonicalDigits m) = m := by
  by_cases h : m = 0
  · subst h; simp [canonicalDigits, decimalValue]
  · have hne : Nat.digits 10 m ≠ [] := Nat.digits_ne_nil_iff_ne_zero.mpr h
    simp only [canonicalDigits, h, if_false, decimalValue, List.reverse_reverse,
      Nat.ofDigits_digits, ne_eq, List.reverse_eq_nil_iff, hne, not_false_eq_true,
      List.mem_reverse, true_and, and_true]
    refine ⟨fun d hd => Nat.digits_lt_base (by norm_num) hd, ?_⟩
    intro h0
    have := Nat.getLast_digit_ne_zero 10 h
    rw [List.head?_reverse, List.getLast?_eq_getLast _ hne] at h0
    simp only [Option.some.injEq] at h0
    exact absurd h0 this

theorem toULong_length (n : Nat) (h : n ≤ 309) : toULong (n : Int) = n :=
  toULong_natCast n (by omega)

theorem digitChars_length (ds : List Nat) : (digitChars ds).length = ds.length := by
  simp [digitChars]

theorem canonicalDigits_length (m : Nat) :
    (canonicalDigits m).length = if m = 0 then 1 else (Nat.digits 10 m).length := by
  unfold canonicalDigits
  by_cases h : m = 0 <;> simp [h]

theorem myStringSetFromInt_spec (grown : Nat → Int) (s : MyString)
    (hs : s.stringArray.length = s.realSize) (n : Int) (h1 : -2 ^ 31 < n) (h2 : n < 2 ^ 31) :
    ∃ b, myStringSetFromInt (some grown) (some s) n =
        (MYSTRING_SUCCESS, some ⟨b, (decimalChars n).length,
          policy s.realSize (decimalChars n).length⟩) ∧
      b.length = policy s.realSize (decimalChars n).length ∧
      b.take (decimalChars n).length = decimalChars n := by
  have hL := digits_length_le_ten n.natAbs (by omega)
  have hlt : n.natAbs < 10 ^ (Nat.digits 10 n.natAbs).length :=
    Nat.lt_base_pow_length_digits (by norm_num)
  have hu : toULong ((Nat.digits 10 n.natAbs).length : Int) = (Nat.digits 10 n.natAbs).length :=
    toULong_length _ (by omega)
  rcases lt_trichotomy n 0 with hn | hn | hn
  · -- a negative number
    have hm : n.natAbs ≠ 0 := by omega
    have hnm : n = -(n.natAbs : Int) := by omega
    have hlen : getLengthOfInt n = ((Nat.digits 10 n.natAbs).length : Int) := by
      conv_lhs => rw [hnm]
      exact getLengthOfInt_neg n.natAbs (by omega) (by omega)
    have hdec : decimalChars n = MINUS :: digitChars (leadingDigits
        (Nat.digits 10 n.natAbs).length n.natAbs) := by
      simp only [decimalChars, hn, if_true, canonicalDigits_eq_leadingDigits, hm, if_false,
        List.singleton_append]
    have hdl : (decimalChars n).length = (Nat.digits 10 n.natAbs).length + 1 := by
      rw [hdec]; simp [digitChars_length, leadingDigits_length]
    obtain ⟨b, hb, hblen, _⟩ := reSizeStringArray_success grown s
      ((Nat.digits 10 n.natAbs).length + 1) hs (Or.inl (by omega))
    have hble : (Nat.digits 10 n.natAbs).length + 1 ≤ b.length := hblen ▸ le_policy _ _
    have hwrap : toInt32 (n * NEGATIVE) = (n.natAbs : Int) := by
      rw [toInt32_of_range] <;> simp only [NEGATIVE] <;> omega
    have hloop := myStringSetFromIntFrom_spec (Nat.digits 10 n.natAbs).length
      (b.set 0 MINUS) 1 n.natAbs hlt (by omega) (by omega) (by simp; omega)
    rw [show List.take 1 (b.set 0 MINUS) = [] ++ [MINUS] from
        take_succ_set b 0 MINUS (by omega), drop_set_lt _ _ _ _ (by omega)] at hloop
    refine ⟨[] ++ [MINUS] ++ digitChars (leadingDigits (Nat.digits 10 n.natAbs).length
      n.natAbs) ++ List.drop (1 + (Nat.digits 10 n.natAbs).length) b, ?_, ?_, ?_⟩
    · simp only [myStringSetFromInt, hlen, hu,
        show n ≤ SMALLER_THAN_ZERO from by simp only [SMALLER_THAN_ZERO]; omega, if_true, hb,
        hn, hwrap, FIRST_INDEX, Nat.zero_add, Nat.add_sub_cancel, hloop, hdl]
    · simp only [hdl, List.length_append, List.length_nil, List.length_singleton,
        digitChars_length, leadingDigits_length, List.length_drop, hblen]
      have := le_policy s.realSize ((Nat.digits 10 n.natAbs).length + 1)
      omega
    · rw [hdl, hdec]
      simp only [List.nil_append, List.singleton_append, List.cons_append]
      rw [List.take_succ_cons, List.take_append_of_le_length
        (by simp [digitChars_length, leadingDigits_length])]
      rw [List.take_of_length_le (by simp [digitChars_length, leadingDigits_length])]
  · -- zero
    subst hn
    have hlen : getLengthOfInt 0 = ((0 : Nat) : Int) := by
      have := getLengthOfInt_natCast 0 (by norm_num)
      simpa using this
    have hdec : decimalChars 0 = [48] := by
      simp [decimalChars, canonicalDigits, digitChars]
    obtain ⟨b, hb, hblen, _⟩ := reSizeStringArray_success grown s 1 hs (Or.inl (by decide))
    have hble : 1 ≤ b.length := hblen ▸ le_policy _ _
    have hloop := myStringSetFromIntFrom_spec 1 b 0 0 (by norm_num) (by norm_num)
      (by omega) (by omega)
    refine ⟨List.take 0 b ++ digitChars (leadingDigits 1 0) ++ List.drop (0 + 1) b, ?_, ?_, ?_⟩
    · simp only [myStringSetFromInt, hlen, toULong_length _ (show 0 ≤ 309 by omega),
        show (0 : Int) ≤ SMALLER_THAN_ZERO from by simp [SMALLER_THAN_ZERO], if_true, hb,
        lt_self_iff_false, if_false, FIRST_INDEX, Nat.zero_add, Nat.sub_zero, hdec,
        List.length_singleton]
      rw [show ((0 : Nat) : Int) = 0 from rfl] at hloop
      rw [hloop]
    · simp only [hdec, List.length_singleton, List.take_zero, List.nil_append,
        List.length_append, digitChars_length, leadingDigits_length, List.length_drop, hblen]
      have := le_policy s.realSize 1
      omega
    · simp [hdec, leadingDigits, digitChars]
  · -- a positive number
    have hm : n.natAbs ≠ 0 := by omega
    have hnm : n = (n.natAbs : Int) := by omega
    have hlen : getLengthOfInt n = ((Nat.digits 10 n.natAbs).length : Int) := by
      conv_lhs => rw [hnm]
      exact getLengthOfInt_natCast n.natAbs (by omega)
    have hdec : decimalChars n = digitChars (leadingDigits
        (Nat.digits 10 n.natAbs).length n.natAbs) := by
      simp only [decimalChars, show ¬ n < 0 from by omega, if_false,
        canonicalDigits_eq_leadingDigits, hm, List.nil_append]
    have hdl : (decimalChars n).length = (Nat.digits 10 n.natAbs).length := by
      rw [hdec]; simp [digitChars_length, leadingDigits_length]
    have hL0 : (Nat.digits 10 n.natAbs).length ≠ 0 := fun h0 =>
      hm (Nat.digits_eq_nil_iff_eq_zero.mp (List.length_eq_zero.mp h0))
    obtain ⟨b, hb, hblen, _⟩ := reSizeStringArray_success grown s
      (Nat.digits 10 n.natAbs).length hs (Or.inl hL0)
    have hble : (Nat.digits 10 n.natAbs).length ≤ b.length := hblen ▸ le_policy _ _
    have hloop := myStringSetFromIntFrom_spec (Nat.digits 10 n.natAbs).length
      b 0 n.natAbs hlt (by omega) (by omega) (by omega)
    rw [← hnm] at hloop
    refine ⟨List.take 0 b ++ digitChars (leadingDigits (Nat.digits 10 n.natAbs).length
      n.natAbs) ++ List.drop (0 + (Nat.digits 10 n.natAbs).length) b, ?_, ?_, ?_⟩
    · simp only [myStringSetFromInt, hlen, hu,
        show ¬ n ≤ SMALLER_THAN_ZERO from by simp only [SMALLER_THAN_ZERO]; omega, if_false,
        hb, show ¬ n < 0 from by omega, FIRST_INDEX, Nat.sub_zero, hloop, hdl]
    · simp only [hdl, List.take_zero, List.nil_append, List.length_append,
        digitChars_length, leadingDigits_length, List.length_drop, hblen, Nat.zero_add]
      have := le_policy s.realSize (Nat.digits 10 n.natAbs).length
      omega
    · rw [hdl, hdec]
      simp only [List.take_zero, List.nil_append, Nat.zero_add]
      rw [List.take_append_of_le_length (by simp [digitChars_length, leadingDigits_length])]
      rw [List.take_of_length_le (by simp [digitChars_length, leadingDigits_length])]


theorem myStringSetFromIntFrom_written (left : Nat) (buf : List Int) (i : Nat) (n : Int)
    (digitCounter : Nat) (hbuf : i + left ≤ buf.length) :
    myStringSetFromIntFrom left buf i n digitCounter =
      buf.take i ++ writtenChars left n digitCounter ++ buf.drop (i + left) := by
  induction left generalizing buf i n digitCounter with
  | zero => simp [myStringSetFromIntFrom, writtenChars]
  | succ left ih =>
    unfold myStringSetFromIntFrom writtenChars
    simp only []
    rw [ih _ (i + 1) _ _ (by simp; omega), take_succ_set _ _ _ (by omega),
      drop_set_lt _ _ _ _ (by omega)]
    have e : i + 1 + left = i + (left + 1) := by omega
    simp [e]

set_option maxRecDepth 100000 in
theorem getLengthOfInt_int_min : getLengthOfInt (-2 ^ 31) = 309 := by decide

set_option maxRecDepth 100000 in
theorem writtenChars_int_min :
    writtenChars 309 (-2 ^ 31) 309 =
      List.replicate 299 48 ++ [46, 47, 44, 41, 44, 40, 45, 42, 44, 40] := by decide


theorem decimalChars_length_le (n : Int) (h1 : -2 ^ 31 < n) (h2 : n < 2 ^ 31) :
    (decimalChars n).length ≤ 11 := by
  have hL := digits_length_le_ten n.natAbs (by omega)
  simp only [decimalChars, List.length_append, digitChars_length, canonicalDigits_length]
  split <;> split <;> simp <;> omega

theorem myStringSetFromInt_valid (grown : Nat → Int) (s : MyString) (hs : s.Valid) (n : Int)
    (h1 : -2 ^ 31 < n) (h2 : n < 2 ^ 31) :
    ∃ s2, myStringSetFromInt (some grown) (some s) n = (MYSTRING_SUCCESS, some s2) ∧
      s2.Valid ∧ s2.content = decimalChars n ∧ s2.stringSize = (decimalChars n).length ∧
      s2.realSize = policy s.realSize (decimalChars n).length := by
  obtain ⟨b, hb, hblen, htake⟩ := myStringSetFromInt_spec grown s hs.1 n h1 h2
  refine ⟨_, hb, ⟨hblen, le_policy _ _, ?_⟩, htake, rfl, rfl⟩
  have := decimalChars_length_le n h1 h2
  have := hs.2.2
  simp only [policy]
  split <;> omega

/-- Within `(-2^31, 2^31)` the integer set into an instance is the integer read back. -/
theorem int_round_trip_in_range (E : Int) (grown : Nat → Int) (s : MyString) (hs : s.Valid)
    (n : Int) (h1 : -2 ^ 31 < n) (h2 : n < 2 ^ 31) :
    myStringToInt E (myStringSetFromInt (some grown) (some s) n).2 = n := by
  obtain ⟨s2, hset, hvalid, hcontent, _, _⟩ := myStringSetFromInt_valid grown s hs n h1 h2
  obtain ⟨hne, hlt, _, hval⟩ := canonicalDigits_spec n.natAbs
  rw [hset]
  have := myStringToInt_decimal E s2 (decide (n < 0)) (canonicalDigits n.natAbs) hvalid hne hlt
    (by rw [hval]; omega) (by rw [hcontent]; simp [decimalChars])
  rw [this, hval]
  by_cases hn : n < 0
  · have := Int.ofNat_natAbs_of_nonpos (le_of_lt hn)
    rw [if_pos (by simpa using hn)]; omega
  · have := Int.natAbs_of_nonneg (not_lt.mp hn)
    rw [if_neg (by simpa using hn)]; omega

set_option maxRecDepth 100000 in
/-- C6, at the most negative `int`: `myStringSetFromInt` on a fresh instance returns success
and leaves 310 chars, and `myStringToInt` of the result is the error code, not the integer
that was set.  The negation `n *= NEGATIVE` wraps around to the same negative number, the
digit count runs up to 309, where `pow` overflows, and the digits written for the negative
quotients are the chars `./,),(-*,(`. -/
theorem int_round_trip_at_int_min (E : Int) (junk grown : Nat → Int) :
    (myStringSetFromInt (some grown) (some (myStringAlloc junk)) (-2 ^ 31)).1 =
        MYSTRING_SUCCESS ∧
      myStringLen E (myStringSetFromInt (some grown) (some (myStringAlloc junk)) (-2 ^ 31)).2 =
        310 ∧
      myStringToInt E (myStringSetFromInt (some grown) (some (myStringAlloc junk)) (-2 ^ 31)).2 =
        E := by
  obtain ⟨b, hb, hblen, _⟩ := reSizeStringArray_success grown (myStringAlloc junk) 310
    (by rw [myStringAlloc_eq]; rfl) (Or.inl (by decide))
  have hpol : policy (myStringAlloc junk).realSize 310 = 310 := by
    rw [myStringAlloc_eq]; decide
  rw [hpol] at hb hblen
  have hwrap : toInt32 (-2 ^ 31 * NEGATIVE) = -2 ^ 31 := by decide
  have hu : toULong 309 = 309 := by decide
  have hset : myStringSetFromInt (some grown) (some (myStringAlloc junk)) (-2 ^ 31) =
      (MYSTRING_SUCCESS, some ⟨[MINUS] ++
        (List.replicate 299 48 ++ [46, 47, 44, 41, 44, 40, 45, 42, 44, 40]) ++ b.drop 310,
        310, 310⟩) := by
    have hloop := myStringSetFromIntFrom_written 309 (b.set 0 MINUS) 1 (-2 ^ 31) 309
      (by simp; omega)
    rw [show List.take 1 (b.set 0 MINUS) = [] ++ [MINUS] from
        take_succ_set b 0 MINUS (by omega), drop_set_lt _ _ _ _ (by omega),
      writtenChars_int_min] at hloop
    simp only [myStringSetFromInt, getLengthOfInt_int_min, hu,
      show (-2 ^ 31 : Int) ≤ SMALLER_THAN_ZERO from by decide, if_true, hb,
      show (-2 ^ 31 : Int) < 0 from by decide, hwrap, FIRST_INDEX, Nat.zero_add,
      Nat.add_sub_cancel, hloop, List.nil_append]
  rw [hset]
  refine ⟨rfl, rfl, ?_⟩
  have hread : readChar ([MINUS] ++
      (List.replicate 299 48 ++ [46, 47, 44, 41, 44, 40, 45, 42, 44, 40]) ++ b.drop 310) 300 =
      46 := by
    have e : [MINUS] ++ (List.replicate 299 48 ++ [46, 47, 44, 41, 44, 40, 45, 42, 44, 40]) ++
        b.drop 310 = (MINUS :: List.replicate 299 48) ++
          (46 :: ([47, 44, 41, 44, 40, 45, 42, 44, 40] ++ b.drop 310)) := by simp
    rw [e, readChar, List.getD_eq_getElem?_getD,
      List.getElem?_append_right (by simp)]
    simp
  refine myStringToInt_error E _ (Or.inr ⟨300, by norm_num, ?_, by norm_num⟩)
  simp only [hread]
  norm_num

/-- C7: for a valid instance and `-2^31 < n < 2^31`, `myStringSetFromInt` returns success and
leaves the canonical decimal ASCII representation of `n`, which is also the length: a `'-'`
exactly when `n < 0`, then digits whose decimal value is `|n|`, at least one, the first of
them `0` only when it is the only one; `-1234567` gives `"-1234567"`, of length 8. -/
theorem myStringSetFromInt_canonical (E : Int) (grown : Nat → Int) (s : MyString)
    (hs : s.Valid) (n : Int) (h1 : -2 ^ 31 < n) (h2 : n < 2 ^ 31) :
    (∃ s2, myStringSetFromInt (some grown) (some s) n = (MYSTRING_SUCCESS, some s2) ∧
      s2.content = decimalChars n ∧ myStringLen E (some s2) = (decimalChars n).length) ∧
    (∃ ds, decimalChars n = (if n < 0 then [MINUS] else []) ++ digitChars ds ∧
      ds ≠ [] ∧ (∀ d ∈ ds, d < 10) ∧ (ds.head? = some 0 → ds = [0]) ∧
      (decimalValue ds : Int) = |n|) ∧
    (∃ s2, myStringSetFromInt (some grown) (some s) (-1234567) =
        (MYSTRING_SUCCESS, some s2) ∧
      s2.content = [45, 49, 50, 51, 52, 53, 54, 55] ∧ myStringLen E (some s2) = 8) := by
  refine ⟨?_, ?_, ?_⟩
  · obtain ⟨s2, hset, _, hc, hl, _⟩ := myStringSetFromInt_valid grown s hs n h1 h2
    exact ⟨s2, hset, hc, hl⟩
  · obtain ⟨hne, hlt, hzero, hval⟩ := canonicalDigits_spec n.natAbs
    refine ⟨canonicalDigits n.natAbs, rfl, hne, hlt, ?_, ?_⟩
    · intro h0
      rw [hzero h0]; rfl
    · rw [hval]; simp
  · obtain ⟨s2, hset, _, hc, hl, _⟩ :=
      myStringSetFromInt_valid grown s hs (-1234567) (by norm_num) (by norm_num)
    have hdec : decimalChars (-1234567) = [45, 49, 50, 51, 52, 53, 54, 55] := by
      have : canonicalDigits 1234567 = [1, 2, 3, 4, 5, 6, 7] := by
        unfold canonicalDigits; norm_num
      simp [decimalChars, this, digitChars]
    refine ⟨s2, hset, by rw [hc, hdec], ?_⟩
    simp only [myStringLen]; rw [hl, hdec]; rfl

theorem myStringSetFromInt_canonical_witness :
    ∃ s2, myStringSetFromInt (some fun _ => 1) (some ⟨[9, 9], 1, 2⟩) (-120) =
        (MYSTRING_SUCCESS, some s2) ∧
      s2.content = decimalChars (-120) ∧ myStringLen 0 (some s2) = (decimalChars (-120)).length :=
  (myStringSetFromInt_canonical 0 (fun _ => 1) ⟨[9, 9], 1, 2⟩ (by decide) (-120) (by decide)
    (by decide)).1


/-! ## Construction, assignment and cloning -/

theorem myStringAlloc_valid (junk : Nat → Int) : (myStringAlloc junk).Valid := by
  rw [myStringAlloc_eq]; decide

/-- C16: `myStringAlloc` returns an instance of length 0 and capacity 16 whose buffer has a
null byte at index 0; its logical content is empty. -/
theorem myStringAlloc_empty (E : Int) (junk : Nat → Int) :
    myStringLen E (some (myStringAlloc junk)) = 0 ∧
      myStringRealSize (myStringAlloc junk) = 16 ∧
      (myStringAlloc junk).stringArray.length = 16 ∧
      (myStringAlloc junk).stringArray[0]? = some NULL_BYTE ∧
      (myStringAlloc junk).content = [] := by
  rw [myStringAlloc_eq]
  exact ⟨rfl, rfl, rfl, rfl, rfl⟩

/-- No reallocation is asked for when the capacity is at least the request and exceeds it by at
most 16: the instance is left as it is, whatever the allocator would answer. -/
theorem reSizeStringArray_unchanged (outcome : Option (Nat → Int)) (str : MyString) (n : Nat)
    (h1 : n ≤ str.realSize) (h2 : str.realSize - n ≤ 16) :
    reSizeStringArray outcome str n = (MYSTRING_SUCCESS, str) := by
  unfold reSizeStringArray myStringRealSize
  have hc : ¬ (str.realSize < n ∨ str.realSize - n > 16) := by omega
  simp [hc]

theorem policy_fresh (n : Nat) : policy 16 n = if n ≤ 16 then 16 else n := by
  unfold policy
  split <;> split <;> omega

/-- C19: for a non-empty char sequence `s` without a null byte, `myStringSetFromCString` on a
freshly allocated instance returns success and leaves the length `|s|`, the capacity 16 when
`|s| ≤ 16` and `|s|` otherwise, and the chars of `s` as content; the 16 chars of
`Testing this now` give length 16 and capacity 16. -/
theorem myStringSetFromCString_fresh (E : Int) (junk junkT grown : Nat → Int)
    (s rest : List Int) (hs : ∀ c ∈ s, c ≠ 0) (hne : s ≠ []) :
    (∃ str, myStringSetFromCString E junkT (some grown) (some (myStringAlloc junk))
        (some (s ++ 0 :: rest)) = (MYSTRING_SUCCESS, some str) ∧
      myStringLen E (some str) = s.length ∧
      myStringRealSize str = (if s.length ≤ 16 then 16 else s.length) ∧
      str.content = s) ∧
    (∃ str, myStringSetFromCString E junkT (some grown) (some (myStringAlloc junk))
        (some [84, 101, 115, 116, 105, 110, 103, 32, 116, 104, 105, 115, 32, 110, 111, 119, 0])
          = (MYSTRING_SUCCESS, some str) ∧
      myStringLen E (some str) = 16 ∧ myStringRealSize str = 16) := by
  have hfresh : (myStringAlloc junk).stringArray.length = (myStringAlloc junk).realSize := by
    rw [myStringAlloc_eq]; rfl
  have hreal : (myStringAlloc junk).realSize = 16 := by rw [myStringAlloc_eq]
  constructor
  · obtain ⟨b, hb, _, _, htake⟩ :=
      setFromCString_spec E junkT grown (myStringAlloc junk) s rest hs hfresh
    have h0 : s.length ≠ 0 := fun h => hne (List.length_eq_zero.mp h)
    refine ⟨_, hb, rfl, ?_, ?_⟩
    · simp only [myStringRealSize, hreal, h0, if_false, policy_fresh]
    · simpa [MyString.content] using htake
  · obtain ⟨b, hb, _, _, _⟩ := setFromCString_spec E junkT grown (myStringAlloc junk)
      [84, 101, 115, 116, 105, 110, 103, 32, 116, 104, 105, 115, 32, 110, 111, 119] []
      (by decide) hfresh
    refine ⟨_, hb, rfl, ?_⟩
    simp only [myStringRealSize, hreal]
    decide

theorem myStringSetFromCString_fresh_witness :
    ∃ str, myStringSetFromCString 0 (fun _ => 1) (some fun _ => 2)
        (some (myStringAlloc fun _ => 3)) (some ([120, 121] ++ 0 :: [9])) =
          (MYSTRING_SUCCESS, some str) ∧
      myStringLen 0 (some str) = [120, 121].length ∧
      myStringRealSize str = (if [120, 121].length ≤ 16 then 16 else [120, 121].length) ∧
      str.content = [120, 121] :=
  (myStringSetFromCString_fresh 0 (fun _ => 3) (fun _ => 1) (fun _ => 2) [120, 121] [9]
    (by decide) (by decide)).1

/-- C20, as the code has it: the literal `Testing this now` has 16 chars, so after
`myStringSetFromCString` on a freshly allocated instance `myStringLen` is 16 and the capacity
is still the 16 of `myStringAlloc`; no reallocation is asked for, whatever the allocator
would answer. -/
theorem testing_this_now_sixteen (E : Int) (junk junkT : Nat → Int)
    (outcome : Option (Nat → Int)) :
    ∃ str, myStringSetFromCString E junkT outcome (some (myStringAlloc junk))
        (some [84, 101, 115, 116, 105, 110, 103, 32, 116, 104, 105, 115, 32, 110, 111, 119, 0])
          = (MYSTRING_SUCCESS, some str) ∧
      myStringLen E (some str) = 16 ∧ myStringRealSize str = 16 ∧
      str.content =
        [84, 101, 115, 116, 105, 110, 103, 32, 116, 104, 105, 115, 32, 110, 111, 119] := by
  have hlen : getCStringLength
      [84, 101, 115, 116, 105, 110, 103, 32, 116, 104, 105, 115, 32, 110, 111, 119, 0] = 16 := by
    decide
  have hre := reSizeStringArray_unchanged outcome (myStringAlloc junk) 16
    (by rw [myStringAlloc_eq]) (by rw [myStringAlloc_eq]; decide)
  rw [myStringAlloc_eq] at hre
  refine ⟨⟨[84, 101, 115, 116, 105, 110, 103, 32, 116, 104, 105, 115, 32, 110, 111, 119],
    16, 16⟩, ?_, rfl, rfl, rfl⟩
  simp only [myStringSetFromCString, hlen, myStringAlloc_eq, hre]
  rfl

/-- C20, as stated, fails: after the call the length is not 17 and the capacity is not 17. -/
theorem testing_this_now_not_seventeen :
    ¬ ∃ str, (myStringSetFromCString (-999) (fun _ => 0) (some fun _ => 0)
        (some (myStringAlloc fun _ => 0))
        (some [84, 101, 115, 116, 105, 110, 103, 32, 116, 104, 105, 115, 32, 110, 111, 119, 0])).2
          = some str ∧
      myStringLen (-999) (some str) = 17 ∧ myStringRealSize str = 17 := by
  decide

theorem policy_lt (c n : Nat) (hc : c < 2 ^ 63) (hn : n < 2 ^ 63) : policy c n < 2 ^ 63 := by
  unfold policy; split <;> omega

/-- The state `myStringSetFromMyString` leaves when the reallocation succeeds: the length and
the content of the source, in a block of the capacity the policy gives for the size asked
for, which is 16 for an empty source. -/
theorem setFromMyString_spec (E : Int) (grown : Nat → Int) (dst src : MyString)
    (hd : dst.stringArray.length = dst.realSize)
    (hs : src.stringSize ≤ src.stringArray.length)
    (hs1 : src.stringSize = 0 → 1 ≤ src.stringArray.length) :
    ∃ b, myStringSetFromMyString E (some grown) (some dst) (some src) =
        (MYSTRING_SUCCESS, some ⟨b, src.stringSize,
          policy dst.realSize (if src.stringSize = 0 then 16 else src.stringSize)⟩) ∧
      b.length = policy dst.realSize (if src.stringSize = 0 then 16 else src.stringSize) ∧
      b.take src.stringSize = src.content := by
  by_cases h0 : src.stringSize = 0
  · obtain ⟨b, hb, hblen, _⟩ :=
      reSizeStringArray_success grown { dst with stringSize := src.stringSize } 16 hd
        (Or.inl (by decide))
    simp only at hb hblen
    rw [h0] at hb
    have hpos : 16 ≤ b.length := hblen ▸ le_policy _ _
    have hs1 := hs1 h0
    refine ⟨src.stringArray.take 1 ++ b.drop 1, ?_, ?_, ?_⟩
    · simp only [myStringSetFromMyString, myStringLen, h0, if_true, hb, memcpy]
    · simp only [h0, if_true, List.length_append, List.length_take, List.length_drop]
      omega
    · simp [h0, MyString.content]
  · obtain ⟨b, hb, hblen, _⟩ :=
      reSizeStringArray_success grown { dst with stringSize := src.stringSize }
        src.stringSize hd (Or.inl h0)
    simp only at hb hblen
    have hle : src.stringSize ≤ b.length := hblen ▸ le_policy _ _
    refine ⟨src.stringArray.take src.stringSize ++ b.drop src.stringSize, ?_, ?_, ?_⟩
    · simp only [myStringSetFromMyString, myStringLen, h0, if_false, hb, memcpy]
    · simp only [h0, if_false, List.length_append, List.length_take, List.length_drop]
      omega
    · rw [List.take_append_of_le_length (by simp [hs])]
      simp [MyString.content]

/-- C18: for a valid destination and a valid source that is not empty,
`myStringSetFromMyString` returns success and leaves the destination with the length and the
chars of the source, in the capacity the policy gives for that length; the source is an input
only and has no new state.  A fresh destination of capacity 16 set from a source of 17 chars
ends with length 17 and capacity 17. -/
theorem myStringSetFromMyString_copies (E : Int) (junk grown : Nat → Int) (dst src : MyString)
    (hd : dst.Valid) (hs : src.Valid) (hne : myStringLen E (some src) ≠ 0) :
    (∃ d2, myStringSetFromMyString E (some grown) (some dst) (some src) =
        (MYSTRING_SUCCESS, some d2) ∧
      myStringLen E (some d2) = myStringLen E (some src) ∧
      d2.content = src.content ∧
      myStringRealSize d2 = policy (myStringRealSize dst) (myStringLen E (some src))) ∧
    (myStringLen E (some src) = 17 →
      ∃ d2, myStringSetFromMyString E (some grown) (some (myStringAlloc junk)) (some src) =
          (MYSTRING_SUCCESS, some d2) ∧
        myStringLen E (some d2) = 17 ∧ myStringRealSize d2 = 17) := by
  simp only [myStringLen] at hne ⊢
  have hsl : src.stringSize ≤ src.stringArray.length := by rw [hs.1]; exact hs.2.1
  constructor
  · obtain ⟨b, hb, hblen, htake⟩ := setFromMyString_spec E grown dst src hd.1 hsl
      (fun h => absurd h hne)
    simp only [hne, if_false] at hb hblen
    exact ⟨_, hb, rfl, by simpa [MyString.content] using htake, rfl⟩
  · intro h17
    obtain ⟨b, hb, hblen, htake⟩ := setFromMyString_spec E grown (myStringAlloc junk) src
      (myStringAlloc_valid junk).1 hsl (fun h => absurd h hne)
    simp only [hne, if_false] at hb hblen
    refine ⟨_, hb, h17, ?_⟩
    simp only [myStringRealSize, h17]
    rw [myStringAlloc_eq]; decide

theorem myStringSetFromMyString_copies_witness :
    ∃ d2, myStringSetFromMyString 0 (some fun _ => 1) (some ⟨[1, 2, 3], 3, 3⟩)
        (some ⟨[104, 105, 0], 2, 3⟩) = (MYSTRING_SUCCESS, some d2) ∧
      myStringLen 0 (some d2) = myStringLen 0 (some ⟨[104, 105, 0], 2, 3⟩) ∧
      d2.content = MyString.content ⟨[104, 105, 0], 2, 3⟩ ∧
      myStringRealSize d2 =
        policy (myStringRealSize ⟨[1, 2, 3], 3, 3⟩) (myStringLen 0 (some ⟨[104, 105, 0], 2, 3⟩)) :=
  (myStringSetFromMyString_copies 0 (fun _ => 2) (fun _ => 1) ⟨[1, 2, 3], 3, 3⟩
    ⟨[104, 105, 0], 2, 3⟩ (by decide) (by decide) (by decide)).1

theorem lexCompare_self (x : List Int) : lexCompare x x = 0 := by
  induction x with
  | nil => rfl
  | cons c x ih => simp [lexCompare, ih]

theorem myStringEqual_of_compare (E : Int) (a b : MyString)
    (h : myStringCompare E (some a) (some b) = 0) : myStringEqual E (some a) (some b) = EQUAL :=
  (customCompare_zero_iff_customEqual E a b _ _ fun c d => by
    rw [defCompare_eq_same_iff, logicalEqual_eq_same_iff]).mp h

/-- The clone of a valid instance: the instance `myStringAlloc` gives when the source is empty,
and otherwise the chars of the source in a block of exactly that size; no reallocation is
asked for. -/
theorem myStringClone_spec (E : Int) (junk : Nat → Int) (outcome : Option (Nat → Int))
    (s : MyString) (hs : s.Valid) :
    myStringClone E junk outcome (some s) =
      some (if s.stringSize = 0 then myStringAlloc junk
        else ⟨s.content, s.stringSize, s.stringSize⟩) := by
  have hsl : s.stringSize ≤ s.stringArray.length := by rw [hs.1]; exact hs.2.1
  by_cases h0 : s.stringSize = 0
  · simp [myStringClone, myStringLen, h0]
  · have hre := reSizeStringArray_unchanged outcome
      { buildMyString junk s.stringSize with stringSize := s.stringSize } s.stringSize
      (by simp [buildMyString]) (by simp [buildMyString])
    simp only [myStringClone, myStringLen, EMPTY, h0, if_false, myStringSetFromMyString, hre]
    simp [buildMyString, memcpy, malloc, MyString.content]

/-- C17: the clone of a valid instance is a new instance with the length and the logical chars
of the source, so `myStringEqual` gives `EQUAL` and `myStringCompare` gives 0; the source is
an input only; for an empty source the clone is what `myStringAlloc` returns, of capacity 16. -/
theorem myStringClone_same (E : Int) (junk : Nat → Int) (outcome : Option (Nat → Int))
    (s : MyString) (hs : s.Valid) :
    ∃ c, myStringClone E junk outcome (some s) = some c ∧
      myStringLen E (some c) = myStringLen E (some s) ∧
      c.content = s.content ∧
      myStringEqual E (some c) (some s) = EQUAL ∧
      myStringCompare E (some c) (some s) = 0 ∧
      (myStringLen E (some s) = 0 → c = myStringAlloc junk ∧ myStringRealSize c = 16) := by
  have hsl : s.stringSize ≤ s.stringArray.length := by rw [hs.1]; exact hs.2.1
  have hcl := content_length s hs
  have key : ∀ c : MyString, c.Valid → c.content = s.content →
      myStringEqual E (some c) (some s) = EQUAL ∧ myStringCompare E (some c) (some s) = 0 := by
    intro c hc hcs
    have h0 : myStringCompare E (some c) (some s) = 0 := by
      rw [myStringCompare_eq_lexCompare E c s hc hs, hcs, lexCompare_self]
    exact ⟨myStringEqual_of_compare E c s h0, h0⟩
  rw [myStringClone_spec E junk outcome s hs]
  simp only [myStringLen]
  by_cases h0 : s.stringSize = 0
  · have hc : (myStringAlloc junk).content = s.content := by
      rw [myStringAlloc_eq]
      simp [MyString.content, h0]
    rw [if_pos h0]
    refine ⟨_, rfl, ?_, hc, (key _ (myStringAlloc_valid junk) hc).1,
      (key _ (myStringAlloc_valid junk) hc).2, fun _ => ⟨rfl, ?_⟩⟩
    · rw [myStringAlloc_eq, h0]
    · rw [myStringAlloc_eq]; rfl
  · rw [if_neg h0]
    have hc : MyString.content ⟨s.content, s.stringSize, s.stringSize⟩ = s.content := by
      simp [MyString.content, List.take_take]
    have hv : MyString.Valid ⟨s.content, s.stringSize, s.stringSize⟩ :=
      ⟨hcl, Nat.le_refl _, lt_of_le_of_lt hs.2.1 hs.2.2⟩
    exact ⟨_, rfl, rfl, hc, (key _ hv hc).1, (key _ hv hc).2, fun h => absurd h h0⟩

theorem myStringClone_same_witness :
    ∃ c, myStringClone 5 (fun _ => 1) none (some ⟨[104, 105, 0, 0], 2, 4⟩) = some c ∧
      myStringLen 5 (some c) = myStringLen 5 (some ⟨[104, 105, 0, 0], 2, 4⟩) ∧
      c.content = MyString.content ⟨[104, 105, 0, 0], 2, 4⟩ ∧
      myStringEqual 5 (some c) (some ⟨[104, 105, 0, 0], 2, 4⟩) = EQUAL ∧
      myStringCompare 5 (some c) (some ⟨[104, 105, 0, 0], 2, 4⟩) = 0 ∧
      (myStringLen 5 (some ⟨[104, 105, 0, 0], 2, 4⟩) = 0 →
        c = myStringAlloc (fun _ => 1) ∧ myStringRealSize c = 16) :=
  myStringClone_same 5 (fun _ => 1) none ⟨[104, 105, 0, 0], 2, 4⟩ (by decide)

/-! ## Filtering twice -/

/-- The state `myStringFilter` leaves: the kept chars, then the old chars from the new length
on, in the old capacity. -/
theorem myStringFilter_state (E : Int) (junk : Nat → Int) (s : MyString) (hs : s.Valid)
    (filt : Int → Bool) :
    myStringFilter E junk (some s) filt =
      (MYSTRING_SUCCESS, some ⟨s.content.filter (fun c => !filt c) ++
        s.stringArray.drop (s.stringSize - s.content.countP (fun c => filt c)),
        s.stringSize - s.content.countP (fun c => filt c), s.realSize⟩) := by
  obtain ⟨hs1, hs2, hs3⟩ := hs
  obtain ⟨h1, h2, h3⟩ := myStringFilterFrom_spec filt s.stringArray s.stringSize 0 0
    (malloc junk s.stringSize) (by omega) (Nat.le_refl 0) (by simp [malloc])
  simp only [List.drop_zero, Nat.zero_add, Nat.sub_zero, List.take_zero, List.nil_append]
    at h1 h2 h3
  rw [h1] at h3
  simp only [myStringFilter, myStringLen, EMPTY, memcpy, h1, h3, MyString.content]

/-- C11: filtering a valid instance a second time by the same filter leaves the instance as
the first filtering left it: the same length, the same capacity, the same content, and the
same buffer. -/
theorem myStringFilter_idempotent (E : Int) (junk1 junk2 : Nat → Int) (s : MyString)
    (hs : s.Valid) (filt : Int → Bool) :
    ∃ s2 s3, myStringFilter E junk1 (some s) filt = (MYSTRING_SUCCESS, some s2) ∧
      myStringFilter E junk2 (some s2) filt = (MYSTRING_SUCCESS, some s3) ∧
      myStringLen E (some s3) = myStringLen E (some s2) ∧
      myStringRealSize s3 = myStringRealSize s2 ∧
      s3.content = s2.content ∧ s3 = s2 := by
  obtain ⟨s2, h1, h2, h3, h4, h5⟩ := myStringFilter_content E junk1 s hs filt
  have hstate := myStringFilter_state E junk2 s2 h5 filt
  have hfix : s2.content.filter (fun c => !filt c) = s2.content := by
    rw [h2, List.filter_filter]
    simp
  have hcount : s2.content.countP (fun c => filt c) = 0 := by
    rw [List.countP_eq_zero]
    intro c hc
    rw [h2, List.mem_filter] at hc
    simpa using hc.2
  rw [hfix, hcount, Nat.sub_zero] at hstate
  have hself : (⟨s2.content ++ s2.stringArray.drop s2.stringSize, s2.stringSize, s2.realSize⟩ :
      MyString) = s2 := by
    have : s2.content ++ s2.stringArray.drop s2.stringSize = s2.stringArray := by
      simp [MyString.content]
    rw [this]
  rw [hself] at hstate
  exact ⟨s2, s2, h1, hstate, rfl, rfl, rfl, rfl⟩

theorem myStringFilter_idempotent_witness :
    ∃ s2 s3, myStringFilter 1 (fun _ => 0) (some ⟨[97, 98, 97, 7], 3, 4⟩)
        (fun c => decide (c = 97)) = (MYSTRING_SUCCESS, some s2) ∧
      myStringFilter 1 (fun _ => 5) (some s2) (fun c => decide (c = 97)) =
        (MYSTRING_SUCCESS, some s3) ∧
      myStringLen 1 (some s3) = myStringLen 1 (some s2) ∧
      myStringRealSize s3 = myStringRealSize s2 ∧
      s3.content = s2.content ∧ s3 = s2 :=
  myStringFilter_idempotent 1 (fun _ => 0) (fun _ => 5) ⟨[97, 98, 97, 7], 3, 4⟩ (by decide)
    (fun c => decide (c = 97))

/-! ## Concatenation -/

/-- C13: `myStringCatTo` returns `MYSTRING_ERROR` and leaves the store, hence every argument,
as it was when one of the three handles is null or when the result is the same instance as
one of the operands. -/
theorem myStringCatTo_rejects (E : Int) (outcome : Option (Nat → Int)) (mem : Nat → MyString)
    (str1 str2 result : Option Nat)
    (h : str1 = none ∨ str2 = none ∨ result = none ∨ result = str1 ∨ result = str2) :
    myStringCatTo E outcome mem str1 str2 result = (MYSTRING_ERROR, mem) := by
  cases str1 with
  | none => simp [myStringCatTo]
  | some p1 =>
    cases str2 with
    | none => simp [myStringCatTo]
    | some p2 =>
      cases result with
      | none => simp [myStringCatTo]
      | some r =>
        have hc : some r = some p1 ∨ some r = some p2 := by
          rcases h with h | h | h | h | h
          · exact absurd h (by simp)
          · exact absurd h (by simp)
          · exact absurd h (by simp)
          · exact Or.inl h
          · exact Or.inr h
        simp only [myStringCatTo, hc, if_true]

theorem myStringCatTo_rejects_witness :
    myStringCatTo 0 (some fun _ => 1) (fun _ => ⟨[104, 105], 2, 2⟩) (some 3) (some 4) (some 3) =
      (MYSTRING_ERROR, fun _ => ⟨[104, 105], 2, 2⟩) :=
  myStringCatTo_rejects 0 (some fun _ => 1) (fun _ => ⟨[104, 105], 2, 2⟩) (some 3) (some 4)
    (some 3) (Or.inr (Or.inr (Or.inr (Or.inl rfl))))

theorem memcpyAt_memcpy (b A1 A2 : List Int) (l1 l2 : Nat) (h1 : l1 ≤ A1.length) :
    memcpyAt (memcpy b A1 l1) l1 A2 l2 = A1.take l1 ++ A2.take l2 ++ b.drop (l1 + l2) := by
  have hl1 : (A1.take l1).length = l1 := by simp [h1]
  unfold memcpyAt memcpy
  rw [List.take_left' hl1]
  congr 1
  rw [List.drop_append_eq_append_drop, List.drop_of_length_le (by omega), hl1, List.drop_drop,
    List.nil_append]
  congr 1
  omega

/-- The store `myStringCatTo` leaves when the result is an instance of its own and the
reallocation succeeds: the request is not for zero bytes, or no reallocation is asked for. -/
theorem myStringCatTo_spec (E : Int) (grown : Nat → Int) (mem : Nat → MyString)
    (p1 p2 r : Nat) (hr1 : r ≠ p1) (hr2 : r ≠ p2) (h1 : (mem p1).Valid) (h2 : (mem p2).Valid)
    (hr : (mem r).stringArray.length = (mem r).realSize)
    (hn : (mem p1).stringSize + (mem p2).stringSize ≠ 0 ∨ (mem r).realSize ≤ 16) :
    ∃ b, myStringCatTo E (some grown) mem (some p1) (some p2) (some r) =
        (MYSTRING_SUCCESS, Function.update mem r
          ⟨b, (mem p1).stringSize + (mem p2).stringSize,
            policy (mem r).realSize ((mem p1).stringSize + (mem p2).stringSize)⟩) ∧
      b.length = policy (mem r).realSize ((mem p1).stringSize + (mem p2).stringSize) ∧
      b.take ((mem p1).stringSize + (mem p2).stringSize) =
        (mem p1).content ++ (mem p2).content := by
  obtain ⟨h11, h12, h13⟩ := h1
  obtain ⟨h21, h22, h23⟩ := h2
  have htot : ((mem p1).stringSize + (mem p2).stringSize) % 2 ^ 64 =
      (mem p1).stringSize + (mem p2).stringSize := Nat.mod_eq_of_lt (by omega)
  obtain ⟨b, hb, hblen, _⟩ := reSizeStringArray_success grown (mem r)
    ((mem p1).stringSize + (mem p2).stringSize) hr hn
  have hble : (mem p1).stringSize + (mem p2).stringSize ≤ b.length := hblen ▸ le_policy _ _
  have hc : ¬ (some r = some p1 ∨ some r = some p2) := by simp [hr1, hr2]
  have e1 : (Function.update mem r
      ⟨b, (mem p1).stringSize + (mem p2).stringSize,
        policy (mem r).realSize ((mem p1).stringSize + (mem p2).stringSize)⟩) p1 = mem p1 :=
    Function.update_noteq (Ne.symm hr1) _ _
  have hA1 : (mem p1).stringSize ≤ (mem p1).stringArray.length := by omega
  have hA2 : (mem p2).stringSize ≤ (mem p2).stringArray.length := by omega
  have hbuf := memcpyAt_memcpy b (mem p1).stringArray (mem p2).stringArray
    (mem p1).stringSize (mem p2).stringSize hA1
  refine ⟨(mem p1).content ++ (mem p2).content ++
    b.drop ((mem p1).stringSize + (mem p2).stringSize), ?_, ?_, ?_⟩
  · simp only [myStringCatTo, hc, if_false, myStringLen, htot, hb, Function.update_same,
      Function.update_idem, Function.update_noteq (Ne.symm hr1),
      Function.update_noteq (Ne.symm hr2), hbuf, MyString.content]
  · simp only [List.length_append, List.length_drop, MyString.content, List.length_take,
      Nat.min_eq_left hA1, Nat.min_eq_left hA2]
    omega
  · rw [List.take_append_of_le_length (by
      simp only [List.length_append, MyString.content, List.length_take, Nat.min_eq_left hA1,
        Nat.min_eq_left hA2]
      omega)]
    rw [List.take_of_length_le (by
      simp only [List.length_append, MyString.content, List.length_take, Nat.min_eq_left hA1,
        Nat.min_eq_left hA2]
      omega)]

/-- C12, at two empty operands and a result of capacity 17: the three instances are valid and
the result is an instance of its own, yet `myStringCatTo` returns `MYSTRING_ERROR`, whatever
the memory left.  The total size is 0, the capacity exceeds it by more than 16, so
`reSizeStringArray` asks `realloc` for zero bytes and takes the null pointer it gets for a
failure. -/
theorem myStringCatTo_empty_operands (E : Int) (outcome : Option (Nat → Int))
    (junk : Nat → Int) :
    (emptyOperandsStore junk 0).Valid ∧ (emptyOperandsStore junk 1).Valid ∧
      (emptyOperandsStore junk 2).Valid ∧
      myStringLen E (some (emptyOperandsStore junk 0)) = 0 ∧
      myStringLen E (some (emptyOperandsStore junk 1)) = 0 ∧
      (myStringCatTo E outcome (emptyOperandsStore junk) (some 0) (some 1) (some 2)).1 =
        MYSTRING_ERROR := by
  have e0 : emptyOperandsStore junk 0 = ⟨List.replicate 16 0, 0, 16⟩ := by
    simp [emptyOperandsStore, myStringAlloc_eq]
  have e1 : emptyOperandsStore junk 1 = ⟨List.replicate 16 0, 0, 16⟩ := by
    simp [emptyOperandsStore, myStringAlloc_eq]
  have e2 : emptyOperandsStore junk 2 = ⟨List.replicate 17 120, 17, 17⟩ := by
    simp [emptyOperandsStore]
  refine ⟨by rw [e0]; decide, by rw [e1]; decide, by rw [e2]; decide, by rw [e0]; rfl,
    by rw [e1]; rfl, ?_⟩
  simp [myStringCatTo, myStringLen, e0, e1, e2, reSizeStringArray, myStringRealSize, realloc]

/-- The store `myStringCat` leaves when the temporary is at an address of its own and the
reallocations succeed. -/
theorem myStringCat_spec (E : Int) (junk grownCat grownSet : Nat → Int) (mem : Nat → MyString)
    (t d s : Nat) (htd : t ≠ d) (hts : t ≠ s) (hd : (mem d).Valid) (hs : (mem s).Valid) :
    ∃ mem2, myStringCat E junk (some grownCat) (some grownSet) mem t (some d) (some s) =
        (MYSTRING_SUCCESS, mem2) ∧
      (mem2 d).content = (mem d).content ++ (mem s).content ∧
      (mem2 d).stringSize = (mem d).stringSize + (mem s).stringSize ∧
      (mem2 d).stringArray.length = (mem2 d).realSize ∧
      (mem2 d).stringSize ≤ (mem2 d).realSize ∧
      (∀ p, p ≠ d → p ≠ t → mem2 p = mem p) := by
  have hmd : Function.update mem t (myStringAlloc junk) d = mem d :=
    Function.update_noteq (Ne.symm htd) _ _
  have hms : Function.update mem t (myStringAlloc junk) s = mem s :=
    Function.update_noteq (Ne.symm hts) _ _
  have hmt : Function.update mem t (myStringAlloc junk) t = myStringAlloc junk :=
    Function.update_same _ _ _
  obtain ⟨b, hb, hblen, htake⟩ := myStringCatTo_spec E grownCat
    (Function.update mem t (myStringAlloc junk)) d s t htd hts (by rw [hmd]; exact hd)
    (by rw [hms]; exact hs) (by rw [hmt]; exact (myStringAlloc_valid junk).1)
    (Or.inr (by rw [hmt, myStringAlloc_eq]))
  have hreal : (myStringAlloc junk).realSize = 16 := by rw [myStringAlloc_eq]
  simp only [hmd, hms, hmt, Function.update_idem, hreal] at hb hblen htake
  have hble : (mem d).stringSize + (mem s).stringSize ≤ b.length := hblen ▸ le_policy _ _
  have hb1 : (mem d).stringSize + (mem s).stringSize = 0 → 1 ≤ b.length := by
    intro h0
    rw [hblen, h0]
    decide
  obtain ⟨b2, hb2, hb2len, hb2take⟩ := setFromMyString_spec E grownSet (mem d)
    ⟨b, (mem d).stringSize + (mem s).stringSize,
      policy 16 ((mem d).stringSize + (mem s).stringSize)⟩ hd.1 hble hb1
  simp only [MyString.content] at hb2take
  simp only at hb2 hb2len
  rw [htake] at hb2take
  refine ⟨Function.update (Function.update mem t
      ⟨b, (mem d).stringSize + (mem s).stringSize,
        policy 16 ((mem d).stringSize + (mem s).stringSize)⟩) d
      ⟨b2, (mem d).stringSize + (mem s).stringSize, policy (mem d).realSize
        (if (mem d).stringSize + (mem s).stringSize = 0 then 16
          else (mem d).stringSize + (mem s).stringSize)⟩, ?_, ?_, ?_, ?_, ?_, ?_⟩
  · simp only [myStringCat, hb, Option.map_some', Function.update_same,
      Function.update_noteq (Ne.symm htd), hb2, writeBack]
  · simp only [Function.update_same, MyString.content, hb2take]
  · simp only [Function.update_same]
  · simp only [Function.update_same]
    exact hb2len
  · simp only [Function.update_same]
    refine le_trans ?_ (le_policy _ _)
    split <;> omega
  · intro p hpd hpt
    simp only [Function.update_noteq hpd, Function.update_noteq hpt]

/-- C14: with the temporary at an address of its own and the reallocations succeeding,
`myStringCat` on valid instances returns success and leaves the destination holding its
former chars followed by the former chars of the source, also when the source is the
destination itself: `ab` becomes `abab`; a source that is another instance is left as it
was. -/
theorem myStringCat_appends (E : Int) (junk grownCat grownSet : Nat → Int)
    (mem : Nat → MyString) (t d s : Nat) (htd : t ≠ d) (hts : t ≠ s) (hd : (mem d).Valid)
    (hs : (mem s).Valid) :
    (∃ mem2, myStringCat E junk (some grownCat) (some grownSet) mem t (some d) (some s) =
        (MYSTRING_SUCCESS, mem2) ∧
      (mem2 d).content = (mem d).content ++ (mem s).content ∧
      myStringLen E (some (mem2 d)) =
        myStringLen E (some (mem d)) + myStringLen E (some (mem s)) ∧
      (s ≠ d → mem2 s = mem s)) ∧
    ((mem d).content = [97, 98] →
      ∃ mem2, myStringCat E junk (some grownCat) (some grownSet) mem t (some d) (some d) =
          (MYSTRING_SUCCESS, mem2) ∧
        (mem2 d).content = [97, 98, 97, 98]) := by
  constructor
  · obtain ⟨mem2, h1, h2, h3, _, _, h6⟩ :=
      myStringCat_spec E junk grownCat grownSet mem t d s htd hts hd hs
    exact ⟨mem2, h1, h2, h3, fun hsd => h6 s hsd (Ne.symm hts)⟩
  · intro hab
    obtain ⟨mem2, h1, h2, _⟩ :=
      myStringCat_spec E junk grownCat grownSet mem t d d htd htd hd hd
    exact ⟨mem2, h1, by rw [h2, hab]; rfl⟩

theorem myStringCat_appends_witness :
    ∃ mem2, myStringCat 0 (fun _ => 1) (some fun _ => 2) (some fun _ => 3)
        (fun _ => ⟨[97, 98, 0], 2, 3⟩) 9 (some 4) (some 4) = (MYSTRING_SUCCESS, mem2) ∧
      (mem2 4).content = MyString.content ⟨[97, 98, 0], 2, 3⟩ ++
        MyString.content ⟨[97, 98, 0], 2, 3⟩ ∧
      myStringLen 0 (some (mem2 4)) =
        myStringLen 0 (some ⟨[97, 98, 0], 2, 3⟩) + myStringLen 0 (some ⟨[97, 98, 0], 2, 3⟩) ∧
      ((4 : Nat) ≠ 4 → mem2 4 = ⟨[97, 98, 0], 2, 3⟩) :=
  (myStringCat_appends 0 (fun _ => 1) (fun _ => 2) (fun _ => 3) (fun _ => ⟨[97, 98, 0], 2, 3⟩)
    9 4 4 (by decide) (by decide) (by decide) (by decide)).1

/-! ## Sorting -/

theorem ConsistentOn.total {α : Type} {cmp : α → α → Int} {arr : List α}
    (hc : ConsistentOn cmp arr) (a b : α) (ha : a ∈ arr) (hb : b ∈ arr) (h : ¬ cmp a b ≤ 0) :
    cmp b a ≤ 0 := by
  have h1 : Int.sign (cmp a b) = 1 := Int.sign_eq_one_iff_pos.mpr (by omega)
  have h2 := hc.1 a ha b hb
  rw [h1] at h2
  have h3 : Int.sign (cmp b a) = -1 := by omega
  have := Int.sign_eq_neg_one_iff_neg.mp h3
  omega

theorem pairwise_orderedInsert {α : Type} (cmp : α → α → Int) (arr : List α)
    (hc : ConsistentOn cmp arr) (a : α) (ha : a ∈ arr) (l : List α) (hl : ∀ x ∈ l, x ∈ arr)
    (hp : l.Pairwise (fun x y => cmp x y ≤ 0)) :
    (l.orderedInsert (fun x y => cmp x y ≤ 0) a).Pairwise (fun x y => cmp x y ≤ 0) := by
  induction l with
  | nil => simp
  | cons b l ih =>
    have hb : b ∈ arr := hl b (List.mem_cons_self _ _)
    have hl2 : ∀ x ∈ l, x ∈ arr := fun x hx => hl x (List.mem_cons_of_mem _ hx)
    rw [List.pairwise_cons] at hp
    by_cases h : cmp a b ≤ 0
    · simp only [List.orderedInsert, h, if_true]
      refine List.pairwise_cons.mpr ⟨?_, List.pairwise_cons.mpr hp⟩
      intro x hx
      rcases List.mem_cons.mp hx with hx | hx
      · rw [hx]; exact h
      · exact hc.2 a ha b hb x (hl2 x hx) h (hp.1 x hx)
    · simp only [List.orderedInsert, h, if_false]
      refine List.pairwise_cons.mpr ⟨?_, ih hl2 hp.2⟩
      intro x hx
      rcases (List.mem_orderedInsert _).mp hx with hx | hx
      · rw [hx]; exact hc.total a b ha hb h
      · exact hp.1 x hx

theorem pairwise_insertionSort {α : Type} (cmp : α → α → Int) (arr : List α)
    (hc : ConsistentOn cmp arr) (l : List α) (hl : ∀ x ∈ l, x ∈ arr) :
    (l.insertionSort (fun x y => cmp x y ≤ 0)).Pairwise (fun x y => cmp x y ≤ 0) := by
  induction l with
  | nil => simp
  | cons b l ih =>
    simp only [List.insertionSort]
    exact pairwise_orderedInsert cmp arr hc b (hl b (List.mem_cons_self _ _)) _
      (fun x hx => hl x (List.mem_cons_of_mem _ ((List.mem_insertionSort _).mp hx)))
      (ih fun x hx => hl x (List.mem_cons_of_mem _ hx))

/-- Sorting by insertion meets the contract of `qsort`. -/
theorem insertionQsort_contract {α : Type} : QsortContract (insertionQsort (α := α)) := by
  intro cmp arr hc
  exact ⟨List.perm_insertionSort _ arr,
    (pairwise_insertionSort cmp arr hc arr fun _ hx => hx).chain'⟩

theorem lexCompare_eq_zero (x y : List Int) (h : lexCompare x y = 0) : x = y := by
  induction x generalizing y with
  | nil =>
    cases y with
    | nil => rfl
    | cons d y => simp [lexCompare] at h
  | cons c x ih =>
    cases y with
    | nil => simp [lexCompare] at h
    | cons d y =>
      simp only [lexCompare] at h
      by_cases hcd : c = d
      · simp only [hcd, if_true] at h
        rw [hcd, ih y h]
      · by_cases hgt : c > d <;> simp [hcd, hgt] at h

/-- On the handles of valid instances `compareCaster` is the lexicographic comparison of the
chars behind them. -/
theorem compareCaster_eq (E : Int) (mem : Nat → MyString) (h k : Option Nat)
    (hh : ∃ p, h = some p ∧ (mem p).Valid) (hk : ∃ p, k = some p ∧ (mem p).Valid) :
    compareCaster E mem h k = lexCompare (contentAt mem h) (contentAt mem k) := by
  obtain ⟨p, rfl, hp⟩ := hh
  obtain ⟨q, rfl, hq⟩ := hk
  simp only [compareCaster, Option.map_some', contentAt]
  exact myStringCompare_eq_lexCompare E _ _ hp hq

theorem compareCaster_consistent (E : Int) (mem : Nat → MyString) (arr : List (Option Nat))
    (hvalid : ∀ h ∈ arr, ∃ p, h = some p ∧ (mem p).Valid) :
    ConsistentOn (compareCaster E mem) arr := by
  constructor
  · intro a ha b hb
    rw [compareCaster_eq E mem a b (hvalid a ha) (hvalid b hb),
      compareCaster_eq E mem b a (hvalid b hb) (hvalid a ha), lexCompare_antisymm,
      Int.sign_neg]
  · intro a ha b hb c hc h1 h2
    rw [compareCaster_eq E mem _ _ (hvalid a ha) (hvalid b hb)] at h1
    rw [compareCaster_eq E mem _ _ (hvalid b hb) (hvalid c hc)] at h2
    rw [compareCaster_eq E mem _ _ (hvalid a ha) (hvalid c hc)]
    exact (lexCompare_trans _ _ _ h1 h2).1

theorem chain_and {α : Type} (R S : α → α → Prop) (l : List α) (h1 : l.Chain' R)
    (h2 : l.Chain' S) : l.Chain' (fun a b => R a b ∧ S a b) := by
  induction l with
  | nil => simp
  | cons a l ih =>
    cases l with
    | nil => simp
    | cons b l =>
      rw [List.chain'_cons] at h1 h2 ⊢
      exact ⟨⟨h1.1, h2.1⟩, ih h1.2 h2.2⟩

/-- The array `myStringSort` leaves, for a `qsort` that keeps its contract and an array of
handles of valid instances: a rearrangement in which no instance compares greater than the
next one, and each compares smaller when the strings are all different. -/
theorem myStringSort_spec (E : Int)
    (qsort : (Option Nat → Option Nat → Int) → List (Option Nat) → List (Option Nat))
    (hq : QsortContract qsort) (mem : Nat → MyString) (arr : List (Option Nat))
    (hvalid : ∀ h ∈ arr, ∃ p, h = some p ∧ (mem p).Valid) (hlen : arr.length < 2 ^ 31) :
    List.Perm (myStringSort E qsort mem arr arr.length) arr ∧
      List.Chain' (fun h k => myStringCompare E (h.map mem) (k.map mem) ≤ 0)
        (myStringSort E qsort mem arr arr.length) ∧
      (arr.Pairwise (fun h k => contentAt mem h ≠ contentAt mem k) →
        List.Chain' (fun h k => myStringCompare E (h.map mem) (k.map mem) = -1)
          (myStringSort E qsort mem arr arr.length)) := by
  have hu : toULong (arr.length : Int) = arr.length := toULong_natCast _ (by omega)
  have hsort : myStringSort E qsort mem arr arr.length = qsort (compareCaster E mem) arr := by
    simp [myStringSort, myStringCustomSort, hu]
  obtain ⟨hperm, hchain⟩ := hq (compareCaster E mem) arr (compareCaster_consistent E mem arr hvalid)
  rw [hsort]
  refine ⟨hperm, hchain, ?_⟩
  intro hdiff
  have hdiff2 : (qsort (compareCaster E mem) arr).Pairwise
      (fun h k => contentAt mem h ≠ contentAt mem k) :=
    hdiff.perm hperm.symm (fun h => Ne.symm h)
  have hboth := chain_and _ _ _ (List.Chain'.iff_mem.mp hchain) hdiff2.chain'
  refine hboth.imp ?_
  rintro h k ⟨⟨hh, hk, hle⟩, hne⟩
  have hcmp := compareCaster_eq E mem h k (hvalid h (hperm.subset hh))
    (hvalid k (hperm.subset hk))
  have hle2 : compareCaster E mem h k ≤ 0 := hle
  show compareCaster E mem h k = -1
  rw [hcmp] at hle2 ⊢
  rcases lexCompare_range (contentAt mem h) (contentAt mem k) with h1 | h1 | h1
  · exact h1
  · exact absurd (lexCompare_eq_zero _ _ h1) hne
  · omega

theorem animalStore_valid : ∀ h ∈ [some 0, some 1, some 2, some 3, some 4],
    ∃ p, h = some p ∧ (animalStore p).Valid := by
  intro h hh
  simp only [List.mem_cons, List.mem_singleton, List.not_mem_nil, or_false] at hh
  rcases hh with rfl | rfl | rfl | rfl | rfl <;> exact ⟨_, rfl, by decide⟩

/-- Whatever `qsort` keeps its contract, the array `Monkey, Bear, Giraffe, Mongoose, Sloth`
becomes `Bear, Giraffe, Mongoose, Monkey, Sloth`. -/
theorem myStringSort_animals (E : Int)
    (qsort : (Option Nat → Option Nat → Int) → List (Option Nat) → List (Option Nat))
    (hq : QsortContract qsort) :
    myStringSort E qsort animalStore [some 0, some 1, some 2, some 3, some 4] 5 =
      [some 1, some 2, some 3, some 0, some 4] := by
  obtain ⟨hperm, hchain, _⟩ := myStringSort_spec E qsort hq animalStore
    [some 0, some 1, some 2, some 3, some 4] animalStore_valid (by decide)
  have hfive : (([some 0, some 1, some 2, some 3, some 4] : List (Option Nat)).length : Int) =
      5 := rfl
  rw [hfive] at hperm hchain
  have hchain2 : List.Chain'
      (fun h k => lexCompare (contentAt animalStore h) (contentAt animalStore k) ≤ 0)
      (myStringSort E qsort animalStore [some 0, some 1, some 2, some 3, some 4] 5) := by
    refine (List.Chain'.iff_mem.mp hchain).imp ?_
    rintro h k ⟨hh, hk, hle⟩
    have hle2 : compareCaster E animalStore h k ≤ 0 := hle
    rwa [compareCaster_eq E animalStore h k (animalStore_valid h (hperm.subset hh))
      (animalStore_valid k (hperm.subset hk))] at hle2
  haveI : IsTrans (Option Nat)
      (fun h k => lexCompare (contentAt animalStore h) (contentAt animalStore k) ≤ 0) :=
    ⟨fun a b c h1 h2 => (lexCompare_trans _ _ _ h1 h2).1⟩
  have hpair := List.chain'_iff_pairwise.mp hchain2
  have htarget : List.Pairwise
      (fun h k => lexCompare (contentAt animalStore h) (contentAt animalStore k) ≤ 0)
      [some 1, some 2, some 3, some 0, some 4] := by decide
  have hanti : ∀ a ∈ [some 0, some 1, some 2, some 3, some 4],
      ∀ b ∈ [some 1, some 2, some 3, some 0, some 4],
      lexCompare (contentAt animalStore a) (contentAt animalStore b) ≤ 0 →
      lexCompare (contentAt animalStore b) (contentAt animalStore a) ≤ 0 → a = b := by
    decide
  exact List.Perm.eq_of_sorted (fun a b ha hb => hanti a (hperm.subset ha) b hb) hpair htarget
    (hperm.trans (by decide))

/-- C15: for a `qsort` that keeps the contract of the C standard and an array of handles of
valid instances, `myStringSort` leaves a permutation of the handles in which every adjacent
pair compares `≤ 0` under `myStringCompare`, and exactly `-1` when the strings are pairwise
different; `Monkey, Bear, Giraffe, Mongoose, Sloth` becomes
`Bear, Giraffe, Mongoose, Monkey, Sloth`. -/
theorem myStringSort_sorts (E : Int)
    (qsort : (Option Nat → Option Nat → Int) → List (Option Nat) → List (Option Nat))
    (hq : QsortContract qsort) (mem : Nat → MyString) (arr : List (Option Nat))
    (hvalid : ∀ h ∈ arr, ∃ p, h = some p ∧ (mem p).Valid) (hlen : arr.length < 2 ^ 31) :
    (List.Perm (myStringSort E qsort mem arr arr.length) arr ∧
      List.Chain' (fun h k => myStringCompare E (h.map mem) (k.map mem) ≤ 0)
        (myStringSort E qsort mem arr arr.length) ∧
      (arr.Pairwise (fun h k => contentAt mem h ≠ contentAt mem k) →
        List.Chain' (fun h k => myStringCompare E (h.map mem) (k.map mem) = -1)
          (myStringSort E qsort mem arr arr.length))) ∧
    myStringSort E qsort animalStore [some 0, some 1, some 2, some 3, some 4] 5 =
      [some 1, some 2, some 3, some 0, some 4] :=
  ⟨myStringSort_spec E qsort hq mem arr hvalid hlen, myStringSort_animals E qsort hq⟩

theorem myStringSort_sorts_witness :
    QsortContract (insertionQsort (α := Option Nat)) ∧
    List.Perm (myStringSort 0 insertionQsort animalStore [some 3, some 0, some 1] 3)
      [some 3, some 0, some 1] ∧
    List.Chain' (fun h k => myStringCompare 0 (h.map animalStore) (k.map animalStore) ≤ 0)
      (myStringSort 0 insertionQsort animalStore [some 3, some 0, some 1] 3) :=
  ⟨insertionQsort_contract,
    (myStringSort_sorts 0 insertionQsort insertionQsort_contract animalStore
      [some 3, some 0, some 1]
      (fun h hh => animalStore_valid h (by
        simp only [List.mem_cons, List.mem_singleton, List.not_mem_nil, or_false] at hh ⊢
        rcases hh with rfl | rfl | rfl <;> simp))
      (by decide)).1.1,
    (myStringSort_sorts 0 insertionQsort insertionQsort_contract animalStore
      [some 3, some 0, some 1]
      (fun h hh => animalStore_valid h (by
        simp only [List.mem_cons, List.mem_singleton, List.not_mem_nil, or_false] at hh ⊢
        rcases hh with rfl | rfl | rfl <;> simp))
      (by decide)).1.2.1⟩

/-! ## Resizing: the capacity policy and failures -/

/-- The two outcomes of `reSizeStringArray`: an error that leaves the instance as it was, or
success with the capacity the policy gives and the length untouched. -/
theorem reSizeStringArray_cases (outcome : Option (Nat → Int)) (str : MyString) (n : Nat) :
    reSizeStringArray outcome str n = (MYSTRING_ERROR, str) ∨
      ∃ b, reSizeStringArray outcome str n =
        (MYSTRING_SUCCESS, ⟨b, str.stringSize, policy str.realSize n⟩) := by
  unfold reSizeStringArray myStringRealSize policy
  by_cases hc : str.realSize < n ∨ str.realSize - n > 16
  · cases hre : realloc outcome str.stringArray n with
    | none => left; simp [hc]
    | some temp => right; exact ⟨temp, by simp [hc]⟩
  · right
    exact ⟨str.stringArray, by simp [hc]⟩

/-- C29: when the capacity is below the size asked for, or exceeds it by more than 16, and the
reallocation `reSizeStringArray` then asks for fails, `reSizeStringArray` returns
`MYSTRING_ERROR` and the instance has the buffer, the length and the capacity it had. -/
theorem reSizeStringArray_failure (str : MyString) (newSize : Nat) (h0 : newSize ≠ 0)
    (h : myStringRealSize str < newSize ∨ myStringRealSize str - newSize > 16) :
    realloc none str.stringArray newSize = none ∧
      reSizeStringArray none str newSize = (MYSTRING_ERROR, str) := by
  have hre : realloc none str.stringArray newSize = none := by simp [realloc, h0]
  refine ⟨hre, ?_⟩
  unfold reSizeStringArray
  simp [h, hre]

theorem reSizeStringArray_failure_witness :
    realloc none (MyString.stringArray ⟨[104, 105, 0], 2, 3⟩) 40 = none ∧
      reSizeStringArray none ⟨[104, 105, 0], 2, 3⟩ 40 = (MYSTRING_ERROR, ⟨[104, 105, 0], 2, 3⟩) :=
  reSizeStringArray_failure ⟨[104, 105, 0], 2, 3⟩ 40 (by decide) (by decide)

/-! ## Null handles -/

/-- C26: a null handle is rejected and nothing is changed.  `myStringLen` and
`myStringMemUsage` return `MYSTR_ERROR_CODE` converted to `unsigned long`, their return type;
`myStringToInt`, `myStringCompare` and `myStringEqual` return `MYSTR_ERROR_CODE`;
`myStringToCString` returns the null pointer; the setters and the filter return
`MYSTRING_ERROR` and hand back the instance they were given as it was (the source of
`myStringSetFromMyString` and the C string are inputs only). -/
theorem null_handles_rejected (E : Int) (junk : Nat → Int) (outcome fresh : Option (Nat → Int))
    (x : Option MyString) (cs : Option (List Int)) (n : Int) (filt : Int → Bool) :
    myStringLen E none = toULong E ∧
      myStringMemUsage E none = toULong E ∧
      myStringToInt E none = E ∧
      myStringCompare E none x = E ∧ myStringCompare E x none = E ∧
      myStringEqual E none x = E ∧ myStringEqual E x none = E ∧
      myStringToCString E fresh none = none ∧
      myStringSetFromMyString E outcome none x = (MYSTRING_ERROR, none) ∧
      myStringSetFromMyString E outcome x none = (MYSTRING_ERROR, x) ∧
      myStringSetFromCString E junk outcome none cs = (MYSTRING_ERROR, none) ∧
      myStringSetFromCString E junk outcome x none = (MYSTRING_ERROR, x) ∧
      myStringSetFromInt outcome none n = (MYSTRING_ERROR, none) ∧
      myStringFilter E junk none filt = (MYSTRING_ERROR, none) := by
  refine ⟨rfl, rfl, rfl, rfl, ?_, rfl, ?_, rfl, rfl, ?_, rfl, ?_, rfl, rfl⟩
  · cases x <;> rfl
  · cases x <;> rfl
  · cases x <;> rfl
  · cases x <;> rfl

/-! ## Memory usage -/

/-- C27: for a valid instance `myStringMemUsage` gives 24, the size of the three fields, plus
the capacity, whatever the length; a freshly allocated instance reports 40. -/
theorem myStringMemUsage_capacity (E : Int) (junk : Nat → Int) (s : MyString) (hs : s.Valid) :
    myStringMemUsage E (some s) = 8 + 8 + 8 + myStringRealSize s ∧
      myStringMemUsage E (some s) = 24 + myStringRealSize s ∧
      (∀ len, myStringMemUsage E (some { s with stringSize := len }) =
        myStringMemUsage E (some s)) ∧
      myStringMemUsage E (some (myStringAlloc junk)) = 40 := by
  obtain ⟨_, _, h3⟩ := hs
  have h : (8 + 8 + 8 + s.realSize) % 2 ^ 64 = 8 + 8 + 8 + s.realSize :=
    Nat.mod_eq_of_lt (by omega)
  refine ⟨?_, ?_, fun len => rfl, ?_⟩
  · simp only [myStringMemUsage, myStringRealSize, SIZEOF_UNSIGNED_LONG, SIZEOF_POINTER, h]
  · simp only [myStringMemUsage, myStringRealSize, SIZEOF_UNSIGNED_LONG, SIZEOF_POINTER, h]
  · rw [myStringAlloc_eq]; rfl

theorem myStringMemUsage_capacity_witness :
    myStringMemUsage 0 (some ⟨[104, 105, 0], 2, 3⟩) =
      8 + 8 + 8 + myStringRealSize ⟨[104, 105, 0], 2, 3⟩ :=
  (myStringMemUsage_capacity 0 (fun _ => 0) ⟨[104, 105, 0], 2, 3⟩ (by decide)).1

/-! ## Setting from an empty source -/

/-- The two outcomes of `myStringSetFromMyString` on two instances: an error after the length
has been written, or success with the length of the source and the capacity the policy gives
for the size asked for, which is 16 for an empty source. -/
theorem setFromMyString_cases (E : Int) (outcome : Option (Nat → Int)) (dst src : MyString) :
    myStringSetFromMyString E outcome (some dst) (some src) =
        (MYSTRING_ERROR, some { dst with stringSize := src.stringSize }) ∨
      ∃ b, myStringSetFromMyString E outcome (some dst) (some src) =
        (MYSTRING_SUCCESS, some ⟨b, src.stringSize,
          policy dst.realSize (if src.stringSize = 0 then 16 else src.stringSize)⟩) := by
  rcases reSizeStringArray_cases outcome { dst with stringSize := src.stringSize }
    (if src.stringSize = 0 then 16 else src.stringSize) with h | ⟨b, h⟩
  · left
    simp only [myStringSetFromMyString, myStringLen, h]
  · right
    exact ⟨memcpy b src.stringArray
      (if src.stringSize = 0 then 1 else if src.stringSize = 0 then 16 else src.stringSize),
      by simp only [myStringSetFromMyString, myStringLen, h]⟩

/-- The outcome of `myStringSetFromCString` for an empty C string: success, with length 0,
whatever the reallocation gave. -/
theorem setFromCString_empty (E : Int) (junk : Nat → Int) (outcome : Option (Nat → Int))
    (dst : MyString) (cs : List Int) (hlen : getCStringLength cs = 0) :
    ∃ b, (myStringSetFromCString E junk outcome (some dst) (some cs) =
          (MYSTRING_SUCCESS, some ⟨b, 0, dst.realSize⟩) ∨
        myStringSetFromCString E junk outcome (some dst) (some cs) =
          (MYSTRING_SUCCESS, some ⟨b, 0, policy dst.realSize 16⟩)) := by
  have h0 : (myStringAlloc junk).stringSize = 0 := by rw [myStringAlloc_eq]
  rcases setFromMyString_cases E outcome dst (myStringAlloc junk) with h | ⟨b, h⟩
  · refine ⟨dst.stringArray, Or.inl ?_⟩
    simp only [myStringSetFromCString, hlen, EMPTY, if_true, h, Option.map_some']
  · refine ⟨b, Or.inr ?_⟩
    rw [h0] at h
    simp only [myStringSetFromCString, hlen, EMPTY, if_true, h, Option.map_some']

/-- C22: for every instance, whatever it holds and whatever the allocator answers,
`myStringSetFromCString` with the empty C string returns success and leaves the length 0; the
instance is then equal to a freshly allocated one for `myStringEqual`, and `myStringToInt`
returns the error code for it. -/
theorem myStringSetFromCString_empty_string (E : Int) (junk junkT : Nat → Int)
    (outcome : Option (Nat → Int)) (dst : MyString) (rest : List Int) :
    ∃ d2, myStringSetFromCString E junkT outcome (some dst) (some (0 :: rest)) =
        (MYSTRING_SUCCESS, some d2) ∧
      myStringLen E (some d2) = 0 ∧
      myStringEqual E (some d2) (some (myStringAlloc junk)) = EQUAL ∧
      myStringToInt E (some d2) = E := by
  have key : ∀ b c, myStringLen E (some ⟨b, 0, c⟩) = 0 ∧
      myStringEqual E (some ⟨b, 0, c⟩) (some (myStringAlloc junk)) = EQUAL ∧
      myStringToInt E (some ⟨b, 0, c⟩) = E := by
    intro b c
    refine ⟨rfl, ?_, ?_⟩
    · rw [myStringAlloc_eq]
      simp [myStringEqual, myStringCustomEqual, myStringLen, checkEquality, checkEqualityFrom,
        toLong, toULong]
    · simp [myStringToInt, myStringLen]
  obtain ⟨b, h | h⟩ := setFromCString_empty E junkT outcome dst (0 :: rest)
    (by simp [getCStringLength])
  · exact ⟨_, h, key _ _⟩
  · exact ⟨_, h, key _ _⟩

/-- C21, as the code has it: for a valid destination and an empty source, valid or not,
`myStringSetFromMyString` returns success (successful reallocation) and leaves the length 0
and the capacity the policy gives for a request of 16: a capacity from 16 to 32 stays, every
other capacity becomes 16. -/
theorem myStringSetFromMyString_empty_source (E : Int) (grown : Nat → Int)
    (dst src : MyString) (hd : dst.Valid) (h0 : myStringLen E (some src) = 0) :
    ∃ d2, myStringSetFromMyString E (some grown) (some dst) (some src) =
        (MYSTRING_SUCCESS, some d2) ∧
      myStringLen E (some d2) = 0 ∧
      myStringRealSize d2 = policy (myStringRealSize dst) 16 ∧
      myStringRealSize d2 =
        (if 16 ≤ myStringRealSize dst ∧ myStringRealSize dst ≤ 32 then myStringRealSize dst
          else 16) := by
  simp only [myStringLen] at h0
  obtain ⟨b, hb, _, _⟩ :=
    reSizeStringArray_success grown { dst with stringSize := src.stringSize } 16 hd.1
      (Or.inl (by decide))
  simp only at hb
  rw [h0] at hb
  refine ⟨⟨memcpy b src.stringArray 1, 0, policy dst.realSize 16⟩, ?_, rfl, rfl, ?_⟩
  · simp only [myStringSetFromMyString, myStringLen, h0, if_true, hb]
  · simp only [myStringRealSize, policy]
    split <;> split <;> omega

theorem myStringSetFromMyString_empty_source_witness :
    ∃ d2, myStringSetFromMyString 0 (some fun _ => 1) (some ⟨[104, 105, 0], 2, 3⟩)
        (some ⟨[0, 7], 0, 2⟩) = (MYSTRING_SUCCESS, some d2) ∧
      myStringLen 0 (some d2) = 0 ∧
      myStringRealSize d2 = policy (myStringRealSize ⟨[104, 105, 0], 2, 3⟩) 16 ∧
      myStringRealSize d2 =
        (if 16 ≤ myStringRealSize ⟨[104, 105, 0], 2, 3⟩ ∧
            myStringRealSize ⟨[104, 105, 0], 2, 3⟩ ≤ 32 then
          myStringRealSize ⟨[104, 105, 0], 2, 3⟩
        else 16) :=
  myStringSetFromMyString_empty_source 0 (fun _ => 1) ⟨[104, 105, 0], 2, 3⟩ ⟨[0, 7], 0, 2⟩
    (by decide) (by decide)

/-- C21, as stated, fails: a valid destination of capacity 33 set from a freshly allocated,
empty source ends with capacity 16. -/
theorem myStringSetFromMyString_empty_source_shrinks :
    MyString.Valid ⟨List.replicate 33 120, 33, 33⟩ ∧
      (myStringAlloc fun _ => 0).Valid ∧
      myStringLen (-999) (some (myStringAlloc fun _ => 0)) = 0 ∧
      16 < myStringRealSize ⟨List.replicate 33 120, 33, 33⟩ ∧
      ∃ d2, myStringSetFromMyString (-999) (some fun _ => 0)
          (some ⟨List.replicate 33 120, 33, 33⟩) (some (myStringAlloc fun _ => 0)) =
            (MYSTRING_SUCCESS, some d2) ∧
        myStringRealSize d2 = 16 := by
  refine ⟨by decide, by decide, by decide, by decide, ?_⟩
  exact ⟨⟨0 :: List.replicate 15 120, 0, 16⟩, by decide, rfl⟩

/-! ## Writing to a stream -/

/-- C28: for a valid instance without a null byte in its content, `myStringWrite` (successful
`malloc` and `fputs`) returns success and leaves the stream with the chars of the content
appended, as many as the length; a fresh instance set from these chars, read back as a C
string, is equal to the instance.  For a null handle it returns `MYSTRING_ERROR` and the
stream is as it was. -/
theorem myStringWrite_appends (E : Int) (fresh junk junkT grown : Nat → Int) (s : MyString)
    (stream : List Int) (hs : s.Valid) (hnul : ∀ c ∈ s.content, c ≠ 0) :
    myStringWrite E (some fresh) none (some s) stream =
        (MYSTRING_SUCCESS, stream ++ s.content) ∧
      s.content.length = myStringLen E (some s) ∧
      (∃ str, myStringSetFromCString E junkT (some grown) (some (myStringAlloc junk))
          (some (s.content ++ [0])) = (MYSTRING_SUCCESS, some str) ∧
        myStringEqual E (some str) (some s) = EQUAL) ∧
      (∀ outcome failure, myStringWrite E outcome failure none stream =
        (MYSTRING_ERROR, stream)) := by
  have hsl : s.stringSize ≤ s.stringArray.length := by rw [hs.1]; exact hs.2.1
  have hcl := content_length s hs
  refine ⟨?_, hcl, ?_, fun outcome failure => rfl⟩
  · have hlen := getCStringLength_terminated s.content [] hnul
    simp only [myStringWrite, myStringToCString_content E fresh s hsl, fputs, hlen]
    simp
  · obtain ⟨b, hb, hblen, hle, htake⟩ :=
      setFromCString_spec E junkT grown (myStringAlloc junk) s.content [] hnul
        (myStringAlloc_valid junk).1
    refine ⟨_, hb, ?_⟩
    have hreal : (myStringAlloc junk).realSize = 16 := by rw [myStringAlloc_eq]
    have hv : MyString.Valid ⟨b, s.content.length,
        policy (myStringAlloc junk).realSize
          (if s.content.length = 0 then 16 else s.content.length)⟩ := by
      refine ⟨hblen, ?_, ?_⟩
      · exact hblen ▸ hle
      · rw [hreal]
        apply policy_lt
        · norm_num
        · have := hs.2.1
          have := hs.2.2
          split <;> omega
    apply myStringEqual_of_compare
    rw [myStringCompare_eq_lexCompare E _ s hv hs]
    have hc : MyString.content ⟨b, s.content.length,
        policy (myStringAlloc junk).realSize
          (if s.content.length = 0 then 16 else s.content.length)⟩ = s.content := htake
    rw [hc, lexCompare_self]

theorem myStringWrite_appends_witness :
    myStringWrite 0 (some fun _ => 1) none (some ⟨[104, 105, 0], 2, 3⟩) [7] =
      (MYSTRING_SUCCESS, [7] ++ MyString.content ⟨[104, 105, 0], 2, 3⟩) :=
  (myStringWrite_appends 0 (fun _ => 1) (fun _ => 2) (fun _ => 3) (fun _ => 4)
    ⟨[104, 105, 0], 2, 3⟩ [7] (by decide) (by decide)).1

/-! ## The state after a failed reallocation -/

/-- After an error of `myStringSetFromCString` the instance is as it was. -/
theorem setFromCString_error (E : Int) (junk : Nat → Int) (outcome : Option (Nat → Int))
    (dst : MyString) (cs : List Int) (d2 : Option MyString)
    (h : myStringSetFromCString E junk outcome (some dst) (some cs) = (MYSTRING_ERROR, d2)) :
    d2 = some dst := by
  by_cases h0 : getCStringLength cs = 0
  · obtain ⟨b, hb | hb⟩ := setFromCString_empty E junk outcome dst cs h0
    · rw [hb] at h; simp at h
    · rw [hb] at h; simp at h
  · rcases reSizeStringArray_cases outcome dst (getCStringLength cs) with hr | ⟨b, hr⟩
    · simp only [myStringSetFromCString, EMPTY, h0, if_false, hr] at h
      simp only [Prod.mk.injEq, true_and] at h
      exact h.symm
    · simp only [myStringSetFromCString, EMPTY, h0, if_false, hr] at h
      simp at h

/-- After an error of `myStringCatTo` the store is as it was.  (When the error comes from a
request for zero bytes the block of the result has been freed, which the store does not
show.) -/
theorem myStringCatTo_error (E : Int) (outcome : Option (Nat → Int)) (mem : Nat → MyString)
    (str1 str2 result : Option Nat) (mem2 : Nat → MyString)
    (h : myStringCatTo E outcome mem str1 str2 result = (MYSTRING_ERROR, mem2)) :
    mem2 = mem := by
  cases str1 with
  | none => simp [myStringCatTo] at h; exact h.symm
  | some p1 =>
    cases str2 with
    | none => simp [myStringCatTo] at h; exact h.symm
    | some p2 =>
      cases result with
      | none => simp [myStringCatTo] at h; exact h.symm
      | some r =>
        by_cases hc : some r = some p1 ∨ some r = some p2
        · simp only [myStringCatTo, hc, if_true, Prod.mk.injEq, true_and] at h
          exact h.symm
        · rcases reSizeStringArray_cases outcome (mem r)
            (((mem p1).stringSize + (mem p2).stringSize) % 2 ^ 64) with hr | ⟨b, hr⟩
          · simp only [myStringCatTo, hc, if_false, myStringLen, hr, Prod.mk.injEq, true_and,
              Function.update_eq_self] at h
            exact h.symm
          · simp only [myStringCatTo, hc, if_false, myStringLen, hr] at h
            simp at h

/-- C30, at a destination holding `abc` in a block of 16 and a source of 17 chars, when the
reallocation fails: `myStringSetFromMyString` returns `MYSTRING_ERROR` and the destination,
whose buffer and capacity are as before, has the length 17 of the source, above its capacity
16; before the call its length was 3. -/
theorem myStringSetFromMyString_failure_length (E : Int) :
    MyString.Valid ⟨[97, 98, 99] ++ List.replicate 13 0, 3, 16⟩ ∧
      MyString.Valid ⟨List.replicate 17 120, 17, 17⟩ ∧
      myStringLen E (some ⟨[97, 98, 99] ++ List.replicate 13 0, 3, 16⟩) = 3 ∧
      ∃ d2, myStringSetFromMyString E none (some ⟨[97, 98, 99] ++ List.replicate 13 0, 3, 16⟩)
          (some ⟨List.replicate 17 120, 17, 17⟩) = (MYSTRING_ERROR, some d2) ∧
        myStringLen E (some d2) = 17 ∧ myStringRealSize d2 = 16 ∧
        d2.stringArray = [97, 98, 99] ++ List.replicate 13 0 := by
  refine ⟨by decide, by decide, rfl, ⟨⟨[97, 98, 99] ++ List.replicate 13 0, 17, 16⟩, ?_, rfl, rfl,
    rfl⟩⟩
  simp [myStringSetFromMyString, myStringLen, reSizeStringArray, myStringRealSize, realloc]

/-! ## Capacity and length -/

theorem hysteresis_policy (b : List Int) (c n len : Nat) (h : len ≤ n) :
    Hysteresis c ⟨b, len, policy c n⟩ := by
  unfold Hysteresis policy
  constructor
  · intro h1
    simp only at h1 ⊢
    split at h1 <;> omega
  · intro h1
    simp only at h1 ⊢
    split <;> omega

theorem lengthForInt_ne_zero (n : Int) (h : n < 2 ^ 31) : lengthForInt n ≠ 0 := by
  unfold lengthForInt
  by_cases hn : n ≤ 0
  · simp [hn]
  · simp only [hn, if_false]
    have hpos : 0 < n := by omega
    obtain ⟨m, rfl⟩ := Int.eq_ofNat_of_zero_le (le_of_lt hpos)
    have hm : m ≠ 0 := by omega
    rw [getLengthOfInt_natCast m (by omega),
      toULong_length _ (by have := digits_length_le_ten m (by omega); omega)]
    have : Nat.digits 10 m ≠ [] := Nat.digits_ne_nil_iff_ne_zero.mpr hm
    exact fun h0 => this (List.length_eq_zero.mp h0)

/-- The length and the capacity `myStringSetFromInt` leaves when the reallocation succeeds. -/
theorem myStringSetFromInt_sizes (grown : Nat → Int) (s : MyString)
    (hs : s.stringArray.length = s.realSize) (n : Int) (h : n < 2 ^ 31) :
    ∃ s2, myStringSetFromInt (some grown) (some s) n = (MYSTRING_SUCCESS, some s2) ∧
      s2.stringSize = lengthForInt n ∧ s2.realSize = policy s.realSize (lengthForInt n) := by
  obtain ⟨b, hb, _, _⟩ := reSizeStringArray_success grown s (lengthForInt n) hs
    (Or.inl (lengthForInt_ne_zero n h))
  unfold lengthForInt at hb
  refine ⟨_, rfl, rfl, ?_⟩
  simp only [SMALLER_THAN_ZERO, hb]
  rfl

/-- The length and the capacity `myStringCat` leaves to the destination when the temporary is
at an address of its own and the reallocations succeed. -/
theorem myStringCat_sizes (E : Int) (junk grownCat grownSet : Nat → Int) (mem : Nat → MyString)
    (t d s : Nat) (htd : t ≠ d) (hts : t ≠ s) (hd : (mem d).Valid) (hs : (mem s).Valid) :
    ∃ mem2, myStringCat E junk (some grownCat) (some grownSet) mem t (some d) (some s) =
        (MYSTRING_SUCCESS, mem2) ∧
      (mem2 d).stringSize = (mem d).stringSize + (mem s).stringSize ∧
      (mem2 d).realSize = policy (mem d).realSize
        (if (mem d).stringSize + (mem s).stringSize = 0 then 16
          else (mem d).stringSize + (mem s).stringSize) := by
  have hmd : Function.update mem t (myStringAlloc junk) d = mem d :=
    Function.update_noteq (Ne.symm htd) _ _
  have hms : Function.update mem t (myStringAlloc junk) s = mem s :=
    Function.update_noteq (Ne.symm hts) _ _
  have hmt : Function.update mem t (myStringAlloc junk) t = myStringAlloc junk :=
    Function.update_same _ _ _
  obtain ⟨b, hb, hblen, htake⟩ := myStringCatTo_spec E grownCat
    (Function.update mem t (myStringAlloc junk)) d s t htd hts (by rw [hmd]; exact hd)
    (by rw [hms]; exact hs) (by rw [hmt]; exact (myStringAlloc_valid junk).1)
    (Or.inr (by rw [hmt, myStringAlloc_eq]))
  have hreal : (myStringAlloc junk).realSize = 16 := by rw [myStringAlloc_eq]
  simp only [hmd, hms, hmt, Function.update_idem, hreal] at hb hblen htake
  have hble : (mem d).stringSize + (mem s).stringSize ≤ b.length := hblen ▸ le_policy _ _
  have hb1 : (mem d).stringSize + (mem s).stringSize = 0 → 1 ≤ b.length := by
    intro h0
    rw [hblen, h0]
    decide
  obtain ⟨b2, hb2, _, _⟩ := setFromMyString_spec E grownSet (mem d)
    ⟨b, (mem d).stringSize + (mem s).stringSize,
      policy 16 ((mem d).stringSize + (mem s).stringSize)⟩ hd.1 hble hb1
  simp only at hb2
  refine ⟨Function.update (Function.update mem t
      ⟨b, (mem d).stringSize + (mem s).stringSize,
        policy 16 ((mem d).stringSize + (mem s).stringSize)⟩) d
      ⟨b2, (mem d).stringSize + (mem s).stringSize, policy (mem d).realSize
        (if (mem d).stringSize + (mem s).stringSize = 0 then 16
          else (mem d).stringSize + (mem s).stringSize)⟩, ?_, ?_, ?_⟩
  · simp only [myStringCat, hb, Option.map_some', Function.update_same,
      Function.update_noteq (Ne.symm htd), hb2, writeBack]
  · simp only [Function.update_same]
  · simp only [Function.update_same]

/-- The store `myStringCatTo` leaves on success: the result has the total length, in the
capacity the policy gives for it. -/
theorem myStringCatTo_success (E : Int) (outcome : Option (Nat → Int)) (mem : Nat → MyString)
    (str1 str2 result : Option Nat) (mem2 : Nat → MyString)
    (h : myStringCatTo E outcome mem str1 str2 result = (MYSTRING_SUCCESS, mem2)) :
    ∃ p1 p2 r b, str1 = some p1 ∧ str2 = some p2 ∧ result = some r ∧ r ≠ p1 ∧ r ≠ p2 ∧
      mem2 r = ⟨b, ((mem p1).stringSize + (mem p2).stringSize) % 2 ^ 64,
        policy (mem r).realSize (((mem p1).stringSize + (mem p2).stringSize) % 2 ^ 64)⟩ := by
  cases str1 with
  | none => simp [myStringCatTo] at h
  | some p1 =>
    cases str2 with
    | none => simp [myStringCatTo] at h
    | some p2 =>
      cases result with
      | none => simp [myStringCatTo] at h
      | some r =>
        by_cases hc : some r = some p1 ∨ some r = some p2
        · simp only [myStringCatTo, hc, if_true] at h
          exact absurd (congrArg Prod.fst h) (by simp)
        · have hr1 : r ≠ p1 := fun e => hc (Or.inl (by rw [e]))
          have hr2 : r ≠ p2 := fun e => hc (Or.inr (by rw [e]))
          rcases reSizeStringArray_cases outcome (mem r)
            (((mem p1).stringSize + (mem p2).stringSize) % 2 ^ 64) with hr | ⟨b, hr⟩
          · simp only [myStringCatTo, hc, if_false, myStringLen, hr] at h
            exact absurd (congrArg Prod.fst h) (by simp)
          · simp only [myStringCatTo, hc, if_false, myStringLen, hr, Prod.mk.injEq, true_and,
              Function.update_same, Function.update_idem] at h
            refine ⟨p1, p2, r, (mem2 r).stringArray, rfl, rfl, rfl, hr1, hr2, ?_⟩
            rw [← h]
            simp only [Function.update_same]

theorem hysteresis_of_sizes (c n : Nat) (after : MyString)
    (h1 : after.realSize = policy c n) (h2 : after.stringSize ≤ n) : Hysteresis c after := by
  have h := hysteresis_policy after.stringArray c n after.stringSize h2
  unfold Hysteresis at h ⊢
  simp only at h
  rw [h1]
  exact h

/-- The length and the capacity after a successful `myStringSetFromMyString`, whatever the
allocator answered. -/
theorem setFromMyString_success (E : Int) (outcome : Option (Nat → Int)) (dst src d2 : MyString)
    (h : myStringSetFromMyString E outcome (some dst) (some src) =
      (MYSTRING_SUCCESS, some d2)) :
    d2.stringSize = src.stringSize ∧
      d2.realSize = policy dst.realSize (if src.stringSize = 0 then 16 else src.stringSize) := by
  rcases setFromMyString_cases E outcome dst src with h1 | ⟨b, h1⟩
  · rw [h1] at h
    exact absurd (congrArg Prod.fst h) (by simp)
  · rw [h1] at h
    simp only [Prod.mk.injEq, true_and, Option.some.injEq] at h
    rw [← h]
    exact ⟨rfl, rfl⟩

/-- The length and the capacity after a successful `myStringSetFromCString`, whatever the
allocator answered: for an empty C string whose temporary could not be copied the capacity is
the old one. -/
theorem setFromCString_success (E : Int) (junk : Nat → Int) (outcome : Option (Nat → Int))
    (dst : MyString) (cs : List Int) (d2 : MyString)
    (h : myStringSetFromCString E junk outcome (some dst) (some cs) =
      (MYSTRING_SUCCESS, some d2)) :
    d2.stringSize = getCStringLength cs ∧
      (d2.realSize = dst.realSize ∧ getCStringLength cs = 0 ∨
        d2.realSize =
          policy dst.realSize (if getCStringLength cs = 0 then 16 else getCStringLength cs)) := by
  by_cases h0 : getCStringLength cs = 0
  · obtain ⟨b, hb | hb⟩ := setFromCString_empty E junk outcome dst cs h0
    · rw [hb] at h
      simp only [Prod.mk.injEq, true_and, Option.some.injEq] at h
      rw [← h, h0]
      exact ⟨rfl, Or.inl ⟨rfl, rfl⟩⟩
    · rw [hb] at h
      simp only [Prod.mk.injEq, true_and, Option.some.injEq] at h
      rw [← h, h0]
      exact ⟨rfl, Or.inr rfl⟩
  · rcases reSizeStringArray_cases outcome dst (getCStringLength cs) with hr | ⟨b, hr⟩
    · simp only [myStringSetFromCString, EMPTY, h0, if_false, hr] at h
      exact absurd (congrArg Prod.fst h) (by simp)
    · simp only [myStringSetFromCString, EMPTY, h0, if_false, hr, Prod.mk.injEq, true_and,
        Option.some.injEq] at h
      rw [← h]
      exact ⟨rfl, Or.inr (by simp only [h0, if_false])⟩

/-- What holds of the capacity when memory is not short: the capacity is at least the length
in the instance `myStringAlloc` returns and in the clone of a valid instance, and after every
`myStringSetFromMyString`, `myStringSetFromCString` and `myStringCatTo` that returns success,
whatever the allocator answered; after `myStringFilter` on a valid instance; after
`myStringSetFromInt` on a valid instance and `myStringCat` on valid instances only when the
reallocations they ask for succeed (the last section has the calls that return success after
a reallocation that failed). -/
theorem capacity_ge_length_with_memory (E : Int) (junk grown grownCat grownSet : Nat → Int)
    (outcome : Option (Nat → Int)) :
    myStringLen E (some (myStringAlloc junk)) ≤ myStringRealSize (myStringAlloc junk) ∧
      (∀ s : MyString, s.Valid →
        ∃ c, myStringClone E junk outcome (some s) = some c ∧
          myStringLen E (some c) ≤ myStringRealSize c) ∧
      (∀ dst src d2 : MyString,
        myStringSetFromMyString E outcome (some dst) (some src) = (MYSTRING_SUCCESS, some d2) →
          myStringLen E (some d2) ≤ myStringRealSize d2) ∧
      (∀ (dst : MyString) (cs : List Int) (d2 : MyString),
        myStringSetFromCString E junk outcome (some dst) (some cs) =
            (MYSTRING_SUCCESS, some d2) →
          myStringLen E (some d2) ≤ myStringRealSize d2) ∧
      (∀ (s : MyString) (n : Int), s.Valid → -2 ^ 31 ≤ n → n < 2 ^ 31 →
        ∃ s2, myStringSetFromInt (some grown) (some s) n = (MYSTRING_SUCCESS, some s2) ∧
          myStringLen E (some s2) ≤ myStringRealSize s2) ∧
      (∀ (s : MyString) (filt : Int → Bool), s.Valid →
        ∃ s2, myStringFilter E junk (some s) filt = (MYSTRING_SUCCESS, some s2) ∧
          myStringLen E (some s2) ≤ myStringRealSize s2) ∧
      (∀ (mem : Nat → MyString) (str1 str2 : Option Nat) (r : Nat) (mem2 : Nat → MyString),
        myStringCatTo E outcome mem str1 str2 (some r) = (MYSTRING_SUCCESS, mem2) →
          myStringLen E (some (mem2 r)) ≤ myStringRealSize (mem2 r)) ∧
      (∀ (mem : Nat → MyString) (t d s : Nat), t ≠ d → t ≠ s → (mem d).Valid → (mem s).Valid →
        ∃ mem2, myStringCat E junk (some grownCat) (some grownSet) mem t (some d) (some s) =
            (MYSTRING_SUCCESS, mem2) ∧
          myStringLen E (some (mem2 d)) ≤ myStringRealSize (mem2 d)) := by
  simp only [myStringLen, myStringRealSize]
  refine ⟨?_, ?_, ?_, ?_, ?_, ?_, ?_, ?_⟩
  · rw [myStringAlloc_eq]; decide
  · intro s hs
    refine ⟨_, myStringClone_spec E junk outcome s hs, ?_⟩
    split
    · rw [myStringAlloc_eq]; decide
    · exact Nat.le_refl _
  · intro dst src d2 h
    obtain ⟨h1, h2⟩ := setFromMyString_success E outcome dst src d2 h
    rw [h1, h2]
    refine le_trans ?_ (le_policy _ _)
    split <;> omega
  · intro dst cs d2 h
    obtain ⟨h1, h2 | h2⟩ := setFromCString_success E junk outcome dst cs d2 h
    · rw [h1, h2.2]; exact Nat.zero_le _
    · rw [h1, h2]
      refine le_trans ?_ (le_policy _ _)
      split <;> omega
  · intro s n hs _ hn
    obtain ⟨s2, h, h1, h2⟩ := myStringSetFromInt_sizes grown s hs.1 n hn
    exact ⟨s2, h, by rw [h1, h2]; exact le_policy _ _⟩
  · intro s filt hs
    refine ⟨_, myStringFilter_state E junk s hs filt, ?_⟩
    have := hs.2.1
    simp only
    omega
  · intro mem str1 str2 r mem2 h
    obtain ⟨p1, p2, r2, b, _, _, hr, _, _, hm⟩ :=
      myStringCatTo_success E outcome mem str1 str2 (some r) mem2 h
    simp only [Option.some.injEq] at hr
    subst hr
    rw [hm]
    exact le_policy _ _
  · intro mem t d s htd hts hd hs
    obtain ⟨mem2, h, h1, h2⟩ := myStringCat_sizes E junk grownCat grownSet mem t d s htd hts hd hs
    refine ⟨mem2, h, ?_⟩
    rw [h1, h2]
    refine le_trans ?_ (le_policy _ _)
    split <;> omega

theorem capacity_ge_length_with_memory_witness :
    ∃ s2, myStringSetFromInt (some fun _ => 1) (some ⟨[104, 105, 0], 2, 3⟩) (-1234) =
        (MYSTRING_SUCCESS, some s2) ∧
      myStringLen 0 (some s2) ≤ myStringRealSize s2 :=
  (capacity_ge_length_with_memory 0 (fun _ => 0) (fun _ => 1) (fun _ => 2) (fun _ => 3) none).2.2.2.2.1
    ⟨[104, 105, 0], 2, 3⟩ (-1234) (by decide) (by decide) (by decide)

/-- The hysteresis of the capacity when memory is not short.  After every
`myStringSetFromMyString`, `myStringSetFromCString` and `myStringCatTo` that returns success,
whatever the allocator answered, after `myStringFilter` on a valid instance, and after
`myStringSetFromInt` on a valid instance and `myStringCat` on valid instances only when the
reallocations they ask for succeed: a capacity smaller than before the call means that the
capacity before exceeded the new length by more than 16, and a new length above the old
capacity is within the new capacity (the last section has the calls that return success
after a reallocation that failed). -/
theorem capacity_hysteresis_with_memory (E : Int) (junk grown grownCat grownSet : Nat → Int)
    (outcome : Option (Nat → Int)) :
    (∀ dst src d2 : MyString,
        myStringSetFromMyString E outcome (some dst) (some src) = (MYSTRING_SUCCESS, some d2) →
          Hysteresis (myStringRealSize dst) d2) ∧
      (∀ (dst : MyString) (cs : List Int) (d2 : MyString),
        myStringSetFromCString E junk outcome (some dst) (some cs) =
            (MYSTRING_SUCCESS, some d2) →
          Hysteresis (myStringRealSize dst) d2) ∧
      (∀ (s : MyString) (n : Int), s.Valid → -2 ^ 31 ≤ n → n < 2 ^ 31 →
        ∃ s2, myStringSetFromInt (some grown) (some s) n = (MYSTRING_SUCCESS, some s2) ∧
          Hysteresis (myStringRealSize s) s2) ∧
      (∀ (s : MyString) (filt : Int → Bool), s.Valid →
        ∃ s2, myStringFilter E junk (some s) filt = (MYSTRING_SUCCESS, some s2) ∧
          Hysteresis (myStringRealSize s) s2) ∧
      (∀ (mem : Nat → MyString) (str1 str2 : Option Nat) (r : Nat) (mem2 : Nat → MyString),
        myStringCatTo E outcome mem str1 str2 (some r) = (MYSTRING_SUCCESS, mem2) →
          Hysteresis (myStringRealSize (mem r)) (mem2 r)) ∧
      (∀ (mem : Nat → MyString) (t d s : Nat), t ≠ d → t ≠ s → (mem d).Valid → (mem s).Valid →
        ∃ mem2, myStringCat E junk (some grownCat) (some grownSet) mem t (some d) (some s) =
            (MYSTRING_SUCCESS, mem2) ∧
          Hysteresis (myStringRealSize (mem d)) (mem2 d)) := by
  simp only [myStringRealSize]
  refine ⟨?_, ?_, ?_, ?_, ?_, ?_⟩
  · intro dst src d2 h
    obtain ⟨h1, h2⟩ := setFromMyString_success E outcome dst src d2 h
    refine hysteresis_of_sizes _ _ d2 h2 ?_
    rw [h1]
    split <;> omega
  · intro dst cs d2 h
    obtain ⟨h1, h2 | h2⟩ := setFromCString_success E junk outcome dst cs d2 h
    · unfold Hysteresis
      rw [h1, h2.1, h2.2]
      omega
    · refine hysteresis_of_sizes _ _ d2 h2 ?_
      rw [h1]
      split <;> omega
  · intro s n hs _ hn
    obtain ⟨s2, h, h1, h2⟩ := myStringSetFromInt_sizes grown s hs.1 n hn
    exact ⟨s2, h, hysteresis_of_sizes _ _ s2 h2 (by rw [h1])⟩
  · intro s filt hs
    refine ⟨_, myStringFilter_state E junk s hs filt, ?_⟩
    have := hs.2.1
    unfold Hysteresis
    simp only
    omega
  · intro mem str1 str2 r mem2 h
    obtain ⟨p1, p2, r2, b, _, _, hr, _, _, hm⟩ :=
      myStringCatTo_success E outcome mem str1 str2 (some r) mem2 h
    simp only [Option.some.injEq] at hr
    subst hr
    rw [hm]
    exact hysteresis_policy _ _ _ _ (Nat.le_refl _)
  · intro mem t d s htd hts hd hs
    obtain ⟨mem2, h, h1, h2⟩ := myStringCat_sizes E junk grownCat grownSet mem t d s htd hts hd hs
    refine ⟨mem2, h, hysteresis_of_sizes _ _ _ h2 ?_⟩
    rw [h1]
    split <;> omega

theorem capacity_hysteresis_with_memory_witness :
    ∃ s2, myStringSetFromInt (some fun _ => 1) (some ⟨[104, 105, 0], 2, 3⟩) (-1234) =
        (MYSTRING_SUCCESS, some s2) ∧
      Hysteresis (myStringRealSize ⟨[104, 105, 0], 2, 3⟩) s2 :=
  (capacity_hysteresis_with_memory 0 (fun _ => 0) (fun _ => 1) (fun _ => 2) (fun _ => 3)
    none).2.2.1 ⟨[104, 105, 0], 2, 3⟩ (-1234) (by decide) (by decide) (by decide)

/-! ## The reads stay below the length -/

theorem checkEqualityTracedFrom_fst (a b : MyString) (foo : Int → Int → Int) (left i : Nat) :
    (checkEqualityTracedFrom a b foo left i).1 = checkEqualityFrom a b foo left i := by
  induction left generalizing i with
  | zero => rfl
  | succ left ih =>
    unfold checkEqualityTracedFrom checkEqualityFrom
    simp only
    split
    · rfl
    · exact ih (i + 1)

theorem myStringCustomCompareTraced_fst (E : Int) (str1 str2 : Option MyString)
    (foo : Int → Int → Int) :
    (myStringCustomCompareTraced E str1 str2 foo).1 = myStringCustomCompare E str1 str2 foo := by
  unfold myStringCustomCompareTraced myStringCustomCompare
  split
  · simp only [checkEqualityTraced, checkEquality, checkEqualityTracedFrom_fst]
    split
    · exact checkEqualityTracedFrom_fst _ _ _ _ _
    · split
      · rfl
      · split <;> rfl
  · rfl

theorem myStringCustomEqualTraced_fst (E : Int) (str1 str2 : Option MyString)
    (foo : Int → Int → Int) :
    (myStringCustomEqualTraced E str1 str2 foo).1 = myStringCustomEqual E str1 str2 foo := by
  unfold myStringCustomEqualTraced myStringCustomEqual
  split
  · simp only [checkEqualityTraced, checkEquality, checkEqualityTracedFrom_fst]
    split
    · rfl
    · split <;> rfl
  · rfl

theorem myStringToIntTracedFrom_fst (E : Int) (toCheck : List Int) (left i : Nat)
    (result sign : Int) :
    (myStringToIntTracedFrom E toCheck left i result sign).1 =
      myStringToIntFrom E toCheck left i result sign := by
  induction left generalizing i result sign with
  | zero => rfl
  | succ left ih =>
    unfold myStringToIntTracedFrom myStringToIntFrom
    split
    · exact ih _ _ _
    · split
      · exact ih _ _ _
      · rfl

theorem myStringToIntTraced_fst (E : Int) (str : Option MyString) :
    (myStringToIntTraced E str).1 = myStringToInt E str := by
  unfold myStringToIntTraced myStringToInt
  split
  · rfl
  · split
    · rfl
    · exact myStringToIntTracedFrom_fst _ _ _ _ _ _

theorem myStringFilterTracedFrom_fst (filt : Int → Bool) (A : List Int) (left i af : Nat)
    (temp : List Int) :
    (myStringFilterTracedFrom filt A left i af temp).1 =
      myStringFilterFrom filt A left i af temp := by
  induction left generalizing i af temp with
  | zero => rfl
  | succ left ih =>
    unfold myStringFilterTracedFrom myStringFilterFrom
    split
    · exact ih _ _ _
    · exact ih _ _ _

theorem myStringFilterTraced_fst (E : Int) (junk : Nat → Int) (str : Option MyString)
    (filt : Int → Bool) :
    (myStringFilterTraced E junk str filt).1 = myStringFilter E junk str filt := by
  unfold myStringFilterTraced myStringFilter
  split
  · rfl
  · simp only [myStringFilterTracedFrom_fst]

theorem myStringToCStringTraced_fst (E : Int) (fresh : Option (Nat → Int))
    (str : Option MyString) :
    (myStringToCStringTraced E fresh str).1 = myStringToCString E fresh str := by
  unfold myStringToCStringTraced myStringToCString
  split
  · rfl
  · dsimp only
    cases fresh <;> rfl

theorem myStringWriteTraced_fst (E : Int) (fresh : Option (Nat → Int))
    (failure : Option (List Int)) (str : Option MyString) (stream : List Int) :
    (myStringWriteTraced E fresh failure str stream).1 =
      myStringWrite E fresh failure str stream := by
  unfold myStringWriteTraced myStringWrite
  simp only [myStringToCStringTraced_fst]
  split
  · rfl
  · split <;> rfl

theorem myStringSetFromMyStringTraced_fst (E : Int) (outcome : Option (Nat → Int))
    (str other : Option MyString) :
    (myStringSetFromMyStringTraced E outcome str other).1 =
      myStringSetFromMyString E outcome str other := by
  unfold myStringSetFromMyStringTraced myStringSetFromMyString
  split
  · dsimp only
    generalize reSizeStringArray outcome _ _ = q
    obtain ⟨r, s⟩ := q
    cases r <;> rfl
  · rfl

theorem myStringSetFromCStringTraced_fst (E : Int) (junk : Nat → Int)
    (outcome : Option (Nat → Int)) (str : Option MyString) (cString : Option (List Int)) :
    (myStringSetFromCStringTraced E junk outcome str cString).1 =
      myStringSetFromCString E junk outcome str cString := by
  unfold myStringSetFromCStringTraced myStringSetFromCString
  split
  · simp only [myStringSetFromMyStringTraced_fst]
    split
    · rfl
    · generalize reSizeStringArray outcome _ _ = q
      obtain ⟨r, s⟩ := q
      cases r <;> rfl
  · rfl

theorem myStringCloneTraced_fst (E : Int) (junk : Nat → Int) (outcome : Option (Nat → Int))
    (str : Option MyString) :
    (myStringCloneTraced E junk outcome str).1 = myStringClone E junk outcome str := by
  unfold myStringCloneTraced myStringClone
  simp only [myStringSetFromMyStringTraced_fst]
  split <;> rfl

theorem myStringCatToTraced_fst (E : Int) (outcome : Option (Nat → Int)) (mem : Nat → MyString)
    (str1 str2 result : Option Nat) :
    (myStringCatToTraced E outcome mem str1 str2 result).1 =
      myStringCatTo E outcome mem str1 str2 result := by
  unfold myStringCatToTraced myStringCatTo
  split
  · split
    · rfl
    · dsimp only
      generalize reSizeStringArray outcome _ _ = q
      obtain ⟨r, s⟩ := q
      cases r <;> rfl
  · rfl

theorem myStringCatTraced_fst (E : Int) (junk : Nat → Int)
    (outcomeCat outcomeSet : Option (Nat → Int)) (mem : Nat → MyString) (tempStruct : Nat)
    (dest src : Option Nat) :
    (myStringCatTraced E junk outcomeCat outcomeSet mem tempStruct dest src).1 =
      myStringCat E junk outcomeCat outcomeSet mem tempStruct dest src := by
  unfold myStringCatTraced myStringCat
  simp only [myStringCatToTraced_fst, myStringSetFromMyStringTraced_fst]
  split <;> rfl

theorem mem_memcpyTraced (dst src : List Int) (n i : Nat) (h : i ∈ (memcpyTraced dst src n).2) :
    i < n := by
  simpa [memcpyTraced] using h

theorem mem_memcpyAtTraced (dst : List Int) (offset : Nat) (src : List Int) (n i : Nat)
    (h : i ∈ (memcpyAtTraced dst offset src n).2) : i < n := by
  simpa [memcpyAtTraced] using h

theorem checkEqualityTracedFrom_lt (a b : MyString) (foo : Int → Int → Int) (left k : Nat) :
    ∀ i ∈ (checkEqualityTracedFrom a b foo left k).2, i < k + left := by
  induction left generalizing k with
  | zero => simp [checkEqualityTracedFrom]
  | succ left ih =>
    intro i hi
    unfold checkEqualityTracedFrom at hi
    simp only at hi
    split at hi
    · simp only [List.mem_singleton] at hi
      omega
    · simp only [List.mem_cons] at hi
      rcases hi with hi | hi
      · omega
      · have := ih (k + 1) i hi
        omega

theorem myStringToIntTracedFrom_lt (E : Int) (toCheck : List Int) (left k : Nat)
    (result sign : Int) :
    ∀ i ∈ (myStringToIntTracedFrom E toCheck left k result sign).2, i < k + left := by
  induction left generalizing k result sign with
  | zero => simp [myStringToIntTracedFrom]
  | succ left ih =>
    intro i hi
    unfold myStringToIntTracedFrom at hi
    split at hi
    · simp only [List.mem_cons] at hi
      rcases hi with hi | hi
      · omega
      · have := ih (k + 1) _ _ i hi
        omega
    · split at hi
      · simp only [List.mem_cons] at hi
        rcases hi with hi | hi | hi
        · omega
        · omega
        · have := ih (k + 1) _ _ i hi
          omega
      · simp only at hi
        split at hi
        · simp only [List.mem_cons, List.mem_singleton, List.not_mem_nil, or_false] at hi
          rcases hi with hi | hi <;> omega
        · simp only [List.mem_singleton] at hi
          omega

theorem myStringFilterTracedFrom_lt (filt : Int → Bool) (A : List Int) (left k af : Nat)
    (temp : List Int) :
    ∀ i ∈ (myStringFilterTracedFrom filt A left k af temp).2, i < k + left := by
  induction left generalizing k af temp with
  | zero => simp [myStringFilterTracedFrom]
  | succ left ih =>
    intro i hi
    unfold myStringFilterTracedFrom at hi
    split at hi
    · simp only [List.mem_cons] at hi
      rcases hi with hi | hi
      · omega
      · have := ih (k + 1) _ _ i hi
        omega
    · simp only [List.mem_cons] at hi
      rcases hi with hi | hi | hi
      · omega
      · omega
      · have := ih (k + 1) _ _ i hi
        omega

theorem myStringCustomCompareTraced_snd (E : Int) (a b : MyString) (foo : Int → Int → Int) :
    (myStringCustomCompareTraced E (some a) (some b) foo).2 =
      (checkEqualityTracedFrom a b foo
        (toULong (MIN (toLong a.stringSize) (toLong b.stringSize))) 0).2 := by
  simp only [myStringCustomCompareTraced, checkEqualityTraced, myStringLen]
  split
  · rfl
  · split
    · rfl
    · split <;> rfl

theorem myStringToCStringTraced_lt (E : Int) (fresh : Option (Nat → Int)) (a : MyString) :
    ∀ i ∈ (myStringToCStringTraced E fresh (some a)).2, i < a.stringSize := by
  intro i hi
  cases fresh with
  | none => simp [myStringToCStringTraced] at hi
  | some f =>
    simp only [myStringToCStringTraced, myStringLen, Option.map_some'] at hi
    exact mem_memcpyTraced _ _ _ _ hi

/-- The reads of `myStringSetFromMyString` in the source are below its length, but for an
empty source, where the one char at offset 0 is read. -/
theorem myStringSetFromMyStringTraced_lt (E : Int) (outcome : Option (Nat → Int))
    (dst src : MyString) :
    ∀ i ∈ (myStringSetFromMyStringTraced E outcome (some dst) (some src)).2,
      i < src.stringSize ∨ (src.stringSize = 0 ∧ i = 0) := by
  intro i hi
  rcases reSizeStringArray_cases outcome { dst with stringSize := src.stringSize }
    (if src.stringSize = 0 then 16 else src.stringSize) with h | ⟨b, h⟩
  · simp only [myStringSetFromMyStringTraced, myStringLen, h] at hi
    simp at hi
  · simp only [myStringSetFromMyStringTraced, myStringLen, h] at hi
    have := mem_memcpyTraced _ _ _ _ hi
    by_cases h0 : src.stringSize = 0
    · simp only [h0, if_true] at this
      right
      exact ⟨h0, by omega⟩
    · simp only [h0, if_false] at this
      left
      exact this

theorem myStringCatToTraced_lt (E : Int) (outcome : Option (Nat → Int)) (mem : Nat → MyString)
    (p1 p2 r : Nat) :
    (∀ i ∈ (myStringCatToTraced E outcome mem (some p1) (some p2) (some r)).2.1,
        i < (mem p1).stringSize) ∧
      (∀ i ∈ (myStringCatToTraced E outcome mem (some p1) (some p2) (some r)).2.2,
        i < (mem p2).stringSize) := by
  unfold myStringCatToTraced
  simp only [myStringLen]
  split
  · simp
  · have hr1 : r ≠ p1 := fun e => by simp_all
    have hr2 : r ≠ p2 := fun e => by simp_all
    rcases reSizeStringArray_cases outcome (mem r)
        (((mem p1).stringSize + (mem p2).stringSize) % 2 ^ 64) with h | ⟨b, h⟩
    · simp only [h]; simp
    · simp only [h]
      constructor
      · intro i hi
        have := mem_memcpyTraced _ _ _ _ hi
        rwa [Function.update_noteq (Ne.symm hr1)] at this
      · intro i hi
        have := mem_memcpyAtTraced _ _ _ _ _ hi
        simpa [Function.update_noteq (Ne.symm hr2)] using this

theorem min_sizes (a b : MyString) (ha : a.Valid) (hb : b.Valid) :
    toULong (MIN (toLong a.stringSize) (toLong b.stringSize)) = min a.stringSize b.stringSize := by
  have h1 : toLong a.stringSize = a.stringSize :=
    toLong_of_lt _ (lt_of_le_of_lt ha.2.1 ha.2.2)
  have h2 : toLong b.stringSize = b.stringSize :=
    toLong_of_lt _ (lt_of_le_of_lt hb.2.1 hb.2.2)
  rw [h1, h2, MIN_natCast, toULong_natCast]
  have := ha.2.1
  have := ha.2.2
  omega

/-- C25, as the code has it: on valid instances (capacity at least the length) whose block
holds at least one byte, every offset at which an operation reads the block of an instance is
below the length of that instance, with one exception: the copy in `myStringSetFromMyString`
reads the char at offset 0 of an empty source, which is at the length and below the capacity.
It is reached by `myStringSetFromMyString` itself, by `myStringSetFromCString` for an
empty C string (in its temporary instance) and by `myStringCat` when the total length is 0 (in
its temporary instance, as `myStringCatTo` left it).  The reads are those of the traced
operations, each of which returns the result of the operation it traces. -/
theorem reads_below_length (E : Int) (junk : Nat → Int)
    (outcome outcomeSet fresh : Option (Nat → Int)) (a b : MyString) (ha : a.Valid)
    (hb : b.Valid) (hcap : 1 ≤ b.realSize) :
    (∀ foo, (myStringCustomCompareTraced E (some a) (some b) foo).1 =
          myStringCustomCompare E (some a) (some b) foo ∧
        ReadsBelowLength (myStringCustomCompareTraced E (some a) (some b) foo).2 a ∧
        ReadsBelowLength (myStringCustomCompareTraced E (some a) (some b) foo).2 b) ∧
      (∀ foo, (myStringCustomEqualTraced E (some a) (some b) foo).1 =
          myStringCustomEqual E (some a) (some b) foo ∧
        ReadsBelowLength (myStringCustomEqualTraced E (some a) (some b) foo).2 a ∧
        ReadsBelowLength (myStringCustomEqualTraced E (some a) (some b) foo).2 b) ∧
      ((myStringToIntTraced E (some a)).1 = myStringToInt E (some a) ∧
        ReadsBelowLength (myStringToIntTraced E (some a)).2 a) ∧
      (∀ filt, (myStringFilterTraced E junk (some a) filt).1 =
          myStringFilter E junk (some a) filt ∧
        ReadsBelowLength (myStringFilterTraced E junk (some a) filt).2 a) ∧
      ((myStringToCStringTraced E fresh (some a)).1 = myStringToCString E fresh (some a) ∧
        ReadsBelowLength (myStringToCStringTraced E fresh (some a)).2 a) ∧
      (∀ failure stream, (myStringWriteTraced E fresh failure (some a) stream).1 =
          myStringWrite E fresh failure (some a) stream ∧
        ReadsBelowLength (myStringWriteTraced E fresh failure (some a) stream).2 a) ∧
      ((myStringCloneTraced E junk outcome (some a)).1 = myStringClone E junk outcome (some a) ∧
        ReadsBelowLength (myStringCloneTraced E junk outcome (some a)).2 a) ∧
      ((myStringSetFromMyStringTraced E outcome (some a) (some b)).1 =
          myStringSetFromMyString E outcome (some a) (some b) ∧
        ReadsBelowLengthOrFirst (myStringSetFromMyStringTraced E outcome (some a) (some b)).2
          b) ∧
      (∀ cs, (myStringSetFromCStringTraced E junk outcome (some a) (some cs)).1 =
          myStringSetFromCString E junk outcome (some a) (some cs) ∧
        ReadsBelowLengthOrFirst
          (myStringSetFromCStringTraced E junk outcome (some a) (some cs)).2
          (myStringAlloc junk)) ∧
      (∀ (mem : Nat → MyString) (p1 p2 r : Nat), mem p1 = a → mem p2 = b →
        (myStringCatToTraced E outcome mem (some p1) (some p2) (some r)).1 =
          myStringCatTo E outcome mem (some p1) (some p2) (some r) ∧
        ReadsBelowLength (myStringCatToTraced E outcome mem (some p1) (some p2) (some r)).2.1
          a ∧
        ReadsBelowLength (myStringCatToTraced E outcome mem (some p1) (some p2) (some r)).2.2
          b) ∧
      (∀ (mem : Nat → MyString) (t d s : Nat), t ≠ d → t ≠ s → mem d = a → mem s = b →
        (myStringCatTraced E junk outcome outcomeSet mem t (some d) (some s)).1 =
          myStringCat E junk outcome outcomeSet mem t (some d) (some s) ∧
        ReadsBelowLength
          (myStringCatTraced E junk outcome outcomeSet mem t (some d) (some s)).2.1 a ∧
        ReadsBelowLength
          (myStringCatTraced E junk outcome outcomeSet mem t (some d) (some s)).2.2.1 b ∧
        ReadsBelowLengthOrFirst
          (myStringCatTraced E junk outcome outcomeSet mem t (some d) (some s)).2.2.2
          ((myStringCatTo E outcome (Function.update mem t (myStringAlloc junk)) (some d)
            (some s) (some t)).2 t)) := by
  have hsz1 : toLong a.stringSize = a.stringSize :=
    toLong_of_lt _ (lt_of_le_of_lt ha.2.1 ha.2.2)
  have hsz2 : toLong b.stringSize = b.stringSize :=
    toLong_of_lt _ (lt_of_le_of_lt hb.2.1 hb.2.2)
  have hcstr : ∀ i ∈ (myStringToCStringTraced E fresh (some a)).2, i < a.stringSize :=
    myStringToCStringTraced_lt E fresh a
  refine ⟨?_, ?_, ?_, ?_, ?_, ?_, ?_, ?_, ?_, ?_, ?_⟩
  · intro foo
    refine ⟨myStringCustomCompareTraced_fst E _ _ foo, ?_⟩
    have key : ∀ i ∈ (myStringCustomCompareTraced E (some a) (some b) foo).2,
        i < a.stringSize ∧ i < b.stringSize := by
      intro i hi
      rw [myStringCustomCompareTraced_snd, min_sizes a b ha hb] at hi
      have := checkEqualityTracedFrom_lt a b foo _ 0 i hi
      omega
    exact ⟨fun i hi => (key i hi).1, fun i hi => (key i hi).2⟩
  · intro foo
    refine ⟨myStringCustomEqualTraced_fst E _ _ foo, ?_⟩
    have key : ∀ i ∈ (myStringCustomEqualTraced E (some a) (some b) foo).2,
        i < a.stringSize ∧ i < b.stringSize := by
      intro i hi
      simp only [myStringCustomEqualTraced, checkEqualityTraced, myStringLen] at hi
      split at hi
      · simp at hi
      · rename_i heq
        have hab : a.stringSize = b.stringSize := by
          rw [hsz1, hsz2] at heq
          have := not_not.mp heq
          omega
        have hu : toULong (toLong a.stringSize) = a.stringSize := by
          rw [hsz1, toULong_natCast]
          have := ha.2.1
          have := ha.2.2
          omega
        rw [hu] at hi
        have hi2 : i ∈ (checkEqualityTracedFrom a b foo a.stringSize 0).2 := by
          split at hi <;> exact hi
        have := checkEqualityTracedFrom_lt a b foo _ 0 i hi2
        omega
    exact ⟨fun i hi => (key i hi).1, fun i hi => (key i hi).2⟩
  · refine ⟨myStringToIntTraced_fst E _, ?_⟩
    intro i hi
    simp only [myStringToIntTraced, myStringLen] at hi
    split at hi
    · simp at hi
    · have := myStringToIntTracedFrom_lt E _ _ 0 _ _ i hi
      omega
  · intro filt
    refine ⟨myStringFilterTraced_fst E junk _ filt, ?_⟩
    intro i hi
    simp only [myStringFilterTraced, myStringLen] at hi
    have := myStringFilterTracedFrom_lt filt _ _ 0 _ _ i hi
    omega
  · exact ⟨myStringToCStringTraced_fst E fresh _, hcstr⟩
  · intro failure stream
    refine ⟨myStringWriteTraced_fst E fresh failure _ stream, ?_⟩
    intro i hi
    apply hcstr i
    simp only [myStringWriteTraced] at hi
    split at hi
    · exact hi
    · split at hi <;> exact hi
  · refine ⟨myStringCloneTraced_fst E junk outcome _, ?_⟩
    intro i hi
    simp only [myStringCloneTraced, myStringLen, EMPTY] at hi
    split at hi
    · simp at hi
    · rename_i h0
      rcases myStringSetFromMyStringTraced_lt E outcome _ a i hi with h | h
      · exact h
      · exact absurd h.1 h0
  · refine ⟨myStringSetFromMyStringTraced_fst E outcome _ _, ?_⟩
    intro i hi
    rcases myStringSetFromMyStringTraced_lt E outcome a b i hi with h | h
    · exact Or.inl h
    · exact Or.inr ⟨h.1, h.2, by omega⟩
  · intro cs
    refine ⟨myStringSetFromCStringTraced_fst E junk outcome _ _, ?_⟩
    intro i hi
    have h0 : (myStringAlloc junk).stringSize = 0 := by rw [myStringAlloc_eq]
    have h16 : (myStringAlloc junk).realSize = 16 := by rw [myStringAlloc_eq]
    simp only [myStringSetFromCStringTraced, EMPTY] at hi
    split at hi
    · rcases myStringSetFromMyStringTraced_lt E outcome a _ i hi with h | h
      · omega
      · exact Or.inr ⟨h0, h.2, by omega⟩
    · generalize reSizeStringArray outcome _ _ = q at hi
      obtain ⟨r, s⟩ := q
      cases r <;> simp at hi
  · intro mem p1 p2 r h1 h2
    have := myStringCatToTraced_lt E outcome mem p1 p2 r
    rw [h1, h2] at this
    exact ⟨myStringCatToTraced_fst E outcome mem _ _ _, this.1, this.2⟩
  · intro mem t d s htd hts hd hs
    refine ⟨myStringCatTraced_fst E junk outcome outcomeSet mem t _ _, ?_⟩
    have hmd : Function.update mem t (myStringAlloc junk) d = a := by
      rw [Function.update_noteq (Ne.symm htd), hd]
    have hms : Function.update mem t (myStringAlloc junk) s = b := by
      rw [Function.update_noteq (Ne.symm hts), hs]
    have hmt : (Function.update mem t (myStringAlloc junk) t).realSize = 16 := by
      rw [Function.update_same, myStringAlloc_eq]
    have hc := myStringCatToTraced_lt E outcome (Function.update mem t (myStringAlloc junk)) d s t
    rw [hmd, hms] at hc
    have htot : (a.stringSize + b.stringSize) % 2 ^ 64 = a.stringSize + b.stringSize := by
      have := ha.2.1
      have := ha.2.2
      have := hb.2.1
      have := hb.2.2
      exact Nat.mod_eq_of_lt (by omega)
    unfold myStringCatTraced
    simp only [myStringCatToTraced_fst]
    cases hres : myStringCatTo E outcome (Function.update mem t (myStringAlloc junk)) (some d)
      (some s) (some t) with
    | mk ret mem2 =>
      cases ret with
      | MYSTRING_ERROR =>
        simp only
        exact ⟨hc.1, hc.2, by simp [ReadsBelowLengthOrFirst]⟩
      | MYSTRING_SUCCESS =>
        simp only [Option.map_some']
        refine ⟨hc.1, hc.2, ?_⟩
        intro i hi
        obtain ⟨p1, p2, r, b2, e1, e2, e3, _, _, hm⟩ :=
          myStringCatTo_success E outcome _ _ _ _ mem2 hres
        simp only [Option.some.injEq] at e1 e2 e3
        subst e1 e2 e3
        rw [hmd, hms, htot, hmt] at hm
        have := myStringSetFromMyStringTraced_lt E outcomeSet (mem2 d) (mem2 t) i hi
        rw [hm] at this ⊢
        rcases this with h | h
        · exact Or.inl h
        · refine Or.inr ⟨h.1, h.2, ?_⟩
          have h0 : a.stringSize + b.stringSize = 0 := h.1
          rw [h.2, h0]
          show 0 < policy 16 0
          decide

theorem reads_below_length_witness :
    (MyString.Valid ⟨[104, 105, 0], 2, 3⟩ ∧ MyString.Valid ⟨[120, 121, 122], 3, 3⟩ ∧
        1 ≤ (MyString.mk [120, 121, 122] 3 3).realSize) ∧
      (myStringSetFromMyStringTraced 0 none (some ⟨[104, 105, 0], 2, 3⟩)
          (some ⟨[120, 121, 122], 3, 3⟩)).2 = [0, 1, 2] ∧
      ReadsBelowLengthOrFirst
        (myStringSetFromMyStringTraced 0 none (some ⟨[104, 105, 0], 2, 3⟩)
          (some ⟨[120, 121, 122], 3, 3⟩)).2 ⟨[120, 121, 122], 3, 3⟩ :=
  ⟨by decide, by decide,
    (reads_below_length 0 (fun _ => 0) none none none ⟨[104, 105, 0], 2, 3⟩
      ⟨[120, 121, 122], 3, 3⟩ (by decide) (by decide) (by decide)).2.2.2.2.2.2.2.1.2⟩

/-- C25, as stated, fails: `myStringSetFromMyString` with a freshly allocated, empty source
(a valid instance of length 0 in a block of 16 bytes) succeeds and reads the source at offset
0, which is not below its length 0. -/
theorem myStringSetFromMyString_reads_empty_source :
    (myStringAlloc fun _ => 0).Valid ∧
      myStringLen (-999) (some (myStringAlloc fun _ => 0)) = 0 ∧
      (myStringSetFromMyString (-999) (some fun _ => 0) (some (myStringAlloc fun _ => 0))
        (some (myStringAlloc fun _ => 0))).1 = MYSTRING_SUCCESS ∧
      (myStringSetFromMyStringTraced (-999) (some fun _ => 0) (some (myStringAlloc fun _ => 0))
        (some (myStringAlloc fun _ => 0))).1 =
        myStringSetFromMyString (-999) (some fun _ => 0) (some (myStringAlloc fun _ => 0))
          (some (myStringAlloc fun _ => 0)) ∧
      (myStringSetFromMyStringTraced (-999) (some fun _ => 0) (some (myStringAlloc fun _ => 0))
        (some (myStringAlloc fun _ => 0))).2 = [0] ∧
      ¬ ReadsBelowLength
        (myStringSetFromMyStringTraced (-999) (some fun _ => 0)
          (some (myStringAlloc fun _ => 0)) (some (myStringAlloc fun _ => 0))).2
        (myStringAlloc fun _ => 0) := by
  decide

/-! ## Resizing: the policy, and failures that are not reported -/

/-- What a successful `reSizeStringArray` leaves, whatever the allocator answered. -/
theorem reSizeStringArray_of_success (outcome : Option (Nat → Int)) (str : MyString) (n : Nat)
    (s2 : MyString) (hlen : str.stringArray.length = str.realSize)
    (h : reSizeStringArray outcome str n = (MYSTRING_SUCCESS, s2)) :
    s2.stringSize = str.stringSize ∧ s2.realSize = policy str.realSize n ∧
      s2.stringArray.length = s2.realSize ∧
      s2.stringArray.take (min str.realSize n) = str.stringArray.take (min str.realSize n) ∧
      (¬ (str.realSize < n ∨ str.realSize - n > 16) → s2 = str) ∧
      (n ≠ 0 ∨ str.realSize ≤ 16) := by
  unfold reSizeStringArray myStringRealSize at h
  by_cases hc : str.realSize < n ∨ str.realSize - n > 16
  · have hp : policy str.realSize n = n := by simp [policy, hc]
    by_cases hn : n = 0
    · have h16 : 16 < str.realSize := by subst hn; omega
      simp [realloc, hn, h16] at h
    · cases outcome with
      | none => simp [hc, realloc, hn] at h
      | some junk =>
        obtain ⟨b, hb, hblen, htake⟩ := length_realloc junk str.stringArray n hn
        simp only [hc, decide_True, Bool.or_self, Bool.or_true, Bool.true_or, if_true, hb,
          Prod.mk.injEq, true_and] at h
        have h' : s2 = { str with stringArray := b, realSize := n } := by
          simp [hc, hb] at h
          exact h.symm
        subst h'
        refine ⟨rfl, hp.symm, hblen, ?_, fun hnc => absurd hc hnc, Or.inl hn⟩
        rw [← hlen]
        exact htake
  · have hp : policy str.realSize n = str.realSize := by simp [policy, hc]
    have h' : s2 = str := by
      simp [hc] at h
      exact h.symm
    subst h'
    refine ⟨rfl, hp.symm, hlen, rfl, fun _ => rfl, ?_⟩
    by_cases hn : n = 0
    · right; subst hn; omega
    · left; exact hn

/-- C36: a successful `reSizeStringArray` on an instance of capacity `C`, for the size `N`,
leaves the capacity `N` when `C < N` or `C - N > 16` and otherwise the capacity `C` and the
instance as it was; in both cases the length is the old one and the first `min C N` chars of
the buffer are the old ones. -/
theorem reSizeStringArray_policy (outcome : Option (Nat → Int)) (str : MyString) (N : Nat)
    (s2 : MyString) (hlen : str.stringArray.length = myStringRealSize str)
    (h : reSizeStringArray outcome str N = (MYSTRING_SUCCESS, s2)) :
    (myStringRealSize str < N ∨ myStringRealSize str - N > 16 → myStringRealSize s2 = N) ∧
      (¬ (myStringRealSize str < N ∨ myStringRealSize str - N > 16) →
        myStringRealSize s2 = myStringRealSize str ∧ s2 = str) ∧
      s2.stringSize = str.stringSize ∧
      s2.stringArray.take (min (myStringRealSize str) N) =
        str.stringArray.take (min (myStringRealSize str) N) := by
  simp only [myStringRealSize] at hlen ⊢
  obtain ⟨h1, h2, _, h4, h5, _⟩ := reSizeStringArray_of_success outcome str N s2 hlen h
  refine ⟨fun hc => ?_, fun hc => ?_, h1, h4⟩
  · rw [h2]; simp [policy, hc]
  · have := h5 hc
    exact ⟨by rw [this], this⟩

theorem reSizeStringArray_policy_witness :
    (myStringRealSize ⟨[104, 105, 0], 2, 3⟩ < 5 ∨ myStringRealSize ⟨[104, 105, 0], 2, 3⟩ - 5 > 16 →
        myStringRealSize ⟨[104, 105, 0, 7, 7], 2, 5⟩ = 5) ∧
      (¬ (myStringRealSize ⟨[104, 105, 0], 2, 3⟩ < 5 ∨
          myStringRealSize ⟨[104, 105, 0], 2, 3⟩ - 5 > 16) →
        myStringRealSize ⟨[104, 105, 0, 7, 7], 2, 5⟩ = myStringRealSize ⟨[104, 105, 0], 2, 3⟩ ∧
          (⟨[104, 105, 0, 7, 7], 2, 5⟩ : MyString) = ⟨[104, 105, 0], 2, 3⟩) ∧
      MyString.stringSize ⟨[104, 105, 0, 7, 7], 2, 5⟩ = MyString.stringSize ⟨[104, 105, 0], 2, 3⟩ ∧
      (MyString.stringArray ⟨[104, 105, 0, 7, 7], 2, 5⟩).take
          (min (myStringRealSize ⟨[104, 105, 0], 2, 3⟩) 5) =
        (MyString.stringArray ⟨[104, 105, 0], 2, 3⟩).take
          (min (myStringRealSize ⟨[104, 105, 0], 2, 3⟩) 5) :=
  reSizeStringArray_policy (some fun _ => 7) ⟨[104, 105, 0], 2, 3⟩ 5 ⟨[104, 105, 0, 7, 7], 2, 5⟩
    (by decide) (by decide)

set_option maxRecDepth 100000 in
/-- C31, at an instance holding `5` in a block of 1 set from the integer 123456, and at an
instance holding `ab` in a block of 2 to which `cd` is appended, when the reallocation fails:
the resize for 6 chars returns `MYSTRING_ERROR` and `myStringSetFromInt` returns
`MYSTRING_SUCCESS`, leaving the length 6 with the capacity 1; `myStringCatTo` into the
temporary returns success, the final `myStringSetFromMyString` returns `MYSTRING_ERROR`, and
`myStringCat` returns `MYSTRING_SUCCESS`. -/
theorem resize_failure_not_reported (E : Int) (junk : Nat → Int) :
    MyString.Valid ⟨[53], 1, 1⟩ ∧
      (reSizeStringArray none ⟨[53], 1, 1⟩ 6).1 = MYSTRING_ERROR ∧
      (myStringSetFromInt none (some ⟨[53], 1, 1⟩) 123456).1 = MYSTRING_SUCCESS ∧
      (myStringSetFromInt none (some ⟨[53], 1, 1⟩) 123456).2.map
        (fun s => (s.stringSize, s.realSize)) = some (6, 1) ∧
      (shortStore 0).Valid ∧ (shortStore 1).Valid ∧
      (myStringCatTo E none (Function.update shortStore 2 (myStringAlloc junk)) (some 0) (some 1)
        (some 2)).1 = MYSTRING_SUCCESS ∧
      (myStringSetFromMyString E none (some (shortStore 0))
        (some ⟨[97, 98, 99, 100] ++ List.replicate 12 0, 4, 16⟩)).1 = MYSTRING_ERROR ∧
      (myStringCat E junk none none shortStore 2 (some 0) (some 1)).1 = MYSTRING_SUCCESS := by
  have hcat : myStringCatTo E none (Function.update shortStore 2 (myStringAlloc junk)) (some 0)
      (some 1) (some 2) = (MYSTRING_SUCCESS, Function.update shortStore 2
        ⟨[97, 98, 99, 100] ++ List.replicate 12 0, 4, 16⟩) := by
    have e0 : Function.update shortStore 2 (myStringAlloc junk) 0 = ⟨[97, 98], 2, 2⟩ := by
      simp [Function.update, shortStore]
    have e1 : Function.update shortStore 2 (myStringAlloc junk) 1 = ⟨[99, 100], 2, 2⟩ := by
      simp [Function.update, shortStore]
    have e2 : Function.update shortStore 2 (myStringAlloc junk) 2 =
        ⟨List.replicate 16 0, 0, 16⟩ := by
      simp [Function.update, myStringAlloc_eq]
    have hre := reSizeStringArray_unchanged none ⟨List.replicate 16 0, 0, 16⟩ 4 (by decide)
      (by decide)
    simp only [myStringCatTo, myStringLen, e0, e1, e2, Function.update_same,
      Function.update_idem]
    simp only [show ((2 : Nat) + 2) % 2 ^ 64 = 4 by norm_num, hre]
    simp [Function.update_idem, memcpy, memcpyAt, shortStore, List.replicate]
  refine ⟨by decide, by decide, rfl, by decide, by decide, by decide, by rw [hcat], ?_, ?_⟩
  · simp [myStringSetFromMyString, myStringLen, reSizeStringArray, myStringRealSize, realloc,
      shortStore]
  · unfold myStringCat
    simp only [hcat]

/-! ## Text that is not canonical, and canonical text -/

theorem decimalValue_leading_zeros (k : Nat) (ds : List Nat) :
    decimalValue (List.replicate k 0 ++ ds) = decimalValue ds := by
  induction k with
  | zero => simp
  | succ k ih =>
    rw [List.replicate_succ, List.cons_append]
    unfold decimalValue at ih ⊢
    rw [List.reverse_cons, Nat.ofDigits_append, ih]
    simp [Nat.ofDigits]

theorem myStringToInt_minus (E : Int) (t : MyString) (h1 : t.stringSize = 1)
    (h0 : readChar t.stringArray 0 = 45) : myStringToInt E (some t) = 0 := by
  simp [myStringToInt, myStringLen, h1, myStringToIntFrom, h0, toInt32, NINE, ZERO, MINUS,
    FIRST_INDEX, NEGATIVE, POSITIVE, EMPTY, CHAR_TO_INT]

/-- C38: `myStringToInt` accepts text that is not canonical.  For the content `-` alone it
returns 0; `-0` gives 0 and `007` gives 7; in general digits after any number of leading
zeros, after an optional `'-'`, give the value of the digits, negated after the `'-'`. -/
theorem myStringToInt_lone_sign (E : Int) (s : MyString) (neg : Bool) (k : Nat) (ds : List Nat)
    (hs : s.Valid) (hne : ds ≠ []) (hd : ∀ d ∈ ds, d < 10) (hfit : decimalValue ds < 2 ^ 31)
    (hc : s.content = (if neg then [MINUS] else []) ++ digitChars (List.replicate k 0 ++ ds)) :
    myStringToInt E (some s) = (if neg then -1 else 1) * (decimalValue ds : Int) ∧
      (∀ t : MyString, t.Valid → t.content = [MINUS] → myStringToInt E (some t) = 0) ∧
      myStringToInt E (some ⟨[45], 1, 1⟩) = 0 ∧
      myStringToInt E (some ⟨[45, 48], 2, 2⟩) = 0 ∧
      myStringToInt E (some ⟨[48, 48, 55], 3, 3⟩) = 7 := by
  refine ⟨?_, ?_, ?_, ?_, ?_⟩
  · have h := myStringToInt_decimal E s neg (List.replicate k 0 ++ ds) hs (by simp [hne])
      (by
        intro d hd'
        rcases List.mem_append.mp hd' with h | h
        · rw [List.eq_of_mem_replicate h]; norm_num
        · exact hd d h)
      (by rw [decimalValue_leading_zeros]; exact hfit) hc
    rw [h, decimalValue_leading_zeros]
  · intro t ht htc
    have hlen := content_length t ht
    rw [htc] at hlen
    have h1 : t.stringSize = 1 := by simpa using hlen.symm
    have h0 : readChar t.stringArray 0 = 45 := readChar_of_content t [MINUS] htc 0 (by simp)
    exact myStringToInt_minus E t h1 h0
  · exact myStringToInt_minus E _ rfl rfl
  · have := myStringToInt_decimal E ⟨[45, 48], 2, 2⟩ true [0] (by decide) (by decide)
      (by decide) (by decide) (by decide)
    rw [this]; decide
  · have := myStringToInt_decimal E ⟨[48, 48, 55], 3, 3⟩ false [0, 0, 7] (by decide)
      (by decide) (by decide) (by decide) (by decide)
    rw [this]; decide

theorem myStringToInt_lone_sign_witness :
    myStringToInt 3 (some ⟨[45, 48, 48, 49, 50, 0], 5, 6⟩) =
      (if true then -1 else 1) * (decimalValue [1, 2] : Int) :=
  (myStringToInt_lone_sign 3 ⟨[45, 48, 48, 49, 50, 0], 5, 6⟩ true 2 [1, 2] (by decide)
    (by decide) (by decide) (by decide) (by decide)).1

theorem canonicalDigits_decimalValue (ds : List Nat) (hne : ds ≠ []) (hd : ∀ d ∈ ds, d < 10)
    (hcanon : ds = [0] ∨ ds.head? ≠ some 0) :
    canonicalDigits (decimalValue ds) = ds ∧ (ds.head? ≠ some 0 → decimalValue ds ≠ 0) := by
  have key : ds.head? ≠ some 0 →
      canonicalDigits (decimalValue ds) = ds ∧ decimalValue ds ≠ 0 := by
    intro h
    have hdig : Nat.digits 10 (Nat.ofDigits 10 ds.reverse) = ds.reverse := by
      apply Nat.digits_ofDigits 10 (by norm_num)
      · intro l hl
        exact hd l (List.mem_reverse.mp hl)
      · intro hr
        rw [List.getLast_reverse]
        intro h0
        apply h
        rw [List.head?_eq_head hne, h0]
    have hv : Nat.ofDigits 10 ds.reverse ≠ 0 := by
      intro h0
      rw [h0, Nat.digits_zero] at hdig
      exact hne (List.reverse_eq_nil_iff.mp hdig.symm)
    unfold canonicalDigits decimalValue
    rw [if_neg hv, hdig, List.reverse_reverse]
    exact ⟨rfl, hv⟩
  rcases hcanon with h | h
  · subst h
    exact ⟨by decide, fun h => absurd rfl h⟩
  · exact ⟨(key h).1, fun _ => (key h).2⟩

theorem digitChars_ne_zero (ds : List Nat) : ∀ c ∈ digitChars ds, c ≠ 0 := by
  intro c hc
  simp only [digitChars, List.mem_map] at hc
  obtain ⟨d, _, rfl⟩ := hc
  omega

/-- C39: for canonical decimal text, that is the digit `0` alone or an optional `'-'` followed
by digits of which the first is not `0`, with a value strictly between `-2^31` and `2^31`:
a valid instance set from the text holds it, `myStringToInt` returns its value, and
`myStringSetFromInt` of that value (successful reallocations) leaves exactly the text. -/
theorem canonical_text_round_trip (E : Int) (junkT grown grown2 : Nat → Int)
    (d t : MyString) (neg : Bool) (ds : List Nat) (rest : List Int) (hdv : d.Valid)
    (ht : t.Valid) (hne : ds ≠ []) (hd : ∀ x ∈ ds, x < 10)
    (hcanon : (ds = [0] ∧ neg = false) ∨ ds.head? ≠ some 0)
    (hfit : decimalValue ds < 2 ^ 31) :
    ∃ str t2,
      myStringSetFromCString E junkT (some grown) (some d)
          (some (((if neg then [MINUS] else []) ++ digitChars ds) ++ 0 :: rest)) =
        (MYSTRING_SUCCESS, some str) ∧
      str.content = (if neg then [MINUS] else []) ++ digitChars ds ∧
      myStringToInt E (some str) = (if neg then -1 else 1) * (decimalValue ds : Int) ∧
      myStringSetFromInt (some grown2) (some t) (myStringToInt E (some str)) =
        (MYSTRING_SUCCESS, some t2) ∧
      t2.content = (if neg then [MINUS] else []) ++ digitChars ds := by
  obtain ⟨hcd, hnz⟩ := canonicalDigits_decimalValue ds hne hd
    (hcanon.elim (fun h => Or.inl h.1) Or.inr)
  have hnul : ∀ c ∈ (if neg then [MINUS] else []) ++ digitChars ds, c ≠ 0 := by
    intro c hc
    rcases List.mem_append.mp hc with h | h
    · cases neg with
      | false => simp at h
      | true =>
        simp only [if_true, List.mem_singleton] at h
        rw [h]; decide
    · exact digitChars_ne_zero ds c h
  have hdl : ds.length ≤ 10 := by
    have h1 := canonicalDigits_length (decimalValue ds)
    rw [hcd] at h1
    have h2 := digits_length_le_ten (decimalValue ds) hfit
    split at h1 <;> omega
  obtain ⟨b, hb, hblen, hle, htake⟩ := setFromCString_spec E junkT grown d
    ((if neg then [MINUS] else []) ++ digitChars ds) rest hnul hdv.1
  have htl : ((if neg then [MINUS] else []) ++ digitChars ds).length ≤ 11 := by
    rw [List.length_append, digitChars_length]
    cases neg <;> simp <;> omega
  have hv : MyString.Valid ⟨b, ((if neg then [MINUS] else []) ++ digitChars ds).length,
      policy d.realSize
        (if ((if neg then [MINUS] else []) ++ digitChars ds).length = 0 then 16
          else ((if neg then [MINUS] else []) ++ digitChars ds).length)⟩ := by
    refine ⟨hblen, hblen ▸ hle, ?_⟩
    apply policy_lt _ _ hdv.2.2
    generalize ((if neg then [MINUS] else []) ++ digitChars ds).length = len at htl
    split <;> omega
  have hcontent : MyString.content ⟨b, ((if neg then [MINUS] else []) ++ digitChars ds).length,
      policy d.realSize
        (if ((if neg then [MINUS] else []) ++ digitChars ds).length = 0 then 16
          else ((if neg then [MINUS] else []) ++ digitChars ds).length)⟩ =
      (if neg then [MINUS] else []) ++ digitChars ds := htake
  have hint := myStringToInt_decimal E _ neg ds hv hne hd hfit hcontent
  have hrange1 : -2 ^ 31 < (if neg then -1 else 1) * (decimalValue ds : Int) := by
    cases neg <;> simp <;> omega
  have hrange2 : (if neg then -1 else 1) * (decimalValue ds : Int) < 2 ^ 31 := by
    cases neg <;> simp <;> omega
  obtain ⟨t2, hset, _, hc2, _, _⟩ := myStringSetFromInt_valid grown2 t ht
    ((if neg then -1 else 1) * (decimalValue ds : Int)) hrange1 hrange2
  refine ⟨_, t2, hb, hcontent, hint, by rw [hint]; exact hset, ?_⟩
  rw [hc2]
  unfold decimalChars
  cases neg with
  | false =>
    simp only [Bool.false_eq_true, if_false, one_mul, Int.natAbs_ofNat, hcd]
    have : ¬ ((decimalValue ds : Int) < 0) := by omega
    simp only [this, if_false]
  | true =>
    have hh : ds.head? ≠ some 0 := by
      rcases hcanon with h | h
      · exact absurd h.2 (by decide)
      · exact h
    have hpos := hnz hh
    have hlt : (-1 : Int) * (decimalValue ds : Int) < 0 := by omega
    have habs : ((-1 : Int) * (decimalValue ds : Int)).natAbs = decimalValue ds := by omega
    simp only [if_true, hlt, habs, hcd]

theorem canonical_text_round_trip_witness :
    ∃ str t2,
      myStringSetFromCString 0 (fun _ => 1) (some fun _ => 2) (some ⟨[104, 105, 0], 2, 3⟩)
          (some (((if true then [MINUS] else []) ++ digitChars [4, 2]) ++ 0 :: [9])) =
        (MYSTRING_SUCCESS, some str) ∧
      str.content = (if true then [MINUS] else []) ++ digitChars [4, 2] ∧
      myStringToInt 0 (some str) = (if true then -1 else 1) * (decimalValue [4, 2] : Int) ∧
      myStringSetFromInt (some fun _ => 3) (some ⟨[120], 1, 1⟩) (myStringToInt 0 (some str)) =
        (MYSTRING_SUCCESS, some t2) ∧
      t2.content = (if true then [MINUS] else []) ++ digitChars [4, 2] :=
  canonical_text_round_trip 0 (fun _ => 1) (fun _ => 2) (fun _ => 3) ⟨[104, 105, 0], 2, 3⟩
    ⟨[120], 1, 1⟩ true [4, 2] [9] (by decide) (by decide) (by decide) (by decide)
    (Or.inr (by decide)) (by decide)

/-! ## Contents without a null byte -/

/-- A successful `reSizeStringArray` is one that a successful reallocation also gives; it was
not asked to shrink a block to zero bytes. -/
theorem reSizeStringArray_lift (outcome : Option (Nat → Int)) (str : MyString) (n : Nat)
    (s2 : MyString) (h : reSizeStringArray outcome str n = (MYSTRING_SUCCESS, s2)) :
    ∃ grown, reSizeStringArray (some grown) str n = (MYSTRING_SUCCESS, s2) ∧
      (n ≠ 0 ∨ str.realSize ≤ 16) := by
  unfold reSizeStringArray myStringRealSize at h ⊢
  by_cases hc : str.realSize < n ∨ str.realSize - n > 16
  · by_cases hn : n = 0
    · have h16 : 16 < str.realSize := by subst hn; omega
      simp [realloc, hn, h16] at h
    · cases outcome with
      | none => simp [hc, realloc, hn] at h
      | some junk => exact ⟨junk, h, Or.inl hn⟩
  · refine ⟨fun _ => 0, ?_, ?_⟩
    · simpa [hc] using h
    · by_cases hn : n = 0
      · right; subst hn; omega
      · left; exact hn

theorem setFromMyString_lift (E : Int) (outcome : Option (Nat → Int)) (dst src d2 : MyString)
    (h : myStringSetFromMyString E outcome (some dst) (some src) =
      (MYSTRING_SUCCESS, some d2)) :
    ∃ grown, myStringSetFromMyString E (some grown) (some dst) (some src) =
      (MYSTRING_SUCCESS, some d2) := by
  cases hre : reSizeStringArray outcome { dst with stringSize := src.stringSize }
    (if src.stringSize = 0 then 16 else src.stringSize) with
  | mk ret s1 =>
    cases ret with
    | MYSTRING_ERROR =>
      simp only [myStringSetFromMyString, myStringLen, hre] at h
      exact absurd (congrArg Prod.fst h) (by simp)
    | MYSTRING_SUCCESS =>
      obtain ⟨grown, hg, _⟩ := reSizeStringArray_lift _ _ _ _ hre
      refine ⟨grown, ?_⟩
      simp only [myStringSetFromMyString, myStringLen, hre] at h
      simp only [myStringSetFromMyString, myStringLen, hg]
      exact h

theorem setFromCString_lift (E : Int) (junk : Nat → Int) (outcome : Option (Nat → Int))
    (dst : MyString) (cs : List Int) (d2 : MyString) (h0 : getCStringLength cs ≠ 0)
    (h : myStringSetFromCString E junk outcome (some dst) (some cs) =
      (MYSTRING_SUCCESS, some d2)) :
    ∃ grown, myStringSetFromCString E junk (some grown) (some dst) (some cs) =
      (MYSTRING_SUCCESS, some d2) := by
  cases hre : reSizeStringArray outcome dst (getCStringLength cs) with
  | mk ret s1 =>
    cases ret with
    | MYSTRING_ERROR =>
      simp only [myStringSetFromCString, EMPTY, h0, if_false, hre] at h
      exact absurd (congrArg Prod.fst h) (by simp)
    | MYSTRING_SUCCESS =>
      obtain ⟨grown, hg, _⟩ := reSizeStringArray_lift _ _ _ _ hre
      refine ⟨grown, ?_⟩
      simp only [myStringSetFromCString, EMPTY, h0, if_false, hre] at h
      simp only [myStringSetFromCString, EMPTY, h0, if_false, hg]
      exact h

theorem myStringCatTo_lift (E : Int) (outcome : Option (Nat → Int)) (mem : Nat → MyString)
    (p1 p2 r : Nat) (mem2 : Nat → MyString)
    (h : myStringCatTo E outcome mem (some p1) (some p2) (some r) = (MYSTRING_SUCCESS, mem2)) :
    r ≠ p1 ∧ r ≠ p2 ∧
      ∃ grown, myStringCatTo E (some grown) mem (some p1) (some p2) (some r) =
          (MYSTRING_SUCCESS, mem2) ∧
        (((mem p1).stringSize + (mem p2).stringSize) % 2 ^ 64 ≠ 0 ∨ (mem r).realSize ≤ 16) := by
  by_cases hc : some r = some p1 ∨ some r = some p2
  · simp only [myStringCatTo, hc, if_true] at h
    exact absurd (congrArg Prod.fst h) (by simp)
  · have hr1 : r ≠ p1 := fun e => hc (Or.inl (by rw [e]))
    have hr2 : r ≠ p2 := fun e => hc (Or.inr (by rw [e]))
    refine ⟨hr1, hr2, ?_⟩
    cases hre : reSizeStringArray outcome (mem r)
      (((mem p1).stringSize + (mem p2).stringSize) % 2 ^ 64) with
    | mk ret s1 =>
      cases ret with
      | MYSTRING_ERROR =>
        simp only [myStringCatTo, hc, if_false, myStringLen, hre] at h
        exact absurd (congrArg Prod.fst h) (by simp)
      | MYSTRING_SUCCESS =>
        obtain ⟨grown, hg, hn⟩ := reSizeStringArray_lift _ _ _ _ hre
        refine ⟨grown, ?_, hn⟩
        simp only [myStringCatTo, hc, if_false, myStringLen, hre] at h
        simp only [myStringCatTo, hc, if_false, myStringLen, hg]
        exact h

theorem decimalChars_ne_zero (n : Int) : ∀ c ∈ decimalChars n, c ≠ 0 := by
  intro c hc
  unfold decimalChars at hc
  rcases List.mem_append.mp hc with h | h
  · split at h
    · simp only [List.mem_singleton] at h
      rw [h]; decide
    · simp at h
  · exact digitChars_ne_zero _ c h

theorem decimalChars_length_pos (n : Int) : 1 ≤ (decimalChars n).length := by
  unfold decimalChars
  have h := (canonicalDigits_spec n.natAbs).1
  have : 1 ≤ (canonicalDigits n.natAbs).length := List.length_pos.mpr h
  rw [List.length_append, digitChars_length]
  omega

/-- Every instance the operations build while the reallocations of `myStringSetFromInt` and
`myStringCat` succeed is valid, has a block of at least one byte, and has no null byte in its
content. -/
theorem reachable_invariant (E : Int) (s : MyString) (h : ReachableWithMemory E s) :
    s.Valid ∧ 1 ≤ s.realSize ∧ ∀ c ∈ s.content, c ≠ 0 := by
  unfold ReachableWithMemory at h
  induction h with
  | alloc junk =>
    rw [myStringAlloc_eq]
    exact ⟨by decide, by decide, by simp [MyString.content]⟩
  | setFromCString junk outcome d d2 t rest _ ht hset hlim ih =>
    obtain ⟨hv, h1, _⟩ := ih
    simp only [myStringRealSize] at hlim
    have hlen := getCStringLength_terminated t rest ht
    by_cases h0 : t.length = 0
    · have hcs : getCStringLength (t ++ 0 :: rest) = 0 := by rw [hlen, h0]
      have hsize := (setFromCString_success E junk outcome d _ d2 hset).1
      rw [hcs] at hsize
      have hnil : d2.content = [] := by simp [MyString.content, hsize]
      have hmap : myStringSetFromCString E junk outcome (some d) (some (t ++ 0 :: rest)) =
          (MYSTRING_SUCCESS,
            (myStringSetFromMyString E outcome (some d) (some (myStringAlloc junk))).2.map
              fun s => { s with stringSize := 0 }) := by
        simp only [myStringSetFromCString, hcs, EMPTY, if_true]
      rw [hmap] at hset
      rcases setFromMyString_cases E outcome d (myStringAlloc junk) with he | ⟨b, hs⟩
      · rw [he] at hset
        simp only [Option.map_some', Prod.mk.injEq, true_and, Option.some.injEq] at hset
        subst hset
        exact ⟨⟨hv.1, Nat.zero_le _, hv.2.2⟩, h1, by simp [MyString.content]⟩
      · obtain ⟨grown, hg⟩ := setFromMyString_lift E outcome d (myStringAlloc junk) _ hs
        obtain ⟨b2, hb2, hb2len, _⟩ := setFromMyString_spec E grown d (myStringAlloc junk)
          hv.1 (by rw [myStringAlloc_eq]; simp) (by rw [myStringAlloc_eq]; simp)
        rw [hg] at hb2
        simp only [Prod.mk.injEq, true_and, Option.some.injEq, MyString.mk.injEq] at hb2
        rw [hs] at hset
        simp only [Option.map_some', Prod.mk.injEq, true_and, Option.some.injEq] at hset
        subst hset
        refine ⟨⟨?_, Nat.zero_le _, hlim⟩, ?_, by simp [MyString.content]⟩
        · simp only
          rw [hb2.1]
          exact hb2len
        · simp only
          refine le_trans ?_ (le_policy _ _)
          split <;> omega
    · have hcs : getCStringLength (t ++ 0 :: rest) ≠ 0 := by rw [hlen]; exact h0
      obtain ⟨grown, hg⟩ := setFromCString_lift E junk outcome d _ d2 hcs hset
      obtain ⟨b, hb, hblen, hle, htake⟩ := setFromCString_spec E junk grown d t rest ht hv.1
      rw [hg] at hb
      simp only [Prod.mk.injEq, true_and, Option.some.injEq] at hb
      subst hb
      refine ⟨⟨hblen, hblen ▸ hle, hlim⟩, ?_, ?_⟩
      · simp only
        refine le_trans ?_ (le_policy _ _)
        split <;> omega
      · simp only [MyString.content, htake]
        exact ht
  | setFromInt outcome s s2 n _ hP hn1 hn2 hset ih =>
    obtain ⟨grown, rfl⟩ := Option.isSome_iff_exists.mp hP
    obtain ⟨hv, _, _⟩ := ih
    obtain ⟨s3, h3, hv3, hc3, hsz, _⟩ := myStringSetFromInt_valid grown s hv n hn1 hn2
    rw [hset] at h3
    simp only [Prod.mk.injEq, true_and, Option.some.injEq] at h3
    subst h3
    refine ⟨hv3, ?_, ?_⟩
    · have := decimalChars_length_pos n
      have := hv3.2.1
      omega
    · rw [hc3]
      exact decimalChars_ne_zero n
  | setFromMyString outcome d s d2 _ _ hset ihd ihs =>
    obtain ⟨hvd, _, _⟩ := ihd
    obtain ⟨hvs, hs1, hsn⟩ := ihs
    obtain ⟨grown, hg⟩ := setFromMyString_lift E outcome d s d2 hset
    obtain ⟨b, hb, hblen, htake⟩ := setFromMyString_spec E grown d s hvd.1
      (by rw [hvs.1]; exact hvs.2.1) (fun _ => by rw [hvs.1]; exact hs1)
    rw [hg] at hb
    simp only [Prod.mk.injEq, true_and, Option.some.injEq] at hb
    subst hb
    have hN : (if s.stringSize = 0 then 16 else s.stringSize) < 2 ^ 63 := by
      have := hvs.2.1
      have := hvs.2.2
      split <;> omega
    refine ⟨⟨hblen, ?_, policy_lt _ _ hvd.2.2 hN⟩, ?_, ?_⟩
    · simp only
      refine le_trans ?_ (le_policy _ _)
      split <;> omega
    · simp only
      refine le_trans ?_ (le_policy _ _)
      split <;> omega
    · simp only [MyString.content, htake]
      exact hsn
  | filter junk s s2 filt _ hset ih =>
    obtain ⟨hv, h1, hn⟩ := ih
    obtain ⟨s3, h3, hc3, _, hr3, hv3⟩ := myStringFilter_content E junk s hv filt
    rw [hset] at h3
    simp only [Prod.mk.injEq, true_and, Option.some.injEq] at h3
    subst h3
    refine ⟨hv3, by rw [hr3]; exact h1, ?_⟩
    rw [hc3]
    intro c hc
    exact hn c (List.mem_of_mem_filter hc)
  | clone junk outcome s c _ hset ih =>
    obtain ⟨hv, h1, hn⟩ := ih
    rw [myStringClone_spec E junk outcome s hv] at hset
    simp only [Option.some.injEq] at hset
    subst hset
    by_cases h0 : s.stringSize = 0
    · rw [if_pos h0, myStringAlloc_eq]
      exact ⟨by decide, by decide, by simp [MyString.content]⟩
    · rw [if_neg h0]
      refine ⟨⟨content_length s hv, Nat.le_refl _, lt_of_le_of_lt hv.2.1 hv.2.2⟩, ?_, ?_⟩
      · simp only; omega
      · simp only [MyString.content, List.take_take, Nat.min_self]
        exact hn
  | catTo outcome mem mem2 p1 p2 r _ _ _ hset hlim ih1 ih2 ihr =>
    obtain ⟨hv1, _, hn1⟩ := ih1
    obtain ⟨hv2, _, hn2⟩ := ih2
    obtain ⟨hvr, hr1, _⟩ := ihr
    simp only [myStringRealSize] at hlim
    obtain ⟨hne1, hne2, grown, hg, hn⟩ := myStringCatTo_lift E outcome mem p1 p2 r mem2 hset
    have htot : ((mem p1).stringSize + (mem p2).stringSize) % 2 ^ 64 =
        (mem p1).stringSize + (mem p2).stringSize := by
      have := hv1.2.1
      have := hv1.2.2
      have := hv2.2.1
      have := hv2.2.2
      exact Nat.mod_eq_of_lt (by omega)
    rw [htot] at hn
    obtain ⟨b, hb, hblen, htake⟩ := myStringCatTo_spec E grown mem p1 p2 r hne1 hne2 hv1 hv2
      hvr.1 hn
    rw [hg] at hb
    simp only [Prod.mk.injEq, true_and] at hb
    subst hb
    simp only [Function.update_same] at hlim ⊢
    refine ⟨⟨hblen, le_policy _ _, hlim⟩, ?_, ?_⟩
    · simp only [policy]
      split <;> omega
    · simp only [MyString.content, htake]
      intro c hc
      rcases List.mem_append.mp hc with h | h
      · exact hn1 c h
      · exact hn2 c h
  | cat junk outcomeCat outcomeSet mem mem2 t d s _ _ hP1 hP2 htd hts hset hlim ihd ihs =>
    obtain ⟨grownCat, rfl⟩ := Option.isSome_iff_exists.mp hP1
    obtain ⟨grownSet, rfl⟩ := Option.isSome_iff_exists.mp hP2
    obtain ⟨hvd, _, hnd⟩ := ihd
    obtain ⟨hvs, _, hns⟩ := ihs
    simp only [myStringRealSize] at hlim
    obtain ⟨m3, h3, hc3, _, hl3, hle3, _⟩ :=
      myStringCat_spec E junk grownCat grownSet mem t d s htd hts hvd hvs
    obtain ⟨m4, h4, _, hr4⟩ :=
      myStringCat_sizes E junk grownCat grownSet mem t d s htd hts hvd hvs
    rw [hset] at h3 h4
    simp only [Prod.mk.injEq, true_and] at h3 h4
    subst h3
    refine ⟨⟨hl3, hle3, hlim⟩, ?_, ?_⟩
    · rw [← h4] at hr4
      rw [hr4]
      refine le_trans ?_ (le_policy _ _)
      split <;> omega
    · rw [hc3]
      intro c hc
      rcases List.mem_append.mp hc with h | h
      · exact hnd c h
      · exact hns c h

/-- When the reallocations of `myStringSetFromInt` and `myStringCat` succeed, an instance
built from what `myStringAlloc` returns by successful calls has no null byte among the chars
of its content, and the C string `myStringToCString` returns for it (successful `malloc`) has
the length `myStringLen` gives. -/
theorem reachableWithMemory_nul_free (E : Int) (fresh : Nat → Int) (s : MyString)
    (h : ReachableWithMemory E s) :
    (∀ i, i < myStringLen E (some s) → readChar s.stringArray i ≠ 0) ∧
      (∀ c ∈ s.content, c ≠ 0) ∧
      ∃ cString, myStringToCString E (some fresh) (some s) = some cString ∧
        getCStringLength cString = myStringLen E (some s) := by
  obtain ⟨hv, _, hn⟩ := reachable_invariant E s h
  have hsl : s.stringSize ≤ s.stringArray.length := by rw [hv.1]; exact hv.2.1
  refine ⟨?_, hn, s.content ++ [0], myStringToCString_content E fresh s hsl, ?_⟩
  · intro i hi
    simp only [myStringLen] at hi
    have hcl := content_length s hv
    rw [readChar_of_content s s.content rfl i (by omega)]
    apply hn
    rw [List.getD_eq_getElem _ _ (by omega)]
    exact List.getElem_mem _
  · rw [getCStringLength_terminated s.content [] hn]
    exact content_length s hv

set_option maxRecDepth 100000 in
theorem reachableWithMemory_nul_free_witness :
    ∃ cString, myStringToCString 0 (some fun _ => 1) (some ⟨53 :: List.replicate 15 0, 1, 16⟩) =
        some cString ∧
      getCStringLength cString = myStringLen 0 (some ⟨53 :: List.replicate 15 0, 1, 16⟩) :=
  (reachableWithMemory_nul_free 0 (fun _ => 1) ⟨53 :: List.replicate 15 0, 1, 16⟩
    (ReachableUnder.setFromInt (some fun _ => 3) (myStringAlloc fun _ => 2) _ 5
      (ReachableUnder.alloc fun _ => 2) rfl (by decide) (by decide) (by decide))).2.2

/-! ## Successful calls whose reallocation failed

`myStringSetFromInt` does not look at what `reSizeStringArray` returns, and `myStringCat` does
not look at what its final `myStringSetFromMyString` returns: both return
`MYSTRING_SUCCESS` when the reallocation failed.  The instances below are built by calls that
all return success. -/

/-- The clone of a fresh instance set from the C string `5` holds `5` in a block of 1. -/
theorem reachable_five (E : Int) : Reachable E ⟨[53], 1, 1⟩ :=
  ReachableUnder.clone (fun _ => 0) none ⟨53 :: List.replicate 15 0, 1, 16⟩ _
    (ReachableUnder.setFromCString (fun _ => 0) none (myStringAlloc fun _ => 0) _ [53] []
      (ReachableUnder.alloc _) (by decide) (by rfl) (by decide)) (by rfl)

/-- The instances of `shortStore` are clones of fresh instances set from the C strings `ab`
and `cd`. -/
theorem reachable_shortStore (E : Int) (p : Nat) : Reachable E (shortStore p) := by
  by_cases hp : p = 1
  · have e : shortStore p = ⟨[99, 100], 2, 2⟩ := by simp [shortStore, hp]
    rw [e]
    exact ReachableUnder.clone (fun _ => 0) none ⟨99 :: 100 :: List.replicate 14 0, 2, 16⟩ _
      (ReachableUnder.setFromCString (fun _ => 0) none (myStringAlloc fun _ => 0) _ [99, 100] []
        (ReachableUnder.alloc _) (by decide) (by rfl) (by decide)) (by rfl)
  · have e : shortStore p = ⟨[97, 98], 2, 2⟩ := by simp [shortStore, hp]
    rw [e]
    exact ReachableUnder.clone (fun _ => 0) none ⟨97 :: 98 :: List.replicate 14 0, 2, 16⟩ _
      (ReachableUnder.setFromCString (fun _ => 0) none (myStringAlloc fun _ => 0) _ [97, 98] []
        (ReachableUnder.alloc _) (by decide) (by rfl) (by decide)) (by rfl)

/-- The instance holding `5` in a block of 1, set from 123456 while the reallocation fails:
the call returns success and leaves the length 6 with the block of 1. -/
theorem reachable_setFromInt_overfull (E : Int) : Reachable E ⟨[49], 6, 1⟩ :=
  ReachableUnder.setFromInt none ⟨[53], 1, 1⟩ _ 123456 (reachable_five E) trivial (by decide)
    (by decide) (by rfl)

/-- The instance holding `ab` in a block of 2 to which `cd` is appended while the final
reallocation fails: the call returns success and leaves the length 4 with the block of 2. -/
theorem reachable_cat_overfull (E : Int) (junk : Nat → Int) : Reachable E ⟨[97, 98], 4, 2⟩ := by
  have h := @ReachableUnder.cat E (fun _ => True) junk none none shortStore
    (myStringCat E junk none none shortStore 2 (some 0) (some 1)).2 2 0 1
    (reachable_shortStore E 0) (reachable_shortStore E 1) trivial trivial (by decide)
    (by decide) (Prod.ext (by rfl) rfl) (by show (2 : Nat) < 2 ^ 63; decide)
  exact h

/-- C23, at the clone of a fresh instance set from `5`, then set from the integer 123456, and
at the clone of a fresh instance set from `ab`, to which `cd` is appended, when the
reallocation fails: every call returns success, the capacity is at least the length before
the last call, and after it the length (6, and 4) is above the capacity (1, and 2).  So an
instance built by successful calls of the public operations has a length above its
capacity. -/
theorem capacity_below_length_after_success (E : Int) (junk : Nat → Int) :
    myStringSetFromCString E junk none (some (myStringAlloc junk)) (some [53, 0]) =
        (MYSTRING_SUCCESS, some ⟨53 :: List.replicate 15 0, 1, 16⟩) ∧
      myStringClone E junk none (some ⟨53 :: List.replicate 15 0, 1, 16⟩) =
        some ⟨[53], 1, 1⟩ ∧
      myStringLen E (some ⟨[53], 1, 1⟩) ≤ myStringRealSize ⟨[53], 1, 1⟩ ∧
      myStringSetFromInt none (some ⟨[53], 1, 1⟩) 123456 =
        (MYSTRING_SUCCESS, some ⟨[49], 6, 1⟩) ∧
      ¬ myStringLen E (some ⟨[49], 6, 1⟩) ≤ myStringRealSize ⟨[49], 6, 1⟩ ∧
      Reachable E ⟨[49], 6, 1⟩ ∧
      myStringLen E (some (shortStore 0)) ≤ myStringRealSize (shortStore 0) ∧
      (myStringCat E junk none none shortStore 2 (some 0) (some 1)).1 = MYSTRING_SUCCESS ∧
      (myStringCat E junk none none shortStore 2 (some 0) (some 1)).2 0 = ⟨[97, 98], 4, 2⟩ ∧
      ¬ myStringLen E (some ⟨[97, 98], 4, 2⟩) ≤ myStringRealSize ⟨[97, 98], 4, 2⟩ ∧
      Reachable E ⟨[97, 98], 4, 2⟩ :=
  ⟨by rfl, by rfl, by simp [myStringLen, myStringRealSize], by rfl,
    by simp [myStringLen, myStringRealSize], reachable_setFromInt_overfull E,
    by simp [myStringLen, myStringRealSize, shortStore], by rfl, by rfl,
    by simp [myStringLen, myStringRealSize], reachable_cat_overfull E junk⟩

/-- C24, at the instance holding `5` in a block of 1 (the clone of a fresh instance set from
`5`) set from the integer 123456, and at the instance holding `ab` in a block of 2 to which
`cd` is appended, when the reallocation fails: the call returns success, the new length (6,
and 4) exceeds the old capacity (1, and 2), and the capacity after the call, still the old
one, is below the new length. -/
theorem hysteresis_broken_after_success (E : Int) (junk : Nat → Int) :
    Reachable E ⟨[53], 1, 1⟩ ∧
      myStringSetFromInt none (some ⟨[53], 1, 1⟩) 123456 =
        (MYSTRING_SUCCESS, some ⟨[49], 6, 1⟩) ∧
      myStringLen E (some ⟨[49], 6, 1⟩) > myStringRealSize ⟨[53], 1, 1⟩ ∧
      ¬ myStringRealSize ⟨[49], 6, 1⟩ ≥ myStringLen E (some ⟨[49], 6, 1⟩) ∧
      ¬ Hysteresis (myStringRealSize ⟨[53], 1, 1⟩) ⟨[49], 6, 1⟩ ∧
      Reachable E (shortStore 0) ∧ Reachable E (shortStore 1) ∧
      (myStringCat E junk none none shortStore 2 (some 0) (some 1)).1 = MYSTRING_SUCCESS ∧
      (myStringCat E junk none none shortStore 2 (some 0) (some 1)).2 0 = ⟨[97, 98], 4, 2⟩ ∧
      myStringLen E (some ⟨[97, 98], 4, 2⟩) > myStringRealSize (shortStore 0) ∧
      ¬ myStringRealSize ⟨[97, 98], 4, 2⟩ ≥ myStringLen E (some ⟨[97, 98], 4, 2⟩) ∧
      ¬ Hysteresis (myStringRealSize (shortStore 0)) ⟨[97, 98], 4, 2⟩ :=
  ⟨reachable_five E, by rfl, by simp [myStringLen, myStringRealSize],
    by simp [myStringLen, myStringRealSize], by decide, reachable_shortStore E 0,
    reachable_shortStore E 1, by rfl, by rfl, by simp [myStringLen, myStringRealSize, shortStore],
    by simp [myStringLen, myStringRealSize], by decide⟩

/-- C37, at the instance holding `ab` in a block of 2 (the clone of a fresh instance set from
`ab`) to which `cd` is appended, and at the clone of a fresh instance set from `5`, then set
from the integer 123456 (above the least `int`), when the reallocation fails: every call
returns success, the instances before the last call have no null byte in their contents, and
after it the instance has the length 4 with a block of 2 bytes, and the length 6 with a block
of 1 byte.  Its first `length` bytes are not all bytes of its block: the content is shorter
than the length, and the char at the offset 2, and 1, below the length and outside of the
block, reads as the null byte in the model (`myStringSetFromInt` writes five digits past the
end of the block, which the model drops). -/
theorem nul_free_broken_after_success (E : Int) (junk : Nat → Int) :
    Reachable E (shortStore 0) ∧ Reachable E (shortStore 1) ∧
      (shortStore 0).content = [97, 98] ∧ (shortStore 1).content = [99, 100] ∧
      (myStringCat E junk none none shortStore 2 (some 0) (some 1)).1 = MYSTRING_SUCCESS ∧
      (myStringCat E junk none none shortStore 2 (some 0) (some 1)).2 0 = ⟨[97, 98], 4, 2⟩ ∧
      Reachable E ⟨[97, 98], 4, 2⟩ ∧
      myStringLen E (some ⟨[97, 98], 4, 2⟩) = 4 ∧
      (MyString.stringArray ⟨[97, 98], 4, 2⟩).length = 2 ∧
      (MyString.content ⟨[97, 98], 4, 2⟩).length ≠ myStringLen E (some ⟨[97, 98], 4, 2⟩) ∧
      (2 < myStringLen E (some ⟨[97, 98], 4, 2⟩) ∧
        readChar (MyString.stringArray ⟨[97, 98], 4, 2⟩) 2 = 0) ∧
      myStringSetFromCString E junk none (some (myStringAlloc junk)) (some [53, 0]) =
        (MYSTRING_SUCCESS, some ⟨53 :: List.replicate 15 0, 1, 16⟩) ∧
      myStringClone E junk none (some ⟨53 :: List.replicate 15 0, 1, 16⟩) =
        some ⟨[53], 1, 1⟩ ∧
      (MyString.content ⟨[53], 1, 1⟩) = [53] ∧
      myStringSetFromInt none (some ⟨[53], 1, 1⟩) 123456 =
        (MYSTRING_SUCCESS, some ⟨[49], 6, 1⟩) ∧
      Reachable E ⟨[49], 6, 1⟩ ∧
      myStringLen E (some ⟨[49], 6, 1⟩) = 6 ∧
      (MyString.stringArray ⟨[49], 6, 1⟩).length = 1 ∧
      (MyString.content ⟨[49], 6, 1⟩).length ≠ myStringLen E (some ⟨[49], 6, 1⟩) ∧
      (1 < myStringLen E (some ⟨[49], 6, 1⟩) ∧
        readChar (MyString.stringArray ⟨[49], 6, 1⟩) 1 = 0) :=
  ⟨reachable_shortStore E 0, reachable_shortStore E 1, by decide, by decide, by rfl, by rfl,
    reachable_cat_overfull E junk, rfl, rfl, by simp [MyString.content, myStringLen],
    ⟨by simp [myStringLen], by decide⟩, by rfl, by rfl, by decide, by rfl,
    reachable_setFromInt_overfull E, rfl, rfl, by simp [MyString.content, myStringLen],
    ⟨by simp [myStringLen], by decide⟩⟩

end MyStr

/-! # The Nim game: the first player to empty a box loses -/

namespace NimGame

theorem chooseBox_spec (inputs : List Int) (choice : Int) (rest : List Int)
    (h : chooseBox inputs = some (choice, rest)) :
    (choice = FIRST ∨ choice = SECOND) ∧ rest.length < inputs.length := by
  induction inputs with
  | nil => simp [chooseBox] at h
  | cons c inputs ih =>
    unfold chooseBox at h
    split at h
    · have := ih h
      exact ⟨this.1, by simp only [List.length_cons]; omega⟩
    · rename_i hc
      simp only [Option.some.injEq, Prod.mk.injEq] at h
      obtain ⟨rfl, rfl⟩ := h
      refine ⟨?_, by simp⟩
      by_cases h1 : c = FIRST
      · exact Or.inl h1
      · by_cases h2 : c = SECOND
        · exact Or.inr h2
        · exact absurd ⟨h1, h2⟩ hc

/-- The move `takeBalls` accepts: no box goes below zero, the box taken from shrinks, and the
turn passes to the other player. -/
theorem takeBalls_spec (g : Game) (choice : Int) (inputs : List Int) (g2 : Game)
    (rest : List Int) (hc : choice = FIRST ∨ choice = SECOND) (h1 : 0 ≤ g.gBallsOne)
    (h2 : 0 ≤ g.gBallsTwo) (h : takeBalls g choice inputs = some (g2, rest)) :
    0 ≤ g2.gBallsOne ∧ 0 ≤ g2.gBallsTwo ∧ g2.player ≠ g.player ∧
      (g2.player = FIRST ∨ g2.player = SECOND) ∧ rest.length < inputs.length := by
  induction inputs with
  | nil => simp [takeBalls] at h
  | cons b inputs ih =>
    unfold takeBalls at h
    split at h
    · have := ih h
      exact ⟨this.1, this.2.1, this.2.2.1, this.2.2.2.1, by simp only [List.length_cons]; omega⟩
    · split at h
      · have := ih h
        exact ⟨this.1, this.2.1, this.2.2.1, this.2.2.2.1,
          by simp only [List.length_cons]; omega⟩
      · split at h
        · have := ih h
          exact ⟨this.1, this.2.1, this.2.2.1, this.2.2.2.1,
            by simp only [List.length_cons]; omega⟩
        · rename_i hpos hmax hbox
          simp only [Option.some.injEq, Prod.mk.injEq] at h
          obtain ⟨rfl, rfl⟩ := h
          simp only [EMPTY, MAX_BALLS, FIRST, SECOND] at hpos hmax hbox hc ⊢
          rcases hc with hc | hc
          · subst hc
            have hb : ¬ b > g.gBallsOne := fun hgt => hbox (Or.inl ⟨hgt, rfl⟩)
            by_cases hp : g.player = 1
            · simp [hp]; omega
            · simp [hp]; omega
          · subst hc
            have hb : ¬ b > g.gBallsTwo := fun hgt => hbox (Or.inr ⟨hgt, rfl⟩)
            by_cases hp : g.player = 1
            · simp [hp]; omega
            · simp [hp]; omega

/-- The outer loop never uses up a fuel above the length of the input. -/
theorem runGameLoop_isSome (fuel : Nat) (g : Game) (inputs : List Int)
    (hfuel : inputs.length < fuel) (h1 : 0 ≤ g.gBallsOne) (h2 : 0 ≤ g.gBallsTwo) :
    ∃ r, runGameLoop fuel g inputs = some r := by
  induction fuel generalizing g inputs with
  | zero => omega
  | succ fuel ih =>
    unfold runGameLoop
    split
    · cases hch : chooseBox inputs with
      | none => exact ⟨_, rfl⟩
      | some cr =>
        obtain ⟨choice, rest⟩ := cr
        obtain ⟨hc, hlen⟩ := chooseBox_spec inputs choice rest hch
        simp only
        cases htk : takeBalls g choice rest with
        | none => exact ⟨_, rfl⟩
        | some gr =>
          obtain ⟨g2, rest2⟩ := gr
          obtain ⟨hb1, hb2, _, _, hlen2⟩ := takeBalls_spec g choice rest g2 rest2 hc h1 h2 htk
          obtain ⟨r, hr⟩ := ih g2 rest2 (by omega) hb1 hb2
          simp only [hr, Option.map_some']
          exact ⟨_, rfl⟩
    · exact ⟨_, rfl⟩

/-- What a run of the outer loop from a state without a negative box gives: no box is below
zero after any turn, every turn passes the move to the other of the two players, no box is
empty before the last turn, and the player announced as the winner is the one to move in the
last state, where a box is empty. -/
theorem runGameLoop_spec (fuel : Nat) (g : Game) (inputs : List Int)
    (trace : List (Int × Game)) (winner : Option Int)
    (h1 : 0 ≤ g.gBallsOne) (h2 : 0 ≤ g.gBallsTwo) (hpl : g.player = FIRST ∨ g.player = SECOND)
    (h : runGameLoop fuel g inputs = some (trace, winner)) :
    (∀ e ∈ trace, 0 ≤ e.2.gBallsOne ∧ 0 ≤ e.2.gBallsTwo ∧ e.2.player ≠ e.1 ∧
        (e.2.player = FIRST ∨ e.2.player = SECOND) ∧ (e.1 = FIRST ∨ e.1 = SECOND)) ∧
      (∀ e ∈ trace.dropLast, e.2.gBallsOne ≠ 0 ∧ e.2.gBallsTwo ≠ 0) ∧
      (∀ w, winner = some w →
        w = (lastState g trace).player ∧
          ((lastState g trace).gBallsOne = 0 ∨ (lastState g trace).gBallsTwo = 0)) ∧
      (g.gBallsOne = 0 ∨ g.gBallsTwo = 0 → trace = []) ∧
      (g.gBallsOne ≠ 0 → g.gBallsTwo ≠ 0 → winner ≠ none → trace ≠ []) := by
  induction fuel generalizing g inputs trace winner with
  | zero => simp [runGameLoop] at h
  | succ fuel ih =>
    unfold runGameLoop at h
    split at h
    · rename_i hrun
      have hnot : ¬ (g.gBallsOne = 0 ∨ g.gBallsTwo = 0) := by
        simp only [EMPTY] at hrun
        intro hz
        rcases hz with hz | hz
        · exact hrun.1 hz
        · exact hrun.2 hz
      cases hch : chooseBox inputs with
      | none =>
        simp only [hch, Option.some.injEq, Prod.mk.injEq] at h
        obtain ⟨rfl, rfl⟩ := h
        simp
      | some cr =>
        obtain ⟨choice, rest⟩ := cr
        obtain ⟨hc, _⟩ := chooseBox_spec inputs choice rest hch
        simp only [hch] at h
        cases htk : takeBalls g choice rest with
        | none =>
          simp only [htk, Option.some.injEq, Prod.mk.injEq] at h
          obtain ⟨rfl, rfl⟩ := h
          simp
        | some gr =>
          obtain ⟨g2, rest2⟩ := gr
          obtain ⟨hb1, hb2, hp, hp12, _⟩ := takeBalls_spec g choice rest g2 rest2 hc h1 h2 htk
          simp only [htk] at h
          cases hrec : runGameLoop fuel g2 rest2 with
          | none => simp [hrec] at h
          | some r =>
            obtain ⟨tr, wn⟩ := r
            simp only [hrec, Option.map_some', Option.some.injEq, Prod.mk.injEq] at h
            obtain ⟨rfl, rfl⟩ := h
            obtain ⟨ih1, ih2, ih3, ih4, _⟩ := ih g2 rest2 tr wn hb1 hb2 hp12 hrec
            have hlast : lastState g ((g.player, g2) :: tr) = lastState g2 tr := by
              unfold lastState
              cases tr with
              | nil => simp
              | cons e tr =>
                rw [List.getLast?_cons_cons, List.getLast?_eq_getLast _ (List.cons_ne_nil e tr)]
            refine ⟨?_, ?_, ?_, fun hz => absurd hz hnot, fun _ _ _ => by simp⟩
            · intro e he
              rcases List.mem_cons.mp he with rfl | he
              · exact ⟨hb1, hb2, hp, hp12, hpl⟩
              · exact ih1 e he
            · intro e he
              cases tr with
              | nil => simp at he
              | cons e2 tr2 =>
                rw [List.dropLast_cons₂] at he
                rcases List.mem_cons.mp he with rfl | he
                · constructor
                  · intro hz
                    exact absurd (ih4 (Or.inl hz)) (by simp)
                  · intro hz
                    exact absurd (ih4 (Or.inr hz)) (by simp)
                · exact ih2 e he
            · intro w hw
              rw [hlast]
              exact ih3 w hw
    · rename_i hstop
      simp only [Option.some.injEq, Prod.mk.injEq] at h
      obtain ⟨rfl, rfl⟩ := h
      refine ⟨by simp, by simp, ?_, fun _ => rfl, ?_⟩
      · intro w hw
        simp only [Option.some.injEq] at hw
        simp only [lastState, List.getLast?_nil]
        refine ⟨hw.symm, ?_⟩
        simp only [EMPTY] at hstop
        by_cases hz : g.gBallsOne = 0
        · exact Or.inl hz
        · right
          by_contra hz2
          exact hstop ⟨hz, hz2⟩
      · intro ha hb
        exact absurd ⟨ha, hb⟩ hstop

/-- C35: a run of `runGame` from two positive boxes ends or waits for input, whatever the
input.  No box is below zero after any turn; no box is empty before the last turn; and when
the loop stops and a winner is announced, the last turn has left a box empty, and the winner
is the player to move then, one of the two players and not the one who made that turn. -/
theorem first_to_empty_loses (gBallsOne gBallsTwo : Int) (inputs : List Int)
    (h1 : 0 < gBallsOne) (h2 : 0 < gBallsTwo) :
    ∃ trace winner, runGame gBallsOne gBallsTwo inputs = some (trace, winner) ∧
      (∀ e ∈ trace, 0 ≤ e.2.gBallsOne ∧ 0 ≤ e.2.gBallsTwo) ∧
      (∀ e ∈ trace.dropLast, e.2.gBallsOne ≠ 0 ∧ e.2.gBallsTwo ≠ 0) ∧
      (∀ w, winner = some w →
        ∃ mover g, trace.getLast? = some (mover, g) ∧
          (g.gBallsOne = 0 ∨ g.gBallsTwo = 0) ∧ w = g.player ∧ w ≠ mover ∧
          (w = FIRST ∨ w = SECOND) ∧ (mover = FIRST ∨ mover = SECOND)) := by
  obtain ⟨r, hr⟩ := runGameLoop_isSome (inputs.length + 1) ⟨gBallsOne, gBallsTwo, FIRST⟩ inputs
    (by omega) (le_of_lt h1) (le_of_lt h2)
  obtain ⟨trace, winner⟩ := r
  obtain ⟨s1, s2, s3, _, s5⟩ := runGameLoop_spec _ _ _ trace winner (le_of_lt h1) (le_of_lt h2)
    (Or.inl rfl) hr
  refine ⟨trace, winner, hr, fun e he => ⟨(s1 e he).1, (s1 e he).2.1⟩, s2, ?_⟩
  intro w hw
  have hne : trace ≠ [] := s5 (ne_of_gt h1) (ne_of_gt h2) (by rw [hw]; simp)
  obtain ⟨hwp, hz⟩ := s3 w hw
  have hlast : trace.getLast? = some (trace.getLast hne) := List.getLast?_eq_getLast _ hne
  have hls : lastState ⟨gBallsOne, gBallsTwo, FIRST⟩ trace = (trace.getLast hne).2 := by
    simp only [lastState, hlast]
  rw [hls] at hwp hz
  have hmem := s1 _ (List.getLast_mem hne)
  refine ⟨(trace.getLast hne).1, (trace.getLast hne).2, hlast, hz, hwp, ?_, ?_, hmem.2.2.2.2⟩
  · rw [hwp]; exact hmem.2.2.1
  · rw [hwp]; exact hmem.2.2.2.1

theorem first_to_empty_loses_witness :
    ∃ trace winner, runGame 2 1 [1, 2, 7, 2, 1] = some (trace, winner) ∧
      (∀ e ∈ trace, 0 ≤ e.2.gBallsOne ∧ 0 ≤ e.2.gBallsTwo) ∧
      (∀ e ∈ trace.dropLast, e.2.gBallsOne ≠ 0 ∧ e.2.gBallsTwo ≠ 0) ∧
      (∀ w, winner = some w →
        ∃ mover g, trace.getLast? = some (mover, g) ∧
          (g.gBallsOne = 0 ∨ g.gBallsTwo = 0) ∧ w = g.player ∧ w ≠ mover ∧
          (w = FIRST ∨ w = SECOND) ∧ (mover = FIRST ∨ mover = SECOND)) :=
  first_to_empty_loses 2 1 [1, 2, 7, 2, 1] (by decide) (by decide)

end NimGame

/-! # The substring count -/

namespace CountSubStr

theorem charAt_ne_zero (s : List Int) (i : Nat) (h : i < strlen s) : charAt s i ≠ 0 := by
  induction s generalizing i with
  | nil => simp [strlen] at h
  | cons c rest ih =>
    unfold strlen at h
    by_cases hc : c ≠ 0
    · rw [if_pos hc] at h
      cases i with
      | zero => simpa [charAt] using hc
      | succ k =>
        have := ih k (by omega)
        simpa [charAt] using this
    · rw [if_neg hc] at h
      omega

theorem charAt_strlen (s : List Int) : charAt s (strlen s) = 0 := by
  induction s with
  | nil => simp [charAt, strlen]
  | cons c rest ih =>
    unfold strlen
    by_cases hc : c ≠ 0
    · rw [if_pos hc]
      simpa [charAt] using ih
    · rw [if_neg hc]
      simpa [charAt] using hc

theorem charAt_eq_zero_iff (s : List Int) (i : Nat) (h : i ≤ strlen s) :
    charAt s i = 0 ↔ i = strlen s := by
  constructor
  · intro h0
    by_contra hne
    exact charAt_ne_zero s i (by omega) h0
  · intro e
    rw [e]
    exact charAt_strlen s

/-- The body when the chars differ: one start position further, nothing matched. -/
theorem countSubStrBody_mismatch (str1 str2 : List Int) (isCyclic : Int) (c : Counters)
    (hj : charAt str2 c.j ≠ 0) (h0 : charAt str2 0 ≠ 0)
    (hne : charAt str2 c.j ≠ charAt str1 c.i) :
    countSubStrBody str1 str2 isCyclic c =
      ⟨c.total_count, 0, startPosition c + 1, c.first_found⟩ := by
  obtain ⟨tc, j, i, ff⟩ := c
  simp only at hj hne
  by_cases hj0 : j = 0
  · subst hj0
    simp only [countSubStrBody, startPosition, NULL_BYTE, FIRST_INDEX, NOT_CYCLIC, ne_eq, hj,
      not_false_eq_true, if_true, hne, if_false, not_true_eq_false, and_false]
  · simp only [countSubStrBody, startPosition, NULL_BYTE, FIRST_INDEX, NOT_CYCLIC, ne_eq, hj,
      not_false_eq_true, if_true, hne, if_false, hj0, h0, not_true_eq_false, and_false]

/-- The body when the chars agree and `str2` is not at its end: one more char matched. -/
theorem countSubStrBody_extend (str1 str2 : List Int) (isCyclic : Int) (c : Counters)
    (hj : charAt str2 c.j ≠ 0) (heq : charAt str2 c.j = charAt str1 c.i)
    (hj1 : charAt str2 (c.j + 1) ≠ 0) :
    countSubStrBody str1 str2 isCyclic c =
      ⟨c.total_count, c.j + 1,
        if isCyclic ≠ 0 ∧ charAt str1 (c.i + 1) = 0 then 0 else c.i + 1, startPosition c⟩ := by
  obtain ⟨tc, j, i, ff⟩ := c
  simp only at hj heq hj1
  have hs : j + 1 ≠ 0 := Nat.succ_ne_zero j
  by_cases hj0 : j = 0
  · subst hj0
    simp only [Nat.zero_add] at hj1 hs
    by_cases hcyc : isCyclic ≠ 0 ∧ charAt str1 (i + 1) = 0
    · simp only [countSubStrBody, startPosition, NULL_BYTE, FIRST_INDEX, NOT_CYCLIC, ne_eq,
        hj, not_false_eq_true, if_true, if_pos heq, Nat.zero_add, hj1, if_false, hcyc,
        hcyc.1, hcyc.2, and_self, hs]
    · have hcyc2 : ¬ (¬ isCyclic = 0 ∧ charAt str1 (i + 1) = 0 ∧ True ∧ True) := by
        simpa using hcyc
      simp only [countSubStrBody, startPosition, NULL_BYTE, FIRST_INDEX, NOT_CYCLIC, ne_eq,
        hj, not_false_eq_true, if_true, if_pos heq, Nat.zero_add, hj1, if_false, hcyc, hs,
        hcyc2]
  · by_cases hcyc : isCyclic ≠ 0 ∧ charAt str1 (i + 1) = 0
    · simp only [countSubStrBody, startPosition, NULL_BYTE, FIRST_INDEX, NOT_CYCLIC, ne_eq,
        hj, not_false_eq_true, if_true, if_pos heq, hj0, hj1, if_false, hcyc,
        hcyc.1, hcyc.2, and_self, hs]
    · have hcyc2 : ¬ (¬ isCyclic = 0 ∧ charAt str1 (i + 1) = 0 ∧ True ∧ True) := by
        simpa using hcyc
      simp only [countSubStrBody, startPosition, NULL_BYTE, FIRST_INDEX, NOT_CYCLIC, ne_eq,
        hj, not_false_eq_true, if_true, if_pos heq, hj0, hj1, if_false, hcyc, hs, hcyc2]

/-- The body when the chars agree and `str2` is at its end: an occurrence is counted and the
next start position is tried. -/
theorem countSubStrBody_complete (str1 str2 : List Int) (isCyclic : Int) (c : Counters)
    (hj : charAt str2 c.j ≠ 0) (heq : charAt str2 c.j = charAt str1 c.i)
    (hj1 : charAt str2 (c.j + 1) = 0) :
    countSubStrBody str1 str2 isCyclic c =
      ⟨c.total_count + 1, if charAt str1 (startPosition c + 1) ≠ 0 then 0 else c.j + 1,
        startPosition c + 1, startPosition c + 1⟩ := by
  obtain ⟨tc, j, i, ff⟩ := c
  simp only at hj heq hj1
  by_cases hj0 : j = 0
  · subst hj0
    simp only [Nat.zero_add] at hj1
    by_cases hn : charAt str1 (i + 1) = 0
    · simp only [countSubStrBody, startPosition, NULL_BYTE, FIRST_INDEX, NOT_CYCLIC, ne_eq,
        hj, not_false_eq_true, if_true, if_pos heq, Nat.zero_add, hj1, if_false, hn,
        not_true_eq_false, and_false, false_and]
    · simp only [countSubStrBody, startPosition, NULL_BYTE, FIRST_INDEX, NOT_CYCLIC, ne_eq,
        hj, not_false_eq_true, if_true, if_pos heq, Nat.zero_add, hj1, if_false, hn,
        not_true_eq_false, and_false, false_and]
  · by_cases hn : charAt str1 (ff + 1) = 0
    · simp only [countSubStrBody, startPosition, NULL_BYTE, FIRST_INDEX, NOT_CYCLIC, ne_eq,
        hj, not_false_eq_true, if_true, if_pos heq, hj0, hj1, if_false, hn,
        not_true_eq_false, and_false, false_and]
    · simp only [countSubStrBody, startPosition, NULL_BYTE, FIRST_INDEX, NOT_CYCLIC, ne_eq,
        hj, not_false_eq_true, if_true, if_pos heq, hj0, hj1, if_false, hn,
        not_true_eq_false, and_false, false_and]

end CountSubStr

namespace CountSubStr

theorem succ_mod_cases (a n i : Nat) (hi : a % n = i) (hin : i < n) :
    (a + 1) % n = if i + 1 < n then i + 1 else 0 := by
  have ha : a + 1 = i + 1 + n * (a / n) := by
    have := Nat.mod_add_div a n
    omega
  rw [ha, Nat.add_mul_mod_self_left]
  split
  · rename_i h
    exact Nat.mod_eq_of_lt h
  · rename_i h
    have : i + 1 = n := by omega
    rw [this, Nat.mod_self]

theorem count_eq_of_none (P : Nat → Prop) [DecidablePred P] (p n : Nat) (hpn : p ≤ n)
    (h : ∀ q, p ≤ q → q < n → ¬ P q) : Nat.count P n = Nat.count P p := by
  induction n with
  | zero =>
    have : p = 0 := by omega
    rw [this]
  | succ n ih =>
    by_cases hp : p = n + 1
    · rw [hp]
    · rw [Nat.count_succ, if_neg (h n (by omega) (by omega)),
        ih (by omega) (fun q h1 h2 => h q h1 (by omega))]
      rfl

/-- The state after an attempt has ended at the start position `p`: the loop goes on with the
next start position, or it ends with the count of all occurrences. -/
theorem advance (str1 str2 : List Int) (isCyclic : Int) (p tc j ff : Nat)
    (hm : 0 < strlen str2) (hp : p < strlen str1)
    (hcount : tc = Nat.count (OccursAt str1 str2 isCyclic) (p + 1))
    (hj : p + 1 < strlen str1 → j = 0) :
    (charAt str1 (p + 1) ≠ 0 ∧ LoopInvariant str1 str2 isCyclic ⟨tc, j, p + 1, ff⟩ ∧
        startPosition ⟨tc, j, p + 1, ff⟩ = p + 1 ∧ j = 0) ∨
      (charAt str1 (p + 1) = 0 ∧ tc = occurrences str1 str2 isCyclic) := by
  by_cases hlt : p + 1 < strlen str1
  · left
    have hj0 := hj hlt
    subst hj0
    refine ⟨charAt_ne_zero str1 _ hlt, ?_, rfl, rfl⟩
    refine ⟨hlt, hm, ?_, fun _ => hlt, fun k hk => absurd hk (Nat.not_lt_zero k), hcount⟩
    simp only [startPosition, if_true, Nat.add_zero]
    exact (Nat.mod_eq_of_lt hlt).symm
  · right
    have he : p + 1 = strlen str1 := by omega
    refine ⟨by rw [he]; exact charAt_strlen str1, ?_⟩
    rw [hcount, he]
    rfl

/-- One turn of the body from a state in which the invariant holds: the loop goes on, the
invariant holds again and less work is left, or the loop ends with the count of all
occurrences. -/
theorem countSubStrBody_step (str1 str2 : List Int) (isCyclic : Int) (c : Counters)
    (h : LoopInvariant str1 str2 isCyclic c) :
    (charAt str1 (countSubStrBody str1 str2 isCyclic c).i ≠ 0 ∧
        LoopInvariant str1 str2 isCyclic (countSubStrBody str1 str2 isCyclic c) ∧
        workLeft str1 str2 (countSubStrBody str1 str2 isCyclic c) < workLeft str1 str2 c ∧
        (startPosition (countSubStrBody str1 str2 isCyclic c) = startPosition c ∧
            (countSubStrBody str1 str2 isCyclic c).j = c.j + 1 ∨
          startPosition (countSubStrBody str1 str2 isCyclic c) = startPosition c + 1 ∧
            (countSubStrBody str1 str2 isCyclic c).j = 0 ∧
            (countSubStrBody str1 str2 isCyclic c).i = startPosition c + 1)) ∨
      (charAt str1 (countSubStrBody str1 str2 isCyclic c).i = 0 ∧
        (countSubStrBody str1 str2 isCyclic c).total_count =
          occurrences str1 str2 isCyclic) := by
  obtain ⟨hp, hjm, hi, hnc, hpm, htc⟩ := h
  have hj : charAt str2 c.j ≠ 0 := charAt_ne_zero str2 _ hjm
  have h0 : charAt str2 0 ≠ 0 := charAt_ne_zero str2 _ (by omega)
  have hin : c.i < strlen str1 := by rw [hi]; exact Nat.mod_lt _ (by omega)
  have hA : (strlen str1 - startPosition c) * strlen str2 =
      (strlen str1 - (startPosition c + 1)) * strlen str2 + strlen str2 := by
    have : strlen str1 - startPosition c = (strlen str1 - (startPosition c + 1)) + 1 := by
      omega
    rw [this, Nat.succ_mul]
  have hnoncyc : isCyclic = 0 → c.i = startPosition c + c.j := by
    intro hz
    rw [hi]
    exact Nat.mod_eq_of_lt (hnc hz)
  by_cases heq : charAt str2 c.j = charAt str1 c.i
  · by_cases hend : c.j + 1 = strlen str2
    · -- the last char of `str2` is matched
      have hj1 : charAt str2 (c.j + 1) = 0 := by rw [hend]; exact charAt_strlen str2
      have hocc : OccursAt str1 str2 isCyclic (startPosition c) := by
        have hall : ∀ k, k < strlen str2 →
            charAt str1 ((startPosition c + k) % strlen str1) = charAt str2 k := by
          intro k hk
          by_cases hkj : k < c.j
          · exact hpm k hkj
          · have : k = c.j := by omega
            rw [this, ← hi, heq]
        unfold OccursAt
        by_cases hz : isCyclic = 0
        · rw [if_neg (by simpa using hz)]
          have := hnc hz
          refine ⟨by omega, fun k hk => ?_⟩
          have hk2 := hall k hk
          rwa [Nat.mod_eq_of_lt (by omega)] at hk2
        · rw [if_pos hz]
          exact hall
      rw [countSubStrBody_complete str1 str2 isCyclic c hj heq hj1]
      rcases advance str1 str2 isCyclic (startPosition c) (c.total_count + 1)
          (if charAt str1 (startPosition c + 1) ≠ 0 then 0 else c.j + 1)
          (startPosition c + 1) (by omega) hp
          (by rw [Nat.count_succ, if_pos hocc, htc])
          (fun hlt => by rw [if_pos (charAt_ne_zero str1 _ hlt)]) with ⟨a1, a2, a3, a4⟩ | ⟨a1, a2⟩
      · left
        refine ⟨a1, a2, ?_, Or.inr ⟨a3, a4, rfl⟩⟩
        unfold workLeft
        rw [a3, hA]
        simp only [a4]
        omega
      · right
        exact ⟨a1, a2⟩
    · -- one more char of `str2` is matched
      have hj1 : charAt str2 (c.j + 1) ≠ 0 := charAt_ne_zero str2 _ (by omega)
      rw [countSubStrBody_extend str1 str2 isCyclic c hj heq hj1]
      have hsm := succ_mod_cases (startPosition c + c.j) (strlen str1) c.i hi.symm hin
      have hstart : ∀ x, startPosition ⟨c.total_count, c.j + 1, x, startPosition c⟩ =
          startPosition c := by
        intro x
        simp [startPosition]
      have hpm2 : ∀ k, k < c.j + 1 →
          charAt str1 ((startPosition c + k) % strlen str1) = charAt str2 k := by
        intro k hk
        by_cases hkj : k < c.j
        · exact hpm k hkj
        · have : k = c.j := by omega
          rw [this, ← hi, heq]
      have hwork : ∀ x, workLeft str1 str2 ⟨c.total_count, c.j + 1, x, startPosition c⟩ <
          workLeft str1 str2 c := by
        intro x
        unfold workLeft
        rw [hstart, hA]
        simp only
        omega
      by_cases hlt : c.i + 1 < strlen str1
      · have hne : charAt str1 (c.i + 1) ≠ 0 := charAt_ne_zero str1 _ hlt
        have hif : ¬ (isCyclic ≠ 0 ∧ charAt str1 (c.i + 1) = 0) := fun hc => hne hc.2
        rw [if_neg hif]
        rw [if_pos hlt] at hsm
        left
        refine ⟨hne, ⟨?_, ?_, ?_, ?_, ?_, ?_⟩, hwork _, Or.inl ⟨hstart _, rfl⟩⟩
        · rw [hstart]; exact hp
        · simp only; omega
        · rw [hstart]
          simp only
          rw [← Nat.add_assoc, hsm]
        · intro hz
          rw [hstart]
          simp only
          have := hnoncyc hz
          omega
        · rw [hstart]
          exact hpm2
        · rw [hstart]
          exact htc
      · have he : c.i + 1 = strlen str1 := by omega
        have hzero : charAt str1 (c.i + 1) = 0 := by rw [he]; exact charAt_strlen str1
        rw [if_neg hlt] at hsm
        by_cases hz : isCyclic = 0
        · -- not cyclic: the end of `str1` is reached within an attempt
          have hif : ¬ (isCyclic ≠ 0 ∧ charAt str1 (c.i + 1) = 0) := fun hc => hc.1 hz
          rw [if_neg hif]
          right
          refine ⟨hzero, ?_⟩
          simp only
          rw [htc]
          unfold occurrences
          symm
          apply count_eq_of_none _ _ _ (le_of_lt hp)
          intro q hq1 hq2 hocc
          unfold OccursAt at hocc
          rw [if_neg (by simpa using hz)] at hocc
          have := hnoncyc hz
          omega
        · have hif : isCyclic ≠ 0 ∧ charAt str1 (c.i + 1) = 0 := ⟨hz, hzero⟩
          rw [if_pos hif]
          left
          refine ⟨charAt_ne_zero str1 0 (by omega), ⟨?_, ?_, ?_, ?_, ?_, ?_⟩, hwork _,
            Or.inl ⟨hstart _, rfl⟩⟩
          · rw [hstart]; exact hp
          · simp only; omega
          · rw [hstart]
            simp only
            rw [← Nat.add_assoc, hsm]
          · intro hz2
            exact absurd hz2 hz
          · rw [hstart]
            exact hpm2
          · rw [hstart]
            exact htc
  · -- the chars differ
    have hnocc : ¬ OccursAt str1 str2 isCyclic (startPosition c) := by
      intro hocc
      unfold OccursAt at hocc
      by_cases hz : isCyclic = 0
      · rw [if_neg (by simpa using hz)] at hocc
        have := hocc.2 c.j hjm
        rw [← hnoncyc hz] at this
        exact heq this.symm
      · rw [if_pos hz] at hocc
        have := hocc c.j hjm
        rw [← hi] at this
        exact heq this.symm
    rw [countSubStrBody_mismatch str1 str2 isCyclic c hj h0 heq]
    rcases advance str1 str2 isCyclic (startPosition c) c.total_count 0 c.first_found
        (by omega) hp (by rw [Nat.count_succ, if_neg hnocc, htc]; rfl) (fun _ => rfl)
        with ⟨a1, a2, a3, a4⟩ | ⟨a1, a2⟩
    · left
      refine ⟨a1, a2, ?_, Or.inr ⟨a3, rfl, rfl⟩⟩
      unfold workLeft
      rw [a3, hA]
      simp only
      omega
    · right
      exact ⟨a1, a2⟩

end CountSubStr

namespace CountSubStr

theorem workLeft_pos (str1 str2 : List Int) (isCyclic : Int) (c : Counters)
    (h : LoopInvariant str1 str2 isCyclic c) : 0 < workLeft str1 str2 c := by
  obtain ⟨hp, hjm, _, _, _, _⟩ := h
  have hA : (strlen str1 - startPosition c) * strlen str2 =
      (strlen str1 - (startPosition c + 1)) * strlen str2 + strlen str2 := by
    have : strlen str1 - startPosition c = (strlen str1 - (startPosition c + 1)) + 1 := by
      omega
    rw [this, Nat.succ_mul]
  unfold workLeft
  rw [hA]
  omega

/-- From a state in which the invariant holds the loop ends within the turns that
`workLeft` gives, with the number of occurrences. -/
theorem countSubStrLoop_correct (str1 str2 : List Int) (isCyclic : Int) (fuel : Nat)
    (c : Counters) (h : LoopInvariant str1 str2 isCyclic c)
    (hfuel : workLeft str1 str2 c ≤ fuel) :
    countSubStrLoop str1 str2 isCyclic fuel c = some (occurrences str1 str2 isCyclic) := by
  induction fuel generalizing c with
  | zero =>
    have := workLeft_pos str1 str2 isCyclic c h
    omega
  | succ fuel ih =>
    unfold countSubStrLoop
    simp only [NULL_BYTE]
    rcases countSubStrBody_step str1 str2 isCyclic c h with ⟨a1, a2, a3, _⟩ | ⟨a1, a2⟩
    · rw [if_pos a1]
      exact ih _ a2 (by omega)
    · rw [if_neg (not_not.mpr a1), a2]

theorem loopInvariant_start (str1 str2 : List Int) (isCyclic : Int)
    (h1 : strlen str1 ≠ 0) (h2 : strlen str2 ≠ 0) :
    LoopInvariant str1 str2 isCyclic ⟨0, 0, 0, 0⟩ := by
  refine ⟨?_, ?_, ?_, ?_, ?_, ?_⟩
  · simp only [startPosition, if_true]; omega
  · simp only; omega
  · simp [startPosition]
  · intro _
    simp only [startPosition, if_true]; omega
  · intro k hk
    exact absurd hk (Nat.not_lt_zero k)
  · simp [startPosition]

/-- The counters are below `2^31` wherever the invariant holds, for strings shorter than
that. -/
theorem loopInvariant_bounds (str1 str2 : List Int) (isCyclic : Int) (c : Counters)
    (hlen1 : strlen str1 < 2 ^ 31) (hlen2 : strlen str2 < 2 ^ 31)
    (h : LoopInvariant str1 str2 isCyclic c) :
    c.i < 2 ^ 31 ∧ c.j < 2 ^ 31 ∧ c.total_count < 2 ^ 31 := by
  obtain ⟨hp, hjm, hi, _, _, htc⟩ := h
  have h1 : c.i < strlen str1 := by rw [hi]; exact Nat.mod_lt _ (by omega)
  have h2 : c.total_count ≤ startPosition c := by rw [htc]; exact Nat.count_le _
  omega

/-- The value `countSubStr` returns for two strings that are not empty, the first shorter
than `2^31`: the number of occurrences, within as many turns of the loop as the product of
the lengths. -/
theorem countSubStr_eq (str1 str2 : List Int) (isCyclic : Int) (fuel : Nat)
    (h1 : strlen str1 ≠ 0) (h2 : strlen str2 ≠ 0) (hlen1 : strlen str1 < 2 ^ 31)
    (hfuel : strlen str1 * strlen str2 ≤ fuel) :
    countSubStr fuel (some str1) (some str2) isCyclic =
      some (occurrences str1 str2 isCyclic) := by
  have e1 : ¬ charAt str1 0 = 0 := fun h =>
    h1 ((charAt_eq_zero_iff str1 0 (Nat.zero_le _)).mp h).symm
  have e2 : ¬ charAt str2 0 = 0 := fun h =>
    h2 ((charAt_eq_zero_iff str2 0 (Nat.zero_le _)).mp h).symm
  have hloop := countSubStrLoop_correct str1 str2 isCyclic fuel ⟨0, 0, 0, 0⟩
    (loopInvariant_start str1 str2 isCyclic h1 h2)
    (by simpa [workLeft, startPosition] using hfuel)
  have hle : occurrences str1 str2 isCyclic ≤ strlen str1 := Nat.count_le _
  simp only [countSubStr, FIRST_INDEX, NULL_BYTE, EMPTY, e1, e2, or_self, if_false, hloop,
    Option.map_some']
  congr 1
  exact Nat.mod_eq_of_lt (by omega)

theorem countSubStr_empty (str1 str2 : List Int) (isCyclic : Int) (fuel : Nat)
    (h : strlen str1 = 0 ∨ strlen str2 = 0) :
    countSubStr fuel (some str1) (some str2) isCyclic = some 0 := by
  have hc : charAt str1 0 = 0 ∨ charAt str2 0 = 0 := by
    rcases h with h | h
    · left; rw [← h]; exact charAt_strlen str1
    · right; rw [← h]; exact charAt_strlen str2
  simp only [countSubStr, FIRST_INDEX, NULL_BYTE, EMPTY, hc, if_true]

/-- C32: for two strings that are not empty and shorter than `2^31`, `countSubStr` with
`isCyclic = 0` returns, within as many turns of its loop as the product of the lengths, the
number of indices `p` with `p + len(str2) ≤ len(str1)` from which on the chars of `str1` are
those of `str2`, every such index counted; `abcabc` holds one `bca`.  When a string is empty
it returns 0.  The `int` counters are below `2^31` whenever the body of the loop is
entered. -/
theorem countSubStr_not_cyclic (str1 str2 : List Int) (fuel : Nat)
    (h1 : strlen str1 ≠ 0) (h2 : strlen str2 ≠ 0) (hlen1 : strlen str1 < 2 ^ 31)
    (hlen2 : strlen str2 < 2 ^ 31) (hfuel : strlen str1 * strlen str2 ≤ fuel) :
    countSubStr fuel (some str1) (some str2) NOT_CYCLIC =
        some (Nat.count (fun p => p + strlen str2 ≤ strlen str1 ∧
          ∀ k, k < strlen str2 → charAt str1 (p + k) = charAt str2 k) (strlen str1)) ∧
      countSubStr 18 (some [97, 98, 99, 97, 98, 99]) (some [98, 99, 97]) NOT_CYCLIC = some 1 ∧
      (∀ (s1 s2 : List Int) n, strlen s1 = 0 ∨ strlen s2 = 0 →
        countSubStr n (some s1) (some s2) NOT_CYCLIC = some 0) ∧
      (∀ c, LoopInvariant str1 str2 NOT_CYCLIC c →
        c.i < 2 ^ 31 ∧ c.j < 2 ^ 31 ∧ c.total_count < 2 ^ 31) := by
  refine ⟨?_, by decide, fun s1 s2 n h => countSubStr_empty s1 s2 _ n h,
    fun c hc => loopInvariant_bounds str1 str2 _ c hlen1 hlen2 hc⟩
  rw [countSubStr_eq str1 str2 NOT_CYCLIC fuel h1 h2 hlen1 hfuel]
  congr 1

theorem countSubStr_not_cyclic_witness :
    countSubStr 6 (some [97, 97, 97, 0, 97]) (some [97, 97]) NOT_CYCLIC =
      some (Nat.count (fun p => p + strlen [97, 97] ≤ strlen [97, 97, 97, 0, 97] ∧
        ∀ k, k < strlen [97, 97] →
          charAt [97, 97, 97, 0, 97] (p + k) = charAt [97, 97] k) (strlen [97, 97, 97, 0, 97])) :=
  (countSubStr_not_cyclic [97, 97, 97, 0, 97] [97, 97] 6 (by decide) (by decide) (by decide)
    (by decide) (by decide)).1

/-- C33: for two strings that are not empty and shorter than `2^31`, `countSubStr` with
`isCyclic` not 0 returns, within as many turns of its loop as the product of the lengths, the
number of start indices `p` below `len(str1)` with `str1[(p + k) mod len(str1)] = str2[k]`
for every `k` below `len(str2)`; `abcabc` holds two cyclic occurrences of `bca`.  The `int`
counters are below `2^31` whenever the body of the loop is entered. -/
theorem countSubStr_cyclic (str1 str2 : List Int) (isCyclic : Int) (fuel : Nat)
    (hc : isCyclic ≠ 0) (h1 : strlen str1 ≠ 0) (h2 : strlen str2 ≠ 0)
    (hlen1 : strlen str1 < 2 ^ 31) (hlen2 : strlen str2 < 2 ^ 31)
    (hfuel : strlen str1 * strlen str2 ≤ fuel) :
    countSubStr fuel (some str1) (some str2) isCyclic =
        some (Nat.count (fun p => ∀ k, k < strlen str2 →
          charAt str1 ((p + k) % strlen str1) = charAt str2 k) (strlen str1)) ∧
      countSubStr 18 (some [97, 98, 99, 97, 98, 99]) (some [98, 99, 97]) 1 = some 2 ∧
      (∀ c, LoopInvariant str1 str2 isCyclic c →
        c.i < 2 ^ 31 ∧ c.j < 2 ^ 31 ∧ c.total_count < 2 ^ 31) := by
  refine ⟨?_, by decide, fun c hc => loopInvariant_bounds str1 str2 _ c hlen1 hlen2 hc⟩
  rw [countSubStr_eq str1 str2 isCyclic fuel h1 h2 hlen1 hfuel]
  congr 1
  unfold occurrences
  congr 1
  funext p
  simp [OccursAt, hc]

theorem countSubStr_cyclic_witness :
    countSubStr 6 (some [97, 98, 97]) (some [97, 97]) 5 =
      some (Nat.count (fun p => ∀ k, k < strlen [97, 97] →
        charAt [97, 98, 97] ((p + k) % strlen [97, 98, 97]) = charAt [97, 97] k)
        (strlen [97, 98, 97])) :=
  (countSubStr_cyclic [97, 98, 97] [97, 97] 5 6 (by decide) (by decide) (by decide) (by decide)
    (by decide) (by decide)).1

/-- C34: for a null pointer as `str1` or as `str2`, `countSubStr` returns 0, with either
value of `isCyclic`; the documented `-1` would be `4294967295` as an `unsigned int`. -/
theorem countSubStr_null (fuel : Nat) (str : Option (List Int)) (isCyclic : Int) :
    countSubStr fuel none str isCyclic = some 0 ∧
      countSubStr fuel str none isCyclic = some 0 ∧
      countSubStr fuel none str isCyclic ≠ some ((-1 : Int) % 2 ^ 32).toNat ∧
      countSubStr fuel str none isCyclic ≠ some ((-1 : Int) % 2 ^ 32).toNat := by
  have h1 : countSubStr fuel none str isCyclic = some 0 := rfl
  have h2 : countSubStr fuel str none isCyclic = some 0 := by cases str <;> rfl
  refine ⟨h1, h2, ?_, ?_⟩
  · rw [h1]; decide
  · rw [h2]; decide

/-- C40: for strings shorter than `2^31` the loop of `countSubStr` ends, in both modes,
within as many turns as the product of the lengths.  Whenever the body is entered an
attempt is under way from a start position; a turn after which the loop goes on leaves less
work: either the attempt goes on with one char more matched, the only case in which `i` can
have gone back to 0, or the next attempt starts one position further, at `i`. -/
theorem countSubStr_terminates (str1 str2 : List Int) (isCyclic : Int)
    (hlen1 : strlen str1 < 2 ^ 31) (hlen2 : strlen str2 < 2 ^ 31) :
    (∀ fuel, strlen str1 * strlen str2 ≤ fuel →
        ∃ r, countSubStr fuel (some str1) (some str2) isCyclic = some r) ∧
      (strlen str1 ≠ 0 → strlen str2 ≠ 0 →
        LoopInvariant str1 str2 isCyclic ⟨EMPTY, FIRST_INDEX, FIRST_INDEX, FIRST_INDEX⟩) ∧
      (∀ c, LoopInvariant str1 str2 isCyclic c →
        c.i < 2 ^ 31 ∧ c.j < 2 ^ 31 ∧ c.total_count < 2 ^ 31 ∧
        (charAt str1 (countSubStrBody str1 str2 isCyclic c).i ≠ NULL_BYTE →
          LoopInvariant str1 str2 isCyclic (countSubStrBody str1 str2 isCyclic c) ∧
          workLeft str1 str2 (countSubStrBody str1 str2 isCyclic c) < workLeft str1 str2 c ∧
          (startPosition (countSubStrBody str1 str2 isCyclic c) = startPosition c ∧
              (countSubStrBody str1 str2 isCyclic c).j = c.j + 1 ∨
            startPosition (countSubStrBody str1 str2 isCyclic c) = startPosition c + 1 ∧
              (countSubStrBody str1 str2 isCyclic c).j = 0 ∧
              (countSubStrBody str1 str2 isCyclic c).i = startPosition c + 1))) := by
  refine ⟨?_, fun h1 h2 => loopInvariant_start str1 str2 isCyclic h1 h2, ?_⟩
  · intro fuel hfuel
    by_cases h : strlen str1 = 0 ∨ strlen str2 = 0
    · exact ⟨_, countSubStr_empty str1 str2 isCyclic fuel h⟩
    · have h1 : strlen str1 ≠ 0 := fun e => h (Or.inl e)
      have h2 : strlen str2 ≠ 0 := fun e => h (Or.inr e)
      exact ⟨_, countSubStr_eq str1 str2 isCyclic fuel h1 h2 hlen1 hfuel⟩
  · intro c hc
    obtain ⟨b1, b2, b3⟩ := loopInvariant_bounds str1 str2 isCyclic c hlen1 hlen2 hc
    refine ⟨b1, b2, b3, ?_⟩
    intro hgo
    rcases countSubStrBody_step str1 str2 isCyclic c hc with ⟨_, a2, a3, a4⟩ | ⟨a1, _⟩
    · exact ⟨a2, a3, a4⟩
    · exact absurd a1 hgo

theorem countSubStr_terminates_witness :
    ∃ r, countSubStr 6 (some [97, 98, 97]) (some [97, 97]) 1 = some r :=
  (countSubStr_terminates [97, 98, 97] [97, 97] 1 (by decide) (by decide)).1 6 (by decide)

end CountSubStr
